import Mathlib

/-!
# magic_piano: the JavaScript glue between the wasm core and its hosts

A shallow embedding of `magic_piano-963cd81fd0d30dc2.js`: the handle slab
(`heap`, `addHeapObject`, `getObject`), the error boundary `handleError`,
the marshalling helpers and the import bindings that reach the
score-rendering, audio and storage collaborators.

Conventions of the embedding.

* The mutable module-level variables of the file are the fields of `Glue`;
  every function of the file becomes a function that takes the state and
  returns an outcome together with the state it leaves behind.  A JavaScript
  exception is the `Except.error` outcome; the state reached before the throw
  is kept, as it is in JavaScript.
* Everything the file does not define (the browser, OpenSheetMusicDisplay, the
  Web Audio objects, the storage object) is the `Host`; the exports of the
  wasm module the file calls are the `Wasm`.  Both are parameters.  Each
  interaction with them is appended to `Glue.trace`.
* A host call is atomic: while it runs, the slab and the linear memory are not
  touched by anybody else.
* The linear memory is a map from byte addresses to bytes, read and written in
  little-endian words by the 32-bit views; every address the allocator hands
  out is taken to lie inside it.
* Handles and addresses that arrive from wasm are natural numbers; a number
  the glue only forwards is any `JsVal`.
* A closure made by `makeMutClosure` or `makeClosure` is its state record
  together with the invocations in progress; invoking, returning, dropping and
  garbage collection are the events of `ClosureEvent`.  A function that is
  being invoked is reachable and is not collected.
* In `debugString` the operator `typeof` and the conversion of a primitive
  value to a string are the language's; the class name of an object
  (`toString.call`), `JSON.stringify` and the conversion of an object to a
  string are calls of the host.
* The extractor of `tailwind.config.js` works on the content as a list of
  characters; the global match of its pattern is a scanner that goes through
  the content once, from left to right.
* The playback core (rational time, the score timeline, the cursor controller,
  the audio scheduler, the transport) is not among the sources: its
  definitions follow the specification and say so.  Real time is rational.
-/

namespace MagicPiano

/-! ## JavaScript values -/

/-- The JavaScript values the glue code tells apart.  Strings are sequences of
UTF-16 code units.  `fn` is a global of the host named by its identifier (a
constructor, a function or a namespace object), `obj` a reference to a host
object, `err` an error object made by the engine itself (for example the
`TypeError` of calling a method of `undefined`), `lit` an object or closure the
glue itself creates, named by its place in the source. -/
inductive JsVal where
  | undefined
  | null
  | bool (b : Bool)
  | num (n : Int)
  | str (units : List Nat)
  | fn (name : String)
  | obj (id : Nat)
  | err (name : String)
  | lit (name : String)
  | arr (items : List JsVal)

namespace JsVal

mutual
/-- Structural equality test on values. -/
def beq : JsVal → JsVal → Bool
  | undefined, undefined => true
  | null, null => true
  | bool a, bool b => a == b
  | num a, num b => a == b
  | str a, str b => a == b
  | fn a, fn b => a == b
  | obj a, obj b => a == b
  | err a, err b => a == b
  | lit a, lit b => a == b
  | arr a, arr b => beqList a b
  | _, _ => false
/-- Structural equality test on lists of values. -/
def beqList : List JsVal → List JsVal → Bool
  | [], [] => true
  | a :: as, b :: bs => beq a b && beqList as bs
  | _, _ => false
end

mutual
theorem eq_of_beq : ∀ (a b : JsVal), beq a b = true → a = b
  | undefined, b, h => by cases b <;> simp_all [beq]
  | null, b, h => by cases b <;> simp_all [beq]
  | bool a, b, h => by cases b <;> simp_all [beq]
  | num a, b, h => by cases b <;> simp_all [beq]
  | str a, b, h => by cases b <;> simp_all [beq]
  | fn a, b, h => by cases b <;> simp_all [beq]
  | obj a, b, h => by cases b <;> simp_all [beq]
  | err a, b, h => by cases b <;> simp_all [beq]
  | lit a, b, h => by cases b <;> simp_all [beq]
  | arr a, b, h => by
      cases b <;> simp [beq] at h
      rw [eq_of_beqList a _ h]
theorem eq_of_beqList : ∀ (a b : List JsVal), beqList a b = true → a = b
  | [], b, h => by cases b <;> simp_all [beqList]
  | a :: as, b, h => by
      cases b with
      | nil => simp [beqList] at h
      | cons b bs =>
        simp [beqList] at h
        rw [eq_of_beq a b h.1, eq_of_beqList as bs h.2]
end

mutual
theorem beq_self : ∀ (a : JsVal), beq a a = true
  | undefined => by simp [beq]
  | null => by simp [beq]
  | bool a => by simp [beq]
  | num a => by simp [beq]
  | str a => by simp [beq]
  | fn a => by simp [beq]
  | obj a => by simp [beq]
  | err a => by simp [beq]
  | lit a => by simp [beq]
  | arr a => by simp [beq, beqList_self a]
theorem beqList_self : ∀ (a : List JsVal), beqList a a = true
  | [] => by simp [beqList]
  | a :: as => by simp [beqList, beq_self a, beqList_self as]
end

instance : DecidableEq JsVal := fun a b =>
  decidable_of_iff (beq a b = true) ⟨eq_of_beq a b, fun h => h ▸ beq_self a⟩

instance : Inhabited JsVal := ⟨undefined⟩

end JsVal

/-- The code units of an ASCII text, for the string literals of the source. -/
def units (s : String) : List Nat := s.toList.map Char.toNat

/-! ## Host, wasm exports and the state of the module -/

/-- One interaction of the glue with what it does not define itself. -/
inductive Event where
  /-- The expression `new ctor(...args)`. -/
  | construct (ctor : JsVal) (args : List JsVal)
  /-- The expression `recv.method(...args)`. -/
  | call (recv : JsVal) (method : String) (args : List JsVal)
  /-- The expression `recv.prop`. -/
  | get (recv : JsVal) (prop : String)
  /-- The statement `recv.prop = value`. -/
  | set (recv : JsVal) (prop : String) (value : JsVal)
  /-- The expression `f(...args)` on a function that is not a method. -/
  | apply (f : JsVal) (args : List JsVal)
  /-- The expression `await v`. -/
  | await (v : JsVal)
  /-- The call `wasm.name(...args)` of an export of the wasm module. -/
  | wasm (name : String) (args : List JsVal)
  deriving DecidableEq

/-- How a host operation ends. -/
inductive Outcome where
  | ret (v : JsVal)
  | throw (e : JsVal)
  deriving DecidableEq

/-- The surroundings of the module.  Every operation sees the interactions so
far, so a host may answer the same question differently over time (a
constructor returns a new object at each call, a cursor moves). -/
structure Host where
  /-- The test `typeof name !== 'undefined'` on a global. -/
  defined : String → Bool
  /-- The test `typeof name === 'function'` on a global or on a property of one. -/
  isFunction : String → Bool
  /-- The test `v instanceof name`. -/
  instanceOf : JsVal → String → Bool
  construct : List Event → JsVal → List JsVal → Outcome
  call : List Event → JsVal → String → List JsVal → Outcome
  get : List Event → JsVal → String → Outcome
  apply : List Event → JsVal → List JsVal → Outcome
  /-- What `await v` yields: the value the promise is fulfilled with, or the
  reason it is rejected with, which `await` throws. -/
  await : List Event → JsVal → Outcome
  /-- The method `decode` of the cached `TextDecoder` on a run of bytes. -/
  decode : List Nat → Outcome
  /-- The test `typeof cachedTextEncoder.encodeInto === 'function'`. -/
  hasEncodeInto : Bool

/-- The linear memory of the wasm instance, byte by byte. -/
abbrev Mem := Nat → Nat

/-- The exports of the wasm module that allocate in its linear memory.  Each
returns the `i32` result and the memory it leaves behind. -/
structure Wasm where
  /-- The export `__wbindgen_malloc(size, align)`. -/
  malloc : List Event → Mem → Nat → Nat → Int × Mem
  /-- Whether the module exports `__wbindgen_realloc`; without it the
  argument `realloc` of `passStringToWasm0` is `undefined`. -/
  hasRealloc : Bool
  /-- The export `__wbindgen_realloc(ptr, oldSize, newSize, align)`. -/
  realloc : List Event → Mem → Nat → Nat → Nat → Nat → Int × Mem

/-- The module-level variables of the glue, the linear memory of the wasm module
and the interactions so far. -/
structure Glue where
  heap : List JsVal
  heap_next : Nat
  WASM_VECTOR_LEN : Nat
  mem : Mem
  /-- The variable `wasm`: `undefined` until `__wbg_finalize_init` stores the exports. -/
  wasm : JsVal
  trace : List Event

/-- The result of running a piece of the glue: how it ended, and the state. -/
abbrev Run (α : Type) := Except JsVal α × Glue

/-- Sequencing of two pieces of the glue: the second runs when the first did not throw. -/
def andThen {α β : Type} (r : Run α) (k : α → Glue → Run β) : Run β :=
  match r with
  | (Except.ok a, g) => k a g
  | (Except.error e, g) => (Except.error e, g)

/-- Appends an interaction to the record. -/
def Glue.log (g : Glue) (ev : Event) : Glue := { g with trace := g.trace ++ [ev] }

/-- The slab after `const heap = new Array(128).fill(undefined);
heap.push(undefined, null, true, false);`. -/
def initialHeap : List JsVal :=
  List.replicate 128 JsVal.undefined ++
    [JsVal.undefined, JsVal.null, JsVal.bool true, JsVal.bool false]

/-- The module-level variables as the module body sets them:
`heap_next = heap.length`, `WASM_VECTOR_LEN = 0`, `wasm` not yet assigned. -/
def Glue.initial (mem : Mem) : Glue :=
  { heap := initialHeap, heap_next := initialHeap.length, WASM_VECTOR_LEN := 0,
    mem := mem, wasm := JsVal.undefined, trace := [] }

/-! ## The handle slab -/

/-- The function `getObject`: `heap[idx]`, which is `undefined` past the end. -/
def getObject (idx : Nat) (g : Glue) : JsVal := g.heap.getD idx JsVal.undefined

/-- The assignment `xs[i] = v` on a JavaScript array: past the end the array
grows and the skipped slots read as `undefined`. -/
def jsSet (xs : List JsVal) (i : Nat) (v : JsVal) : List JsVal :=
  if i < xs.length then xs.set i v
  else xs ++ List.replicate (i - xs.length) JsVal.undefined ++ [v]

/-- The number read from a slot of the free list.  A slot on the free list
always holds the index of the next free slot; any other value is read as 0. -/
def asIndex : JsVal → Nat
  | JsVal.num n => n.toNat
  | _ => 0

/-- The function `addHeapObject`. -/
def addHeapObject (obj : JsVal) (g : Glue) : Nat × Glue :=
  let heap1 :=
    if g.heap_next = g.heap.length then g.heap ++ [JsVal.num (g.heap.length + 1)] else g.heap
  let idx := g.heap_next
  let next := asIndex (heap1.getD idx JsVal.undefined)
  (idx, { g with heap := jsSet heap1 idx obj, heap_next := next })

/-- The function `isLikeNone`. -/
def isLikeNone (x : JsVal) : Bool :=
  match x with
  | JsVal.undefined => true
  | JsVal.null => true
  | _ => false

/-! ## Calls into the host -/

/-- The expression `recv.method(...args)`.  On `undefined` and `null` the
engine throws a `TypeError` before anything is called; otherwise the host
decides how the call ends. -/
def callMethod (h : Host) (recv : JsVal) (method : String) (args : List JsVal)
    (g : Glue) : Run JsVal :=
  if isLikeNone recv then (Except.error (JsVal.err "TypeError"), g)
  else
    match h.call g.trace recv method args with
    | Outcome.ret v => (Except.ok v, g.log (Event.call recv method args))
    | Outcome.throw e => (Except.error e, g.log (Event.call recv method args))

/-- The expression `recv.prop`, with the same `TypeError` on `undefined` and `null`. -/
def getProp (h : Host) (recv : JsVal) (prop : String) (g : Glue) : Run JsVal :=
  if isLikeNone recv then (Except.error (JsVal.err "TypeError"), g)
  else
    match h.get g.trace recv prop with
    | Outcome.ret v => (Except.ok v, g.log (Event.get recv prop))
    | Outcome.throw e => (Except.error e, g.log (Event.get recv prop))

/-- The expression `new ctor(...args)`.  Only a function can be constructed;
on anything else the engine throws a `TypeError`. -/
def construct (h : Host) (ctor : JsVal) (args : List JsVal) (g : Glue) : Run JsVal :=
  match ctor with
  | JsVal.fn _ =>
    match h.construct g.trace ctor args with
    | Outcome.ret v => (Except.ok v, g.log (Event.construct ctor args))
    | Outcome.throw e => (Except.error e, g.log (Event.construct ctor args))
  | _ => (Except.error (JsVal.err "TypeError"), g)

/-- The expression `f(...args)` on a global function of the host. -/
def applyFunction (h : Host) (f : JsVal) (args : List JsVal) (g : Glue) : Run JsVal :=
  match h.apply g.trace f args with
  | Outcome.ret v => (Except.ok v, g.log (Event.apply f args))
  | Outcome.throw e => (Except.error e, g.log (Event.apply f args))

/-- The expression `await v`. -/
def awaitValue (h : Host) (v : JsVal) (g : Glue) : Run JsVal :=
  match h.await g.trace v with
  | Outcome.ret r => (Except.ok r, g.log (Event.await v))
  | Outcome.throw e => (Except.error e, g.log (Event.await v))

/-- The function `handleError`: runs `f` (already applied to `args`), and in
the `catch` branch hands a new handle of the thrown value to
`wasm.__wbindgen_exn_store` and falls off the end, so returns `undefined`. -/
def handleError (f : Glue → Run JsVal) (g : Glue) : Run JsVal :=
  match f g with
  | (Except.ok v, g1) => (Except.ok v, g1)
  | (Except.error e, g1) =>
    let r := addHeapObject e g1
    (Except.ok JsVal.undefined,
      r.2.log (Event.wasm "__wbindgen_exn_store" [JsVal.num r.1]))

/-- Returns the handle of a value newly put on the slab: `return addHeapObject(ret);`. -/
def returnHandle (ret : JsVal) (g : Glue) : Run JsVal :=
  let r := addHeapObject ret g
  (Except.ok (JsVal.num r.1), r.2)

/-! ## Linear memory and array marshalling -/

/-- The conversion `x >>> 0` of an `i32` result to an unsigned pointer. -/
def toU32 (x : Int) : Nat := (x % 4294967296).toNat

/-- Stores the 32-bit word `v` (little endian, reduced modulo 2^32) at byte address `a`. -/
def store32 (m : Mem) (a v : Nat) : Mem := fun b =>
  if b = a then v % 256
  else if b = a + 1 then v / 256 % 256
  else if b = a + 2 then v / 65536 % 256
  else if b = a + 3 then v / 16777216 % 256
  else m b

/-- Reads the unsigned 32-bit word at byte address `a`. -/
def load32 (m : Mem) (a : Nat) : Nat :=
  m a + 256 * m (a + 1) + 65536 * m (a + 2) + 16777216 * m (a + 3)

/-- The assignment `view[base / 4 + k] = v` on the `Int32Array` or
`Uint32Array` over the linear memory.  When `base` is not a multiple of 4 the
index is not an integer and the assignment has no effect on the memory. -/
def setWord (m : Mem) (base k v : Nat) : Mem :=
  if base % 4 = 0 then store32 m (base + 4 * k) v else m

/-- What `array.length` and `array[i]` see of a value: the items of an array,
the one-unit strings of a string, and nothing of a value without a length.
On `undefined` and `null` the expression `array.length` throws instead; the
bindings deal with these two before they come here. -/
def arrayItems : JsVal → List JsVal
  | JsVal.arr items => items
  | JsVal.str us => us.map (fun u => JsVal.str [u])
  | _ => []

/-- The loop of `passArrayJsValueToWasm0`:
`mem[ptr / 4 + i] = addHeapObject(array[i])` for `i` from the given index on. -/
def passArrayLoop (ptr : Nat) : List JsVal → Nat → Glue → Glue
  | [], _, g => g
  | x :: xs, i, g =>
    let r := addHeapObject x g
    passArrayLoop ptr xs (i + 1) { r.2 with mem := setWord r.2.mem ptr i r.1 }

/-- The function `passArrayJsValueToWasm0(array, wasm.__wbindgen_malloc)`. -/
def passArrayJsValueToWasm0 (w : Wasm) (array : List JsVal) (g : Glue) : Nat × Glue :=
  let r := w.malloc g.trace g.mem (array.length * 4) 4
  let ptr := toU32 r.1
  let g1 := { g with mem := r.2 }.log
    (Event.wasm "__wbindgen_malloc" [JsVal.num (array.length * 4 : Nat), JsVal.num 4])
  let g2 := passArrayLoop ptr array 0 g1
  (ptr, { g2 with WASM_VECTOR_LEN := array.length })

/-- The three statements that end every binding returning a vector or string:
`len1 = WASM_VECTOR_LEN; getInt32Memory0()[arg0 / 4 + 1] = len1;
getInt32Memory0()[arg0 / 4 + 0] = ptr1;`. -/
def writePtrLen (arg0 ptr1 : Nat) (g : Glue) : Run JsVal :=
  let len1 := g.WASM_VECTOR_LEN
  (Except.ok JsVal.undefined,
    { g with mem := setWord (setWord g.mem arg0 1 len1) arg0 0 ptr1 })

/-- Ends a binding without a `return` statement. -/
def returnVoid (_ : JsVal) (g : Glue) : Run JsVal := (Except.ok JsVal.undefined, g)

/-- Ends a binding with `return ret;`. -/
def returnValue (ret : JsVal) (g : Glue) : Run JsVal := (Except.ok ret, g)

/-! ## String marshalling -/

/-- Whether a code unit is a high (leading) surrogate. -/
def isHighSurrogate (u : Nat) : Bool := 0xD800 ≤ u && u ≤ 0xDBFF

/-- Whether a code unit is a low (trailing) surrogate. -/
def isLowSurrogate (u : Nat) : Bool := 0xDC00 ≤ u && u ≤ 0xDFFF

/-- The UTF-8 bytes of one code point. -/
def utf8OfCodePoint (cp : Nat) : List Nat :=
  if cp < 0x80 then [cp]
  else if cp < 0x800 then [0xC0 + cp / 64, 0x80 + cp % 64]
  else if cp < 0x10000 then [0xE0 + cp / 4096, 0x80 + cp / 64 % 64, 0x80 + cp % 64]
  else [0xF0 + cp / 262144, 0x80 + cp / 4096 % 64, 0x80 + cp / 64 % 64, 0x80 + cp % 64]

/-- The UTF-8 bytes of U+FFFD, which stands for a surrogate without its partner. -/
def utf8Replacement : List Nat := [0xEF, 0xBF, 0xBD]

/-- What a `TextEncoder` makes of a string, code point by code point: a
surrogate pair is one code point, a surrogate without partner becomes U+FFFD. -/
def utf8Chunks : List Nat → List (List Nat)
  | [] => []
  | [u] => [if isHighSurrogate u || isLowSurrogate u then utf8Replacement else utf8OfCodePoint u]
  | u :: v :: rest =>
    if isHighSurrogate u then
      if isLowSurrogate v then
        utf8OfCodePoint (0x10000 + (u - 0xD800) * 0x400 + (v - 0xDC00)) :: utf8Chunks rest
      else utf8Replacement :: utf8Chunks (v :: rest)
    else if isLowSurrogate u then utf8Replacement :: utf8Chunks (v :: rest)
    else utf8OfCodePoint u :: utf8Chunks (v :: rest)

/-- The UTF-8 encoding of a string: the result of `TextEncoder.prototype.encode`. -/
def utf8Encode (arg : List Nat) : List Nat := (utf8Chunks arg).flatten

/-- The bytes `TextEncoder.prototype.encodeInto` writes into a view of `cap`
bytes: the code points that fit, in order, whole. -/
def encodeIntoChunks : List (List Nat) → Nat → List Nat
  | [], _ => []
  | c :: cs, cap => if c.length ≤ cap then c ++ encodeIntoChunks cs (cap - c.length) else []

/-- The expression `cachedTextEncoder.encode(arg)`.  Without a `TextEncoder`
the cached object is the one whose `encode` throws. -/
def encode (h : Host) (arg : List Nat) : Except JsVal (List Nat) :=
  if h.defined "TextEncoder" then Except.ok (utf8Encode arg)
  else Except.error (JsVal.err "TextEncoder not available")

/-- The function `encodeString(arg, view)` on a view of `cap` bytes: the bytes
it leaves at the start of the view (`ret.written` is their number).  With
`encodeInto` that method writes them; otherwise `view.set(buf)` writes the
whole encoding, or throws a `RangeError` when it is longer than the view. -/
def encodeString (h : Host) (arg : List Nat) (cap : Nat) : Except JsVal (List Nat) :=
  if h.hasEncodeInto then Except.ok (encodeIntoChunks (utf8Chunks arg) cap)
  else
    match encode h arg with
    | Except.ok buf => if buf.length ≤ cap then Except.ok buf else Except.error (JsVal.err "RangeError")
    | Except.error e => Except.error e

/-- The memory with the bytes `bs` written from address `ptr` on. -/
def writeBytes (m : Mem) (ptr : Nat) (bs : List Nat) : Mem := fun b =>
  if ptr ≤ b ∧ b < ptr + bs.length then bs.getD (b - ptr) 0 else m b

/-- The `n` bytes of the memory from address `ptr` on. -/
def readBytes (m : Mem) (ptr n : Nat) : List Nat := (List.range n).map fun i => m (ptr + i)

/-- The first loop of `passStringToWasm0`: from `offset` on, each code unit up
to 0x7F is stored at `mem[ptr + offset]`; the loop ends at the first unit above
0x7F or at the end of the string.  Returns the memory and the final `offset`. -/
def asciiLoop (ptr : Nat) : List Nat → Nat → Mem → Mem × Nat
  | [], offset, m => (m, offset)
  | code :: rest, offset, m =>
    if code > 0x7F then (m, offset)
    else asciiLoop ptr rest (offset + 1) (fun b => if b = ptr + offset then code else m b)

/-- The function `passStringToWasm0(arg, wasm.__wbindgen_malloc, wasm.__wbindgen_realloc)`
on the code units of `arg`. -/
def passStringToWasm0 (h : Host) (w : Wasm) (arg : List Nat) (g : Glue) : Run Nat :=
  if w.hasRealloc = false then
    match encode h arg with
    | Except.error e => (Except.error e, g)
    | Except.ok buf =>
      let r := w.malloc g.trace g.mem buf.length 1
      let ptr := toU32 r.1
      let g1 := { g with mem := r.2 }.log
        (Event.wasm "__wbindgen_malloc" [JsVal.num (buf.length : Nat), JsVal.num 1])
      (Except.ok ptr, { g1 with mem := writeBytes g1.mem ptr buf, WASM_VECTOR_LEN := buf.length })
  else
    let len := arg.length
    let r := w.malloc g.trace g.mem len 1
    let ptr := toU32 r.1
    let g1 := { g with mem := r.2 }.log
      (Event.wasm "__wbindgen_malloc" [JsVal.num (len : Nat), JsVal.num 1])
    let l := asciiLoop ptr arg 0 g1.mem
    let offset := l.2
    if offset ≠ len then
      let arg1 := if offset ≠ 0 then arg.drop offset else arg
      let len1 := offset + arg1.length * 3
      let r2 := w.realloc g1.trace l.1 ptr len len1 1
      let ptr2 := toU32 r2.1
      let g2 := { g1 with mem := r2.2 }.log (Event.wasm "__wbindgen_realloc"
        [JsVal.num (ptr : Nat), JsVal.num (len : Nat), JsVal.num (len1 : Nat), JsVal.num 1])
      match encodeString h arg1 (len1 - offset) with
      | Except.error e => (Except.error e, g2)
      | Except.ok written =>
        let m3 := writeBytes g2.mem (ptr2 + offset) written
        let offset2 := offset + written.length
        let r3 := w.realloc g2.trace m3 ptr2 len1 offset2 1
        let ptr3 := toU32 r3.1
        let g3 := { g2 with mem := r3.2 }.log (Event.wasm "__wbindgen_realloc"
          [JsVal.num (ptr2 : Nat), JsVal.num (len1 : Nat), JsVal.num (offset2 : Nat), JsVal.num 1])
        (Except.ok ptr3, { g3 with WASM_VECTOR_LEN := offset2 })
    else (Except.ok ptr, { g1 with mem := l.1, WASM_VECTOR_LEN := offset })

/-- The function `getStringFromWasm0`: the cached decoder on the bytes from
`ptr >>> 0` on. -/
def getStringFromWasm0 (h : Host) (ptr : Int) (len : Nat) (g : Glue) : Run JsVal :=
  match h.decode (readBytes g.mem (toU32 ptr) len) with
  | Outcome.ret v => (Except.ok v, g)
  | Outcome.throw e => (Except.error e, g)

/-- The function `getCachedStringFromWasm0`. -/
def getCachedStringFromWasm0 (h : Host) (ptr : Int) (len : Nat) (g : Glue) : Run JsVal :=
  if ptr = 0 then (Except.ok (getObject len g), g) else getStringFromWasm0 h ptr len g

/-- The code units of a string value; a value of another type has none. -/
def stringUnits : JsVal → List Nat
  | JsVal.str us => us
  | _ => []

/-! ## Bindings of the score-rendering collaborator -/

/-- The binding `imports.wbg.__wbg_load_6e1153682b5f3cd6`. -/
def __wbg_load_6e1153682b5f3cd6 (h : Host) (arg0 arg1 : Nat) (g : Glue) : Run JsVal :=
  andThen (callMethod h (getObject arg0 g) "load" [getObject arg1 g] g) returnHandle

/-- The binding `imports.wbg.__wbg_render_3b135fd5e31aafea`. -/
def __wbg_render_3b135fd5e31aafea (h : Host) (arg0 : Nat) (g : Glue) : Run JsVal :=
  andThen (callMethod h (getObject arg0 g) "render" [] g) returnVoid

/-- The binding `imports.wbg.__wbg_handleResize_381d10502b68005c`. -/
def __wbg_handleResize_381d10502b68005c (h : Host) (arg0 arg1 arg2 : Nat) (g : Glue) :
    Run JsVal :=
  andThen (callMethod h (getObject arg0 g) "handleResize"
    [getObject arg1 g, getObject arg2 g] g) returnVoid

/-- The binding `imports.wbg.__wbg_getHighestYAtEntry_68bda7eb81b0caf3`. -/
def __wbg_getHighestYAtEntry_68bda7eb81b0caf3 (h : Host) (arg0 : Nat) (g : Glue) : Run JsVal :=
  andThen (callMethod h (getObject arg0 g) "getHighestYAtEntry" [] g) returnValue

/-- The binding `imports.wbg.__wbg_getSVGGElement_ce2a71516aa61312`. -/
def __wbg_getSVGGElement_ce2a71516aa61312 (h : Host) (arg0 : Nat) (g : Glue) : Run JsVal :=
  andThen (callMethod h (getObject arg0 g) "getSVGGElement" [] g) returnHandle

/-- The binding `imports.wbg.__wbg_getStemSVG_07f004397ba5cc68`. -/
def __wbg_getStemSVG_07f004397ba5cc68 (h : Host) (arg0 : Nat) (g : Glue) : Run JsVal :=
  andThen (callMethod h (getObject arg0 g) "getStemSVG" [] g) returnHandle

/-- The binding `imports.wbg.__wbg_getBeamSVGs_75777c191e0993bb`.  The result
of the method goes to `passArrayJsValueToWasm0` unguarded: on `undefined` and
`null` the expression `array.length` throws a `TypeError` before `malloc` is
called. -/
def __wbg_getBeamSVGs_75777c191e0993bb (h : Host) (w : Wasm) (arg0 arg1 : Nat) (g : Glue) :
    Run JsVal :=
  andThen (callMethod h (getObject arg1 g) "getBeamSVGs" [] g) fun ret g1 =>
    if isLikeNone ret then (Except.error (JsVal.err "TypeError"), g1)
    else
      let r := passArrayJsValueToWasm0 w (arrayItems ret) g1
      writePtrLen arg0 r.1 r.2

/-- The binding `imports.wbg.__wbg_reset_f3e9c253e4b14d0c`. -/
def __wbg_reset_f3e9c253e4b14d0c (h : Host) (arg0 : Nat) (g : Glue) : Run JsVal :=
  andThen (callMethod h (getObject arg0 g) "reset" [] g) returnVoid

/-- The binding `imports.wbg.__wbg_show_4cf577f903a075f2`. -/
def __wbg_show_4cf577f903a075f2 (h : Host) (arg0 : Nat) (g : Glue) : Run JsVal :=
  andThen (callMethod h (getObject arg0 g) "show" [] g) returnVoid

/-- The binding `imports.wbg.__wbg_hide_9d8a545faf194218`. -/
def __wbg_hide_9d8a545faf194218 (h : Host) (arg0 : Nat) (g : Glue) : Run JsVal :=
  andThen (callMethod h (getObject arg0 g) "hide" [] g) returnVoid

/-- The binding `imports.wbg.__wbg_next_2f65d938ae2296be`. -/
def __wbg_next_2f65d938ae2296be (h : Host) (arg0 : Nat) (g : Glue) : Run JsVal :=
  andThen (callMethod h (getObject arg0 g) "next" [] g) returnVoid

/-- The binding `imports.wbg.__wbg_previous_8dcfc92d3457d593`. -/
def __wbg_previous_8dcfc92d3457d593 (h : Host) (arg0 : Nat) (g : Glue) : Run JsVal :=
  andThen (callMethod h (getObject arg0 g) "previous" [] g) returnVoid

/-- The binding `imports.wbg.__wbg_isRest_24efd610bb44f238`. -/
def __wbg_isRest_24efd610bb44f238 (h : Host) (arg0 : Nat) (g : Glue) : Run JsVal :=
  andThen (callMethod h (getObject arg0 g) "isRest" [] g) returnValue

/-- The binding `imports.wbg.__wbg_currentVoiceEntries_44382659d766d76e`.  In
the branch of `isLikeNone(ret)` the pointer is 0 and `WASM_VECTOR_LEN` is read
as the last marshalling left it. -/
def __wbg_currentVoiceEntries_44382659d766d76e (h : Host) (w : Wasm) (arg0 arg1 : Nat)
    (g : Glue) : Run JsVal :=
  andThen (getProp h (getObject arg1 g) "currentVoiceEntries" g) fun ret g1 =>
    if isLikeNone ret then writePtrLen arg0 0 g1
    else
      let r := passArrayJsValueToWasm0 w (arrayItems ret) g1
      writePtrLen arg0 r.1 r.2

/-! ## Bindings of the audio collaborator -/

/-- The module-level constant `lAudioContext`: `AudioContext` when that global
is defined, otherwise `webkitAudioContext` when that one is, otherwise
`undefined`. -/
def lAudioContext (h : Host) : JsVal :=
  if h.defined "AudioContext" then JsVal.fn "AudioContext"
  else if h.defined "webkitAudioContext" then JsVal.fn "webkitAudioContext"
  else JsVal.undefined

/-- The binding `imports.wbg.__wbg_new_2f044fe84595e924`. -/
def __wbg_new_2f044fe84595e924 (h : Host) (g : Glue) : Run JsVal :=
  handleError (fun g0 => andThen (construct h (lAudioContext h) [] g0) returnHandle) g

/-- The binding `imports.wbg.__wbg_createBufferSource_0d65cd58ccd38511`. -/
def __wbg_createBufferSource_0d65cd58ccd38511 (h : Host) (arg0 : Nat) (g : Glue) : Run JsVal :=
  handleError (fun g0 =>
    andThen (callMethod h (getObject arg0 g0) "createBufferSource" [] g0) returnHandle) g

/-- The binding `imports.wbg.__wbg_createGain_074e52e83a75da7f`. -/
def __wbg_createGain_074e52e83a75da7f (h : Host) (arg0 : Nat) (g : Glue) : Run JsVal :=
  handleError (fun g0 =>
    andThen (callMethod h (getObject arg0 g0) "createGain" [] g0) returnHandle) g

/-- The binding `imports.wbg.__wbg_decodeAudioData_6e4a09d9bdf064dc`. -/
def __wbg_decodeAudioData_6e4a09d9bdf064dc (h : Host) (arg0 arg1 : Nat) (g : Glue) :
    Run JsVal :=
  handleError (fun g0 =>
    andThen (callMethod h (getObject arg0 g0) "decodeAudioData" [getObject arg1 g0] g0)
      returnHandle) g

/-- The binding `imports.wbg.__wbg_start_a0650e3bc8fe8e8d`.  Its inner
function declares the single parameter `arg0`; whatever else the caller passes
(`surplus`) reaches `f.apply` in `arguments` and is dropped there. -/
def __wbg_start_a0650e3bc8fe8e8d (h : Host) (arg0 : Nat) (_surplus : List JsVal) (g : Glue) :
    Run JsVal :=
  handleError (fun g0 =>
    andThen (callMethod h (getObject arg0 g0) "start" [] g0) returnVoid) g

/-- The binding `imports.wbg.__wbg_stop_8cd79bd9477aae21`. -/
def __wbg_stop_8cd79bd9477aae21 (h : Host) (arg0 : Nat) (arg1 : JsVal) (g : Glue) : Run JsVal :=
  handleError (fun g0 =>
    andThen (callMethod h (getObject arg0 g0) "stop" [arg1] g0) returnVoid) g

/-- The binding `imports.wbg.__wbg_linearRampToValueAtTime_e88770a6b173b85e`. -/
def __wbg_linearRampToValueAtTime_e88770a6b173b85e (h : Host) (arg0 : Nat) (arg1 arg2 : JsVal)
    (g : Glue) : Run JsVal :=
  handleError (fun g0 =>
    andThen (callMethod h (getObject arg0 g0) "linearRampToValueAtTime" [arg1, arg2] g0)
      returnHandle) g

/-- The binding `imports.wbg.__wbg_setValueAtTime_1c6d27faeb36996a`. -/
def __wbg_setValueAtTime_1c6d27faeb36996a (h : Host) (arg0 : Nat) (arg1 arg2 : JsVal)
    (g : Glue) : Run JsVal :=
  handleError (fun g0 =>
    andThen (callMethod h (getObject arg0 g0) "setValueAtTime" [arg1, arg2] g0)
      returnHandle) g

/-- The binding `imports.wbg.__wbg_connect_186433827476e7d8`. -/
def __wbg_connect_186433827476e7d8 (h : Host) (arg0 arg1 : Nat) (g : Glue) : Run JsVal :=
  handleError (fun g0 =>
    andThen (callMethod h (getObject arg0 g0) "connect" [getObject arg1 g0] g0)
      returnHandle) g

/-! ## Bindings of the storage collaborator -/

/-- The binding `imports.wbg.__wbg_getItem_164e8e5265095b87`.  The method
`getItem` of a storage object yields a string or `null`. -/
def __wbg_getItem_164e8e5265095b87 (h : Host) (w : Wasm) (arg0 arg1 : Nat) (arg2 : Int)
    (arg3 : Nat) (g : Glue) : Run JsVal :=
  handleError (fun g0 =>
    andThen (getCachedStringFromWasm0 h arg2 arg3 g0) fun v0 g1 =>
    andThen (callMethod h (getObject arg1 g1) "getItem" [v0] g1) fun ret g2 =>
      if isLikeNone ret then writePtrLen arg0 0 g2
      else
        andThen (passStringToWasm0 h w (stringUnits ret) g2) fun ptr2 g3 =>
        writePtrLen arg0 ptr2 g3) g

/-! ## Loading and initialising the module -/

/-- One of the four statements
`(typeof FinalizationRegistry === 'undefined') ? ... : new FinalizationRegistry(callback)`
of the module body. -/
def finalizationRegistry (h : Host) (callback : String) (g : Glue) : Run JsVal :=
  if h.defined "FinalizationRegistry" then
    construct h (JsVal.fn "FinalizationRegistry") [JsVal.lit callback] g
  else (Except.ok (JsVal.lit "register and unregister do nothing"), g)

/-- The top-level statements of the module that reach the host, in the order
of the source, starting from the module-level variables as declared: the
`TextDecoder` and its first call `decode()`, the `TextEncoder`, the registry
`CLOSURE_DTORS`, `Object.freeze` of `StemDirectionType`, and the three
registries of the exported classes.  The constant `lAudioContext` is computed
by `typeof` tests alone and is the definition `lAudioContext`. -/
def moduleBody (h : Host) (mem : Mem) : Run JsVal :=
  andThen
    (if h.defined "TextDecoder" then
      andThen (construct h (JsVal.fn "TextDecoder")
        [JsVal.str (units "utf-8"), JsVal.lit "ignoreBOM: true, fatal: true"] (Glue.initial mem))
        fun decoder g => callMethod h decoder "decode" [] g
    else (Except.ok JsVal.undefined, Glue.initial mem)) fun _ g1 =>
  andThen
    (if h.defined "TextEncoder" then
      construct h (JsVal.fn "TextEncoder") [JsVal.str (units "utf-8")] g1
    else (Except.ok JsVal.undefined, g1)) fun _ g2 =>
  andThen (finalizationRegistry h "CLOSURE_DTORS" g2) fun _ g3 =>
  andThen (callMethod h (JsVal.fn "Object") "freeze" [JsVal.lit "StemDirectionType"] g3)
    fun _ g4 =>
  andThen (finalizationRegistry h "IntoUnderlyingByteSourceFinalization" g4) fun _ g5 =>
  andThen (finalizationRegistry h "IntoUnderlyingSinkFinalization" g5) fun _ g6 =>
  finalizationRegistry h "IntoUnderlyingSourceFinalization" g6

/-- The function `__wbg_get_imports`: it makes the object `imports`, stores
one function per binding in `imports.wbg` and returns the object.  No binding
is called and nothing outside the new object is touched. -/
def __wbg_get_imports (g : Glue) : Run JsVal := (Except.ok (JsVal.lit "imports"), g)

/-- Every `new` expression inside `__wbg_get_imports`, with the binding whose
body it stands in and the constructor it names. -/
def importConstructors (h : Host) : List (String × JsVal) :=
  [("__wbg_new_c34739d83dd10565", JsVal.fn "opensheetmusicdisplay.OpenSheetMusicDisplay"),
   ("__wbg_new_abda76e883ba8a5f", JsVal.fn "Error"),
   ("__wbg_new_4c501d7c115d20a6", JsVal.fn "URLSearchParams"),
   ("__wbg_new_ab6fd82b10560829", JsVal.fn "Headers"),
   ("__wbg_newwithstr_36b0b3f97efe096f", JsVal.fn "Request"),
   ("__wbg_newwithstrandinit_3fd6fba4083ff2d0", JsVal.fn "Request"),
   ("__wbg_new_2f044fe84595e924", lAudioContext h),
   ("__wbg_newwitheventinitdict_df944b5b582e7ecf", JsVal.fn "CustomEvent"),
   ("__wbg_new_67853c351755d2cf", JsVal.fn "URL"),
   ("__wbg_new_28c511d9baebfa89", JsVal.fn "Error"),
   ("__wbg_newnoargs_e258087cd0daa0ea", JsVal.fn "Function"),
   ("__wbg_new_72fb9a18b5ae2624", JsVal.fn "Object"),
   ("__wbg_new_81740750da40724f", JsVal.fn "Promise"),
   ("__wbg_new_63b92bc8671ed464", JsVal.fn "Uint8Array"),
   ("__wbg_newwithbyteoffsetandlength_aa4a17c33a06e5cb", JsVal.fn "Uint8Array"),
   ("__wbindgen_throw", JsVal.fn "Error")]

/-- What `__wbg_load` returns: the object literal it builds from an instance
and the module, or the result of the host as it is. -/
inductive Loaded where
  | pair (inst mdl : JsVal)
  | host (result : JsVal)

/-- The text of the warning of `__wbg_load`. -/
def fallbackWarning : String :=
  "`WebAssembly.instantiateStreaming` failed because your server does not serve wasm with `application/wasm` MIME type. Falling back to `WebAssembly.instantiate` which is slower. Original error:\n"

/-- The last two statements of the `Response` branch of `__wbg_load`:
`const bytes = await module.arrayBuffer();
return await WebAssembly.instantiate(bytes, imports);`. -/
def instantiateBytes (h : Host) (mdl imports : JsVal) (g : Glue) : Run Loaded :=
  andThen (callMethod h mdl "arrayBuffer" [] g) fun p g1 =>
  andThen (awaitValue h p g1) fun bytes g2 =>
  andThen (callMethod h (JsVal.fn "WebAssembly") "instantiate" [bytes, imports] g2) fun q g3 =>
  andThen (awaitValue h q g3) fun result g4 => (Except.ok (Loaded.host result), g4)

/-- The function `__wbg_load`.  The comparison
`module.headers.get('Content-Type') != 'application/wasm'` is on a string or
`null`, where `!=` converts nothing. -/
def __wbg_load (h : Host) (mdl imports : JsVal) (g : Glue) : Run Loaded :=
  if h.isFunction "Response" && h.instanceOf mdl "Response" then
    if h.isFunction "WebAssembly.instantiateStreaming" then
      match andThen (callMethod h (JsVal.fn "WebAssembly") "instantiateStreaming"
          [mdl, imports] g) (awaitValue h) with
      | (Except.ok result, g1) => (Except.ok (Loaded.host result), g1)
      | (Except.error e, g1) =>
        andThen (getProp h mdl "headers" g1) fun headers g2 =>
        andThen (callMethod h headers "get" [JsVal.str (units "Content-Type")] g2) fun ct g3 =>
          if ct ≠ JsVal.str (units "application/wasm") then
            andThen (callMethod h (JsVal.fn "console") "warn"
              [JsVal.str (units fallbackWarning), e] g3) fun _ g4 =>
            instantiateBytes h mdl imports g4
          else (Except.error e, g3)
    else instantiateBytes h mdl imports g
  else
    andThen (callMethod h (JsVal.fn "WebAssembly") "instantiate" [mdl, imports] g) fun p g1 =>
    andThen (awaitValue h p g1) fun inst g2 =>
      if h.instanceOf inst "WebAssembly.Instance" then (Except.ok (Loaded.pair inst mdl), g2)
      else (Except.ok (Loaded.host inst), g2)

/-- The function `__wbg_finalize_init`: `wasm = instance.exports`, then the
call `wasm.__wbindgen_start()`, which is one interaction; what the wasm module
does inside that call is not part of the glue.  The assignment to
`__wbg_init.__wbindgen_wasm_module` and the four cache resets leave no
variable of `Glue` changed. -/
def __wbg_finalize_init (h : Host) (inst _mdl : JsVal) (g : Glue) : Run JsVal :=
  andThen (getProp h inst "exports" g) fun exports g1 =>
    if isLikeNone exports then
      (Except.error (JsVal.err "TypeError"), { g1 with wasm := exports })
    else
      (Except.ok exports, { g1 with wasm := exports }.log (Event.wasm "__wbindgen_start" []))

/-- The function `initSync`. -/
def initSync (h : Host) (mdl : JsVal) (g : Glue) : Run JsVal :=
  match g.wasm with
  | JsVal.undefined =>
    andThen (__wbg_get_imports g) fun imports g1 =>
    andThen
      (if h.instanceOf mdl "WebAssembly.Module" then (Except.ok mdl, g1)
       else construct h (JsVal.fn "WebAssembly.Module") [mdl] g1) fun mdl1 g2 =>
    andThen (construct h (JsVal.fn "WebAssembly.Instance") [mdl1, imports] g2) fun inst g3 =>
    __wbg_finalize_init h inst mdl1 g3
  | exports => (Except.ok exports, g)

/-- The pattern `const { instance, module } = ...` on the result of `__wbg_load`. -/
def destructureLoaded (h : Host) (l : Loaded) (g : Glue) : Run (JsVal × JsVal) :=
  match l with
  | Loaded.pair inst mdl => (Except.ok (inst, mdl), g)
  | Loaded.host result =>
    andThen (getProp h result "instance" g) fun inst g1 =>
    andThen (getProp h result "module" g1) fun mdl g2 => (Except.ok (inst, mdl), g2)

/-- The test `typeof v === 'string'`. -/
def isString : JsVal → Bool
  | JsVal.str _ => true
  | _ => false

/-- The function `__wbg_init`, with each `await` run to its end in place. -/
def __wbg_init (h : Host) (input : JsVal) (g : Glue) : Run JsVal :=
  match g.wasm with
  | JsVal.undefined =>
    andThen
      (match input with
        | JsVal.undefined =>
          construct h (JsVal.fn "URL")
            [JsVal.str (units "magic_piano_bg.wasm"), JsVal.lit "import.meta.url"] g
        | given => (Except.ok given, g)) fun input1 g1 =>
    andThen (__wbg_get_imports g1) fun imports g2 =>
    andThen
      (if isString input1 || (h.isFunction "Request" && h.instanceOf input1 "Request")
          || (h.isFunction "URL" && h.instanceOf input1 "URL") then
        applyFunction h (JsVal.fn "fetch") [input1] g2
       else (Except.ok input1, g2)) fun input2 g3 =>
    andThen (awaitValue h input2 g3) fun mdl g4 =>
    andThen (__wbg_load h mdl imports g4) fun loaded g5 =>
    andThen (destructureLoaded h loaded g5) fun im g6 =>
    __wbg_finalize_init h im.1 im.2 g6
  | exports => (Except.ok exports, g)

/-- Whether an interaction constructs an audio context: `new AudioContext(...)`
or `new webkitAudioContext(...)`. -/
def isAudioConstruction : Event → Bool
  | Event.construct (JsVal.fn name) _ => name == "AudioContext" || name == "webkitAudioContext"
  | _ => false

/-- The number of audio contexts constructed in a record of interactions. -/
def audioConstructions (t : List Event) : Nat := (t.filter isAudioConstruction).length

/-- The state after `k` calls of the audio-context constructor binding in a row. -/
def repeatNew (h : Host) : Nat → Glue → Glue
  | 0, g => g
  | k + 1, g => repeatNew h k (__wbg_new_2f044fe84595e924 h g).2

/-! ## Sample surroundings, for evaluating the definitions -/

/-- The value thrown by `throwingHost`. -/
def boom : JsVal := JsVal.str (units "boom")

/-- A host in which every operation throws `boom`. -/
def throwingHost : Host :=
  { defined := fun _ => true
    isFunction := fun _ => true
    instanceOf := fun _ _ => false
    construct := fun _ _ _ => Outcome.throw boom
    call := fun _ _ _ _ => Outcome.throw boom
    get := fun _ _ _ => Outcome.throw boom
    apply := fun _ _ _ => Outcome.throw boom
    await := fun _ _ => Outcome.throw boom
    decode := fun _ => Outcome.throw boom
    hasEncodeInto := true }

/-- A host in which every constructor returns a new object, numbered by the
interactions so far, and every method and property yields `undefined`. -/
def freshHost : Host :=
  { defined := fun _ => true
    isFunction := fun _ => true
    instanceOf := fun _ _ => false
    construct := fun t _ _ => Outcome.ret (JsVal.obj t.length)
    call := fun _ _ _ _ => Outcome.ret JsVal.undefined
    get := fun _ _ _ => Outcome.ret JsVal.undefined
    apply := fun _ _ _ => Outcome.ret JsVal.undefined
    await := fun _ v => Outcome.ret v
    decode := fun _ => Outcome.ret (JsVal.str [])
    hasEncodeInto := true }

/-- A host with no global defined, in which every operation yields `undefined`. -/
def bareHost : Host :=
  { defined := fun _ => false
    isFunction := fun _ => false
    instanceOf := fun _ _ => false
    construct := fun _ _ _ => Outcome.ret JsVal.undefined
    call := fun _ _ _ _ => Outcome.ret JsVal.undefined
    get := fun _ _ _ => Outcome.ret JsVal.undefined
    apply := fun _ _ _ => Outcome.ret JsVal.undefined
    await := fun _ v => Outcome.ret v
    decode := fun _ => Outcome.ret (JsVal.str [])
    hasEncodeInto := false }

/-- A host in which every property is the array of the two objects 1 and 2,
and every method yields `undefined`. -/
def arrayHost : Host :=
  { defined := fun _ => true
    isFunction := fun _ => true
    instanceOf := fun _ _ => false
    construct := fun t _ _ => Outcome.ret (JsVal.obj t.length)
    call := fun _ _ _ _ => Outcome.ret JsVal.undefined
    get := fun _ _ _ => Outcome.ret (JsVal.arr [JsVal.obj 1, JsVal.obj 2])
    apply := fun _ _ _ => Outcome.ret JsVal.undefined
    await := fun _ v => Outcome.ret v
    decode := fun _ => Outcome.ret (JsVal.str [])
    hasEncodeInto := true }

/-- A host whose decoder reads every key as "tempo" and in which every method
yields the two-unit string of `a` and `é`. -/
def storageHost : Host :=
  { defined := fun _ => true
    isFunction := fun _ => true
    instanceOf := fun _ _ => false
    construct := fun t _ _ => Outcome.ret (JsVal.obj t.length)
    call := fun _ _ _ _ => Outcome.ret (JsVal.str [0x61, 0xE9])
    get := fun _ _ _ => Outcome.ret JsVal.undefined
    apply := fun _ _ _ => Outcome.ret JsVal.undefined
    await := fun _ v => Outcome.ret v
    decode := fun _ => Outcome.ret (JsVal.str (units "tempo"))
    hasEncodeInto := true }

/-- A linear memory of zero bytes. -/
def zeroMem : Mem := fun _ => 0

/-- An allocator whose `malloc` always answers 1024 and whose `realloc`
copies the block to 2048. -/
def fixedWasm : Wasm :=
  { malloc := fun _ m _ _ => (1024, m)
    hasRealloc := true
    realloc := fun _ m p _ n _ =>
      (2048, fun b => if 2048 ≤ b ∧ b < 2048 + n then m (p + (b - 2048)) else m b) }

/-- The state right after the module body, with the host object 7 put on the
slab: its handle is 132. -/
def sampleGlue : Glue := (addHeapObject (JsVal.obj 7) (Glue.initial zeroMem)).2

/-! ## Vocabulary of the statements -/

/-- The interactions with the host in a record: everything but the calls of wasm exports. -/
def hostEvents (t : List Event) : List Event :=
  t.filter fun ev =>
    match ev with
    | Event.wasm _ _ => false
    | _ => true

/-- The run `r`, started in `g`, made the host interaction `ev`, which threw
`e`, and caught it: it returned `undefined`, and after `ev` it called
`__wbindgen_exn_store` once, with a handle that now refers to `e`. -/
def CaughtAndStored (g : Glue) (ev : Event) (e : JsVal) (r : Run JsVal) : Prop :=
  r.1 = Except.ok JsVal.undefined ∧
  r.2.trace = g.trace ++ [ev, Event.wasm "__wbindgen_exn_store" [JsVal.num g.heap_next]] ∧
  getObject g.heap_next r.2 = e

/-- The free list of the slab: `FreeChain heap next fl` says that, starting
from `next`, the slots `fl` each hold the index of the one after them and the
last of them holds `heap.length`. -/
inductive FreeChain (heap : List JsVal) : Nat → List Nat → Prop where
  | done : FreeChain heap heap.length []
  | step (i j : Nat) (fl : List Nat) : i < heap.length → heap[i]? = some (JsVal.num j) →
      FreeChain heap j fl → FreeChain heap i (i :: fl)

/-- The next `n` handles of a slab with free list `fl` and `len` slots: the
free slots in the order of the list, then new slots at the end. -/
def freshHandles : List Nat → Nat → Nat → List Nat
  | _, _, 0 => []
  | [], len, n + 1 => len :: freshHandles [] (len + 1) n
  | i :: fl, len, n + 1 => i :: freshHandles fl len n

/-- The handles of the values `xs` put on the slab one after the other, and the state after. -/
def addAll : List JsVal → Glue → List Nat × Glue
  | [], g => ([], g)
  | x :: xs, g =>
    let r := addHeapObject x g
    let rest := addAll xs r.2
    (r.1 :: rest.1, rest.2)

/-- The memory after the words `hs` are assigned to `view[ptr / 4 + i]`, `view[ptr / 4 + i + 1]`, ... -/
def writeWords (m : Mem) (ptr : Nat) : Nat → List Nat → Mem
  | _, [] => m
  | i, x :: xs => writeWords (setWord m ptr i x) ptr (i + 1) xs

/-- The `n` words of the memory from byte address `ptr` on. -/
def readWords (m : Mem) (ptr n : Nat) : List Nat :=
  (List.range n).map fun k => load32 m (ptr + 4 * k)

/-- The run `r`, started in `g`, constructed no audio context. -/
def Quiet {α : Type} (g : Glue) (r : Run α) : Prop :=
  audioConstructions r.2.trace = audioConstructions g.trace

/-- A host for `__wbg_load`: everything is a `Response`, the method
`instantiateStreaming` throws `boom`, the header `Content-Type` is
`text/html`, and every other operation yields the object 9. -/
def fallbackHost : Host :=
  { defined := fun _ => true
    isFunction := fun _ => true
    instanceOf := fun _ name => name == "Response"
    construct := fun _ _ _ => Outcome.ret (JsVal.obj 9)
    call := fun _ _ method _ =>
      if method = "instantiateStreaming" then Outcome.throw boom
      else if method = "get" then Outcome.ret (JsVal.str (units "text/html"))
      else Outcome.ret (JsVal.obj 9)
    get := fun _ _ _ => Outcome.ret (JsVal.obj 9)
    apply := fun _ _ _ => Outcome.ret JsVal.undefined
    await := fun _ v => Outcome.ret v
    decode := fun _ => Outcome.ret (JsVal.str [])
    hasEncodeInto := true }

/-! ## Closures handed to the host -/

/-- The object `state` of `makeMutClosure` and `makeClosure`: the two words of
the Rust closure, the reference count and the index of the destructor. -/
structure ClosureState where
  a : Int
  b : Int
  cnt : Int
  dtor : Nat
  deriving DecidableEq

/-- One call `wasm.__wbindgen_export_2.get(state.dtor)(a, b)` of the
destructor: its arguments, whether the `finally` block of an invocation made it
(otherwise the callback of the registry `CLOSURE_DTORS` did), how many
invocations of the closure were still in progress, and `state.cnt` at the
call. -/
structure DtorCall where
  a : Int
  b : Int
  byFinally : Bool
  inProgress : Nat
  cnt : Int
  deriving DecidableEq

/-- A closure made by `makeMutClosure` (`isMut`) or `makeClosure`, as it runs:
its `state`, the first argument of `f` of each invocation in progress
(innermost first; in `makeMutClosure` this is the constant `a` of the
invocation), the first arguments passed to `f` so far, the calls of the
destructor so far, and whether `state` is still registered with
`CLOSURE_DTORS`. -/
structure Closure where
  isMut : Bool
  state : ClosureState
  frames : List Int
  passed : List Int
  destroyed : List DtorCall
  registered : Bool
  deriving DecidableEq

/-- What can happen to a closure.  The body `f` is wasm code, so between the
start and the end of an invocation anything in this list may happen again. -/
inductive ClosureEvent where
  /-- The function `real` is called: the statements up to and including the call of `f`. -/
  | enter
  /-- The call of `f` ends, by `return` or by a throw: the `finally` block. -/
  | leave (threw : Bool)
  /-- The binding `__wbindgen_cb_drop` on a handle of the closure. -/
  | drop
  /-- The function `real` has been garbage collected: the callback of
  `CLOSURE_DTORS` runs on `state`. -/
  | collect
  deriving DecidableEq

/-- The closure right after `makeMutClosure(arg0, arg1, dtor, f)` or
`makeClosure(arg0, arg1, dtor, f)`: `cnt` is 1 and `state` is registered with
`CLOSURE_DTORS`, which finalizes only where the host has a
`FinalizationRegistry`. -/
def Closure.make (h : Host) (isMut : Bool) (arg0 arg1 : Int) (dtor : Nat) : Closure :=
  { isMut := isMut
    state := { a := arg0, b := arg1, cnt := 1, dtor := dtor }
    frames := []
    passed := []
    destroyed := []
    registered := h.defined "FinalizationRegistry" }

/-- The function `makeMutClosure`. -/
def makeMutClosure (h : Host) (arg0 arg1 : Int) (dtor : Nat) : Closure :=
  Closure.make h true arg0 arg1 dtor

/-- The function `makeClosure`. -/
def makeClosure (h : Host) (arg0 arg1 : Int) (dtor : Nat) : Closure :=
  Closure.make h false arg0 arg1 dtor

/-- The start of an invocation: `state.cnt++`, and in `makeMutClosure`
`const a = state.a; state.a = 0;`, then the call `f(a, state.b, ...args)`
(in `makeClosure`: `f(state.a, state.b, ...args)`). -/
def Closure.enter (c : Closure) : Closure :=
  { c with
    state := { c.state with cnt := c.state.cnt + 1, a := if c.isMut then 0 else c.state.a }
    frames := c.state.a :: c.frames
    passed := c.passed ++ [c.state.a] }

/-- The `finally` block of the innermost invocation in progress.  In
`makeMutClosure`: `if (--state.cnt === 0)` the destructor is called on
`(a, state.b)` and `state` is unregistered, `else state.a = a`.  In
`makeClosure`: `if (--state.cnt === 0)` the destructor is called on
`(state.a, state.b)`, `state.a = 0` and `state` is unregistered.  Without an
invocation in progress there is no such block to run. -/
def Closure.leave (c : Closure) : Closure :=
  match c.frames with
  | [] => c
  | a :: rest =>
    if c.state.cnt - 1 = 0 then
      { c with
        state := { c.state with cnt := 0, a := if c.isMut then c.state.a else 0 }
        frames := rest
        destroyed := c.destroyed ++
          [{ a := if c.isMut then a else c.state.a, b := c.state.b, byFinally := true,
             inProgress := rest.length, cnt := 0 }]
        registered := false }
    else
      { c with
        state := { c.state with cnt := c.state.cnt - 1, a := if c.isMut then a else c.state.a }
        frames := rest }

/-- The body of `__wbindgen_cb_drop` on the state of the closure:
`if (obj.cnt-- == 1) { obj.a = 0; return true; }`. -/
def Closure.drop (c : Closure) : Closure :=
  { c with
    state := { c.state with cnt := c.state.cnt - 1, a := if c.state.cnt = 1 then 0 else c.state.a } }

/-- The callback of `CLOSURE_DTORS`: the destructor on `(state.a, state.b)`.
It runs only when `state` is still registered, and the function `real` is not
collected while one of its invocations is in progress. -/
def Closure.collect (c : Closure) : Closure :=
  if c.registered && c.frames.isEmpty then
    { c with
      destroyed := c.destroyed ++
        [{ a := c.state.a, b := c.state.b, byFinally := false, inProgress := c.frames.length,
           cnt := c.state.cnt }]
      registered := false }
  else c

/-- One event on a closure. -/
def Closure.step (c : Closure) : ClosureEvent → Closure
  | ClosureEvent.enter => c.enter
  | ClosureEvent.leave _ => c.leave
  | ClosureEvent.drop => c.drop
  | ClosureEvent.collect => c.collect

/-- A sequence of events on a closure, in order. -/
def Closure.run (c : Closure) (evs : List ClosureEvent) : Closure := evs.foldl Closure.step c

/-! ## The Tailwind extractor of `tailwind.config.js` -/

/-- The character class `[-\w: ]` of the pattern; `\w` is `[A-Za-z0-9_]`. -/
def isClassChar (c : Char) : Bool :=
  c.isAlphanum || c == '_' || c == '-' || c == ':' || c == ' '

/-- The characters of a class name in the sense of the comment: letters,
digits, `_` and `-`. -/
def isNameChar (c : Char) : Bool := c.isAlphanum || c == '_' || c == '-'

/-- Whether the text read so far (last character first) ends with `class:` or `class=`. -/
def endsWithClassOpener : List Char → Bool
  | [] => false
  | c :: r => (c == ':' || c == '=') && r.take 5 == ['s', 's', 'a', 'l', 'c']

/-- The lookbehind `(?<=class[:=]\(?"?)` at a position, on the text before
the position (last character first): `class:` or `class=`, then `(` or not,
then `"` or not. -/
def lookbehind : List Char → Bool
  | [] => false
  | c :: r =>
    endsWithClassOpener (c :: r) || (c == '(' && endsWithClassOpener r) ||
      (c == '"' && (endsWithClassOpener r ||
        match r with
        | [] => false
        | d :: r2 => d == '(' && endsWithClassOpener r2))

/-- The matches of `content.match(/(?<=class[:=]\(?"?)[-\w: ]+/g)`, from left
to right.  `before` is the text already passed (last character first) and the
second argument the match in progress (last character first), if there is one.
A match starts at the first position where the lookbehind holds and a character
of the class follows, takes all the characters of the class that follow, and
the search goes on behind it. -/
def scanMatches : List Char → Option (List Char) → List Char → List (List Char)
  | _, none, [] => []
  | _, some acc, [] => [acc.reverse]
  | before, none, c :: rest =>
    if lookbehind before && isClassChar c then scanMatches (c :: before) (some [c]) rest
    else scanMatches (c :: before) none rest
  | before, some acc, c :: rest =>
    if isClassChar c then scanMatches (c :: before) (some (c :: acc)) rest
    else acc.reverse :: scanMatches (c :: before) none rest

/-- The method call `s.split(' ')`. -/
def splitOnSpace : List Char → List (List Char)
  | [] => [[]]
  | c :: rest =>
    if c = ' ' then [] :: splitOnSpace rest
    else
      match splitOnSpace rest with
      | [] => [[c]]
      | t :: ts => (c :: t) :: ts

/-- The function `content.extract.rs` of `tailwind.config.js`: the matches of
the pattern, each split at its spaces; no match gives the empty list. -/
def extract_rs (content : List Char) : List (List Char) :=
  (scanMatches [] none content).flatMap splitOnSpace

/-- The inline form `class:N=` of the comment in `tailwind.config.js`. -/
def inlineForm (N : List Char) : List Char :=
  ['c', 'l', 'a', 's', 's', ':'] ++ N ++ ['=']

/-- The tuple form `class=("N",` of the comment in `tailwind.config.js`. -/
def tupleForm (N : List Char) : List Char :=
  ['c', 'l', 'a', 's', 's', '=', '(', '"'] ++ N ++ ['"', ',']

/-! ## The playback core described by the specification

The crate that implements the playback core (rational time, the score timeline,
the cursor controller, the audio scheduler and the transport) is not under
`src/`, which holds the generated glue and the Tailwind configuration.  The
definitions of this section follow §3, §4 and §7 of the specification. -/

/-- Modelled from the spec: the error kinds of §7 that the playback core
raises; the core that defines them is not under `src/`. -/
inductive CoreError
  | ArithmeticError
  | EmptyScoreError
  | AudioResourceError
  deriving DecidableEq

/-- Modelled from the spec: the record `RationalTime` of §3, a numerator and a
denominator; the core that defines it is not under `src/`.  The record is the
plain pair: lowest terms and the positive denominator are what `reduce`
establishes, not part of the type. -/
structure RationalTime where
  numerator : Int
  denominator : Int
  deriving DecidableEq

/-- Modelled from the spec: "the chosen integer width" of §4.1, whose choice is
in the core that is not under `src/`: a signed integer of `width` bits holds
`x` when `-2^(width-1) ≤ x < 2^(width-1)`. -/
def fitsWidth (width : Nat) (x : Int) : Bool :=
  decide (-(2 : Int) ^ width ≤ 2 * x ∧ 2 * x < (2 : Int) ^ width)

/-- Modelled from the spec: the reduction of §4.1 ("reduce to lowest terms
using greatest-common-divisor reduction", "fails with `ArithmeticError` if a
denominator would become zero or the reduced numerator/denominator overflow the
chosen integer width"), with the sign carried by the numerator (§3,
"denominator > 0"); the function itself is in the core that is not under
`src/`. -/
def RationalTime.reduce (width : Nat) (n d : Int) : Except CoreError RationalTime :=
  if d = 0 then Except.error CoreError.ArithmeticError
  else
    let g : Int := Int.gcd n d
    let s : Int := if d < 0 then -1 else 1
    let r : RationalTime := { numerator := s * (n / g), denominator := s * (d / g) }
    if fitsWidth width r.numerator && fitsWidth width r.denominator then Except.ok r
    else Except.error CoreError.ArithmeticError

/-- Modelled from the spec: `compare(a,b)` of §4.1 by the products of numerators
and denominators in wide (here unbounded) arithmetic; the function itself is in
the core that is not under `src/`. -/
def RationalTime.compare (a b : RationalTime) : Ordering :=
  Ord.compare (a.numerator * b.denominator) (b.numerator * a.denominator)

/-- The rational value of a `RationalTime` whose denominator is not zero. -/
def RationalTime.toRat (a : RationalTime) : ℚ := (a.numerator : ℚ) / (a.denominator : ℚ)

/-- Modelled from the spec: a fraction as the score-rendering collaborator
exposes it in §6 ("rational numerator/denominator/whole-value"); the code that
reads it is in the core that is not under `src/`. -/
structure Fraction where
  wholeValue : Int
  numerator : Int
  denominator : Int
  deriving DecidableEq

/-- Modelled from the spec: the `RationalTime` of a collaborator fraction, the
whole value added to the numerator over the denominator and the sum reduced
(§4.1); the conversion is in the core that is not under `src/`. -/
def RationalTime.ofFraction (width : Nat) (f : Fraction) : Except CoreError RationalTime :=
  RationalTime.reduce width (f.wholeValue * f.denominator + f.numerator) f.denominator

/-- Modelled from the spec: a note of the rendered score as §6 lists it (pitch
as a semitone value, duration, rest flag); the code that reads it is in the
core that is not under `src/`. -/
structure Note where
  halfTone : Int
  length : Fraction
  isRest : Bool
  deriving DecidableEq

/-- Modelled from the spec: a voice entry of the rendered score (§6): its notes
and the back-reference to its absolute timestamp. -/
structure VoiceEntry where
  timestamp : Fraction
  notes : List Note
  deriving DecidableEq

/-- Modelled from the spec: a measure of the rendered score with its voices in
voice-index order (§4.2). -/
structure Measure where
  voices : List (List VoiceEntry)
  deriving DecidableEq

/-- Modelled from the spec: the rendered score of §4.2 as the traversal meets
it, measure after measure; the levels above the measure (pages, systems,
staves) only group measures. -/
structure Score where
  measures : List Measure
  deriving DecidableEq

/-- Modelled from the spec: the voice entries of a score in the order of the
one-pass traversal of §4.2; an empty voice contributes nothing. -/
def Score.voiceEntries (s : Score) : List VoiceEntry :=
  s.measures.flatMap (fun m => m.voices.flatten)

/-- Modelled from the spec: the `NoteEvent` of §3 (pitch as signed semitone
offset, duration as `RationalTime`, rest flag). -/
structure NoteEvent where
  pitch : Int
  duration : RationalTime
  isRest : Bool
  deriving DecidableEq

/-- Modelled from the spec: the `TimelineEntry` of §3, one timestamp and the
notes that sound there. -/
structure TimelineEntry where
  timestamp : RationalTime
  notes : List NoteEvent
  deriving DecidableEq

/-- Modelled from the spec: the notes of a voice entry as `NoteEvent`s, each
duration reduced (§3, §4.1); a malformed duration is an `ArithmeticError`. -/
def toNoteEvents (width : Nat) : List Note → Except CoreError (List NoteEvent)
  | [] => Except.ok []
  | n :: rest =>
    match RationalTime.ofFraction width n.length with
    | Except.error e => Except.error e
    | Except.ok d =>
      match toNoteEvents width rest with
      | Except.error e => Except.error e
      | Except.ok evs => Except.ok ({ pitch := n.halfTone, duration := d, isRest := n.isRest } :: evs)

/-- Modelled from the spec: the timeline entry of one voice entry, its
absolute timestamp resolved to a `RationalTime` (§4.2). -/
def toTimelineEntry (width : Nat) (ve : VoiceEntry) : Except CoreError TimelineEntry :=
  match RationalTime.ofFraction width ve.timestamp with
  | Except.error e => Except.error e
  | Except.ok t =>
    match toNoteEvents width ve.notes with
    | Except.error e => Except.error e
    | Except.ok evs => Except.ok { timestamp := t, notes := evs }

/-- Modelled from the spec: one entry put into the time-ordered sequence of
§4.2; an entry at a timestamp already present is merged into the entry there,
its notes behind the notes of the earlier voices (the tie-break rule). -/
def insertEntry (e : TimelineEntry) : List TimelineEntry → List TimelineEntry
  | [] => [e]
  | x :: xs =>
    match RationalTime.compare e.timestamp x.timestamp with
    | Ordering.lt => e :: x :: xs
    | Ordering.eq => { timestamp := x.timestamp, notes := x.notes ++ e.notes } :: xs
    | Ordering.gt => x :: insertEntry e xs

/-- Modelled from the spec: the one-pass traversal of §4.2 over the voice
entries, each resolved and put into the sequence built so far. -/
def addEntries (width : Nat) : List TimelineEntry → List VoiceEntry →
    Except CoreError (List TimelineEntry)
  | tl, [] => Except.ok tl
  | tl, ve :: rest =>
    match toTimelineEntry width ve with
    | Except.error e => Except.error e
    | Except.ok te => addEntries width (insertEntry te tl) rest

/-- Modelled from the spec: the construction of the `ScoreTimeline` of §4.2;
it "fails with `EmptyScoreError` if no entries are found at all".  The
function itself is in the core that is not under `src/`. -/
def buildTimeline (width : Nat) (s : Score) : Except CoreError (List TimelineEntry) :=
  match addEntries width [] s.voiceEntries with
  | Except.error e => Except.error e
  | Except.ok [] => Except.error CoreError.EmptyScoreError
  | Except.ok (x :: xs) => Except.ok (x :: xs)

/-- Timestamps that strictly increase along a timeline. -/
def StrictlyIncreasing (tl : List TimelineEntry) : Prop :=
  tl.Pairwise (fun a b => RationalTime.compare a.timestamp b.timestamp = Ordering.lt)

/-- Modelled from the spec: the position of the cursor of §3 and §4.3, an index
into the timeline or one of the two sentinels. -/
inductive CursorPosition
  | beforeFirst
  | atEntry (index : Nat)
  | afterLast
  deriving DecidableEq

/-- Modelled from the spec: the state of the Cursor Controller of §3 and §4.3,
the position and whether the visual cursor is shown; the controller itself is
in the core that is not under `src/`. -/
structure CursorController where
  position : CursorPosition
  visible : Bool
  deriving DecidableEq

/-- Modelled from the spec: `reset()` of §4.3, "index = before-first, visual
cursor hidden". -/
def CursorController.reset (_c : CursorController) : CursorController :=
  { position := CursorPosition.beforeFirst, visible := false }

/-- Modelled from the spec: `next()` of §4.3, "advance index by one or to
after last (terminal)"; the visual cursor is shown and hidden at the
sentinels. -/
def CursorController.next (tl : List TimelineEntry) (c : CursorController) : CursorController :=
  match c.position with
  | CursorPosition.beforeFirst =>
    if 0 < tl.length then { position := CursorPosition.atEntry 0, visible := true }
    else { position := CursorPosition.afterLast, visible := false }
  | CursorPosition.atEntry i =>
    if i + 1 < tl.length then { position := CursorPosition.atEntry (i + 1), visible := c.visible }
    else { position := CursorPosition.afterLast, visible := false }
  | CursorPosition.afterLast => c

/-- Modelled from the spec: `previous()` of §4.3, "move back, clamped at
before-first". -/
def CursorController.previous (tl : List TimelineEntry) (c : CursorController) :
    CursorController :=
  match c.position with
  | CursorPosition.beforeFirst => c
  | CursorPosition.atEntry 0 => { position := CursorPosition.beforeFirst, visible := false }
  | CursorPosition.atEntry (i + 1) => { position := CursorPosition.atEntry i, visible := c.visible }
  | CursorPosition.afterLast =>
    if 0 < tl.length then { position := CursorPosition.atEntry (tl.length - 1), visible := true }
    else { position := CursorPosition.beforeFirst, visible := false }

/-- Modelled from the spec: the binary search of §4.3 for "the first entry
whose timestamp ≥ position" between the indices `lo` and `hi`; the first
argument bounds the number of halvings. -/
def lowerBoundLoop (tl : List TimelineEntry) (T : RationalTime) : Nat → Nat → Nat → Nat
  | 0, lo, _ => lo
  | fuel + 1, lo, hi =>
    if lo < hi then
      let mid := (lo + hi) / 2
      match tl[mid]? with
      | some e =>
        if RationalTime.compare e.timestamp T = Ordering.lt then
          lowerBoundLoop tl T fuel (mid + 1) hi
        else lowerBoundLoop tl T fuel lo mid
      | none => lo
    else lo

/-- Modelled from the spec: the index that the binary search of §4.3 finds in
the whole timeline, the length when no entry has a timestamp ≥ `T`. -/
def lowerBound (tl : List TimelineEntry) (T : RationalTime) : Nat :=
  lowerBoundLoop tl T tl.length 0 tl.length

/-- Modelled from the spec: `seek(position)` of §4.3, which searches the
timeline, updates the index and repositions the visual cursor. -/
def CursorController.seek (tl : List TimelineEntry) (_c : CursorController)
    (T : RationalTime) : CursorController :=
  let i := lowerBound tl T
  if i < tl.length then { position := CursorPosition.atEntry i, visible := true }
  else { position := CursorPosition.afterLast, visible := false }

/-- Modelled from the spec: `currentEntry()` of §4.3, "the entry at index or
none at the sentinels". -/
def CursorController.currentEntry (tl : List TimelineEntry) (c : CursorController) :
    Option TimelineEntry :=
  match c.position with
  | CursorPosition.atEntry i => tl[i]?
  | _ => none

/-- Modelled from the spec: the `PlaybackClock` of §3 with a constant tempo,
the real time of the musical position zero and the seconds of a whole note. -/
structure PlaybackClock where
  origin : ℚ
  wholeNoteSeconds : ℚ
  deriving DecidableEq

/-- Modelled from the spec: the mapping of the `PlaybackClock` from a musical
position to the real time of the host audio clock (§3, `toReal` of §4.1). -/
def PlaybackClock.toReal (c : PlaybackClock) (t : RationalTime) : ℚ :=
  c.origin + t.toRat * c.wholeNoteSeconds

/-- Modelled from the spec: the `ScheduledAudioEvent` of §3, a note bound to a
real start and stop time. -/
structure ScheduledAudioEvent where
  note : NoteEvent
  start : ℚ
  stop : ℚ
  deriving DecidableEq

/-- Modelled from the spec: the bookkeeping of the Audio Scheduler of §4.4,
`lastScheduledIndex` and `lastScheduledTime`; the scheduler itself is in the
core that is not under `src/`. -/
structure Scheduler where
  lastScheduledIndex : Nat
  lastScheduledTime : ℚ
  deriving DecidableEq

/-- Modelled from the spec: the events of one timeline entry (step 3 of §4.4),
one for each note that is not a rest, from the mapped start to the start plus
the mapped duration. -/
def eventsOfEntry (clock : PlaybackClock) (e : TimelineEntry) : List ScheduledAudioEvent :=
  (e.notes.filter (fun n => !n.isRest)).map (fun n =>
    { note := n
      start := clock.toReal e.timestamp
      stop := clock.toReal e.timestamp + n.duration.toRat * clock.wholeNoteSeconds })

/-- Modelled from the spec: the walk of step 3 of §4.4 over the entries from
the last-scheduled index on, as long as the mapped start lies before the
horizon; an entry whose start lies in `[lastScheduledTime, horizon)` gives its
events.  The result is the index behind the last entry passed and the events
in order. -/
def Scheduler.walk (clock : PlaybackClock) (lastScheduledTime horizon : ℚ) :
    List TimelineEntry → Nat → Nat × List ScheduledAudioEvent
  | [], i => (i, [])
  | e :: rest, i =>
    if clock.toReal e.timestamp < horizon then
      let r := Scheduler.walk clock lastScheduledTime horizon rest (i + 1)
      (r.1, (if lastScheduledTime ≤ clock.toReal e.timestamp then eventsOfEntry clock e
        else []) ++ r.2)
    else (i, [])

/-- Modelled from the spec: the scheduling tick of §4.4 (steps 2 to 4) with the
look-ahead window `W`: the horizon is `now + W`, the walk starts at
`lastScheduledIndex`, and the bookkeeping advances past what was passed, the
time to the horizon and never backwards.  The result is the new bookkeeping
and the events submitted to the host audio graph. -/
def Scheduler.tick (tl : List TimelineEntry) (clock : PlaybackClock) (W : ℚ) (s : Scheduler)
    (now : ℚ) : Scheduler × List ScheduledAudioEvent :=
  let horizon := now + W
  let r := Scheduler.walk clock s.lastScheduledTime horizon (tl.drop s.lastScheduledIndex)
    s.lastScheduledIndex
  ({ lastScheduledIndex := r.1, lastScheduledTime := max s.lastScheduledTime horizon }, r.2)

/-- Modelled from the spec: the enumeration `TransportState` of §3. -/
inductive TransportState
  | Stopped
  | Playing
  | Paused
  | Seeking
  deriving DecidableEq

/-- Modelled from the spec: the transport commands of §4.5. -/
inductive Command
  | play
  | pause
  | resume
  | stop
  | seek (position : RationalTime)
  deriving DecidableEq

/-- Modelled from the spec: the transport of §3 and §4.5 with what it owns,
the timeline, the clock, the look-ahead window, the state, the state a seek
came from, the cursor and the scheduling bookkeeping; the transport itself is
in the core that is not under `src/`. -/
structure Transport where
  timeline : List TimelineEntry
  clock : PlaybackClock
  lookAhead : ℚ
  state : TransportState
  seekOrigin : TransportState
  cursor : CursorController
  scheduler : Scheduler
  deriving DecidableEq

/-- Modelled from the spec: the commands that §4.5 allows in a state: `play`
when Stopped with a non-empty timeline, `pause` when Playing, `resume` when
Paused, `stop` and `seek` when Playing or Paused. -/
def Transport.allowed (t : Transport) : Command → Bool
  | Command.play => t.state == TransportState.Stopped && !t.timeline.isEmpty
  | Command.pause => t.state == TransportState.Playing
  | Command.resume => t.state == TransportState.Paused
  | Command.stop => t.state == TransportState.Playing || t.state == TransportState.Paused
  | Command.seek _ => t.state == TransportState.Playing || t.state == TransportState.Paused

/-- Modelled from the spec: the transitions of the transport state machine of
§4.5 on a command.  `stop` resets the Cursor Controller; `seek` moves the
cursor, resets the bookkeeping to the seek target (§4.4) and enters Seeking;
every other pair of state and command is the documented no-op.  The result is
an `Except` so that an error would show. -/
def Transport.handle (t : Transport) (cmd : Command) : Except CoreError Transport :=
  match t.state, cmd with
  | TransportState.Stopped, Command.play =>
    match t.timeline with
    | [] => Except.ok t
    | _ :: _ => Except.ok { t with state := TransportState.Playing }
  | TransportState.Playing, Command.pause => Except.ok { t with state := TransportState.Paused }
  | TransportState.Paused, Command.resume => Except.ok { t with state := TransportState.Playing }
  | TransportState.Playing, Command.stop =>
    Except.ok { t with state := TransportState.Stopped, cursor := t.cursor.reset }
  | TransportState.Paused, Command.stop =>
    Except.ok { t with state := TransportState.Stopped, cursor := t.cursor.reset }
  | TransportState.Playing, Command.seek T =>
    Except.ok { t with
      state := TransportState.Seeking
      seekOrigin := TransportState.Playing
      cursor := t.cursor.seek t.timeline T
      scheduler := { lastScheduledIndex := lowerBound t.timeline T
                     lastScheduledTime := t.clock.toReal T } }
  | TransportState.Paused, Command.seek T =>
    Except.ok { t with
      state := TransportState.Seeking
      seekOrigin := TransportState.Paused
      cursor := t.cursor.seek t.timeline T
      scheduler := { lastScheduledIndex := lowerBound t.timeline T
                     lastScheduledTime := t.clock.toReal T } }
  | _, _ => Except.ok t

/-- The invariant of a timeline: every timestamp has a positive denominator
and the timestamps strictly increase. -/
def WellFormed (tl : List TimelineEntry) : Prop :=
  (∀ e ∈ tl, 0 < e.timestamp.denominator) ∧ StrictlyIncreasing tl

/-- A score of one measure with two voices: the first voice has entries at 0
and at 1/2 (written 2/4), the second voice an entry at 1/2. -/
def sampleScore : Score :=
  { measures := [{ voices := [
      [{ timestamp := { wholeValue := 0, numerator := 0, denominator := 4 }
         notes := [{ halfTone := 0, length := { wholeValue := 0, numerator := 2, denominator := 4 }
                     isRest := false }] },
       { timestamp := { wholeValue := 0, numerator := 2, denominator := 4 }
         notes := [{ halfTone := 4, length := { wholeValue := 0, numerator := 1, denominator := 2 }
                     isRest := false }] }],
      [{ timestamp := { wholeValue := 0, numerator := 1, denominator := 2 }
         notes := [{ halfTone := -5, length := { wholeValue := 0, numerator := 1, denominator := 2 }
                     isRest := true }] }]] }] }

/-- The timeline of `sampleScore`: the two entries at 1/2 are one entry. -/
def sampleTimeline : List TimelineEntry :=
  [{ timestamp := { numerator := 0, denominator := 1 }
     notes := [{ pitch := 0, duration := { numerator := 1, denominator := 2 }, isRest := false }] },
   { timestamp := { numerator := 1, denominator := 2 }
     notes := [{ pitch := 4, duration := { numerator := 1, denominator := 2 }, isRest := false },
               { pitch := -5, duration := { numerator := 1, denominator := 2 }, isRest := true }] }]

/-- A clock with the tempo of the scenario of §8, a whole note in two seconds,
and the musical position zero at real time zero. -/
def sampleClock : PlaybackClock := { origin := 0, wholeNoteSeconds := 2 }

/-- A transport in its initial state, Stopped, with an empty timeline. -/
def emptyTransport : Transport :=
  { timeline := []
    clock := sampleClock
    lookAhead := 1 / 4
    state := TransportState.Stopped
    seekOrigin := TransportState.Stopped
    cursor := { position := CursorPosition.beforeFirst, visible := false }
    scheduler := { lastScheduledIndex := 0, lastScheduledTime := 0 } }

/-! ## Releasing handles -/

/-- The function `dropObject`. -/
def dropObject (idx : Nat) (g : Glue) : Glue :=
  if idx < 132 then g
  else { g with heap := jsSet g.heap idx (JsVal.num g.heap_next), heap_next := idx }

/-- The function `takeObject`: the value and the state after the release. -/
def takeObject (idx : Nat) (g : Glue) : JsVal × Glue := (getObject idx g, dropObject idx g)

/-- The loop of `getArrayJsValueFromWasm0`: `result.push(takeObject(slice[i]))`
over the words of the slice. -/
def getArrayLoop : List Nat → Glue → List JsVal × Glue
  | [], g => ([], g)
  | hd :: rest, g =>
    let r := takeObject hd g
    let t := getArrayLoop rest r.2
    (r.1 :: t.1, t.2)

/-- The function `getArrayJsValueFromWasm0`.  The bounds `ptr / 4` and
`ptr / 4 + len` of `subarray` are truncated to integers, so the slice starts
at the word that holds the byte `ptr >>> 0`. -/
def getArrayJsValueFromWasm0 (ptr : Int) (len : Nat) (g : Glue) : List JsVal × Glue :=
  getArrayLoop (readWords g.mem (4 * (toU32 ptr / 4)) len) g

/-- One call of a function that changes the slab. -/
inductive SlabCall where
  | add (obj : JsVal)
  | drop (idx : Nat)
  | take (idx : Nat)

/-- A call on the state together with the handles in use, those that
`addHeapObject` returned and that were not released since. -/
def SlabCall.run (s : Glue × List Nat) : SlabCall → Glue × List Nat
  | SlabCall.add obj => ((addHeapObject obj s.1).2, (addHeapObject obj s.1).1 :: s.2)
  | SlabCall.drop idx => (dropObject idx s.1, s.2.erase idx)
  | SlabCall.take idx => ((takeObject idx s.1).2, s.2.erase idx)

/-- Whether a call releases nothing but a handle in use or a reserved index
below 132. -/
def SlabCall.inOrder (live : List Nat) : SlabCall → Bool
  | SlabCall.add _ => true
  | SlabCall.drop idx => decide (idx < 132) || decide (idx ∈ live)
  | SlabCall.take idx => decide (idx < 132) || decide (idx ∈ live)

/-- Whether in a sequence of calls each handle is released at most once for
each time it was handed out. -/
def disciplined : Glue × List Nat → List SlabCall → Bool
  | _, [] => true
  | s, c :: cs => c.inOrder s.2 && disciplined (c.run s) cs

/-- The state and the handles in use after a sequence of calls from the
initial state of the module. -/
def slabAfter (mem : Mem) (calls : List SlabCall) : Glue × List Nat :=
  calls.foldl SlabCall.run (Glue.initial mem, [])

/-- What holds of a slab with the handles `live` in use: the free list is well
formed, without repetition and above the reserved slots; the handles in use
are slots of the array, above the reserved slots too, not on the free list and
without repetition; the slots below 132 are as the module body left them. -/
def SlabInv (g : Glue) (live : List Nat) : Prop :=
  ∃ fl, FreeChain g.heap g.heap_next fl ∧ fl.Nodup ∧ (∀ i ∈ fl, 132 ≤ i) ∧
    (∀ k ∈ live, 132 ≤ k ∧ k < g.heap.length ∧ k ∉ fl) ∧ live.Nodup ∧
    132 ≤ g.heap.length ∧ ∀ k, k < 132 → g.heap[k]? = initialHeap[k]?

/-- Whether a sequence of events on a closure, read at nesting depth `d`, is
the inside of an invocation: every end of an invocation in it belongs to a
start in it, and every start in it is ended in it. -/
def balanced : Nat → List ClosureEvent → Bool
  | d, [] => d == 0
  | d, ClosureEvent.enter :: rest => balanced (d + 1) rest
  | 0, ClosureEvent.leave _ :: _ => false
  | d + 1, ClosureEvent.leave _ :: rest => balanced d rest
  | d, ClosureEvent.drop :: rest => balanced d rest
  | d, ClosureEvent.collect :: rest => balanced d rest

/-! ## The function `debugString` -/

/-- The operator `typeof` on a value.  A value named by an identifier or by
its place in the source is a function where the host says so; a host object
`obj` is an object that is not a function.  There are no symbols among the
values, so the branch of `debugString` for them is never taken. -/
def typeOf (h : Host) : JsVal → String
  | JsVal.undefined => "undefined"
  | JsVal.null => "object"
  | JsVal.bool _ => "boolean"
  | JsVal.num _ => "number"
  | JsVal.str _ => "string"
  | JsVal.fn name => if h.isFunction name then "function" else "object"
  | JsVal.lit name => if h.isFunction name then "function" else "object"
  | JsVal.obj _ => "object"
  | JsVal.err _ => "object"
  | JsVal.arr _ => "object"

/-- The conversion of a value to a string in a template literal or in a
concatenation with a string.  A primitive value is converted by the language;
an object is converted by its method `toString`, which the host runs and
which must give a primitive value (the steps through `Symbol.toPrimitive` and
`valueOf` are left out).  The numbers of the embedding are integers, written
in decimal; the exponent form that the language writes from 1e21 on is not
modelled. -/
def toText (h : Host) (v : JsVal) (g : Glue) : Run (List Nat) :=
  match v with
  | JsVal.undefined => (Except.ok (units "undefined"), g)
  | JsVal.null => (Except.ok (units "null"), g)
  | JsVal.bool b => (Except.ok (units (if b then "true" else "false")), g)
  | JsVal.num n => (Except.ok (units (toString n)), g)
  | JsVal.str s => (Except.ok s, g)
  | other =>
    match callMethod h other "toString" [] g with
    | (Except.ok JsVal.undefined, g1) => (Except.ok (units "undefined"), g1)
    | (Except.ok JsVal.null, g1) => (Except.ok (units "null"), g1)
    | (Except.ok (JsVal.bool b), g1) => (Except.ok (units (if b then "true" else "false")), g1)
    | (Except.ok (JsVal.num n), g1) => (Except.ok (units (toString n)), g1)
    | (Except.ok (JsVal.str s), g1) => (Except.ok s, g1)
    | (Except.ok _, g1) => (Except.error (JsVal.err "TypeError"), g1)
    | (Except.error e, g1) => (Except.error e, g1)

/-- What is left of a text behind the given leading units, if it starts with them. -/
def afterLeading : List Nat → List Nat → Option (List Nat)
  | [], s => some s
  | _ :: _, [] => none
  | p :: ps, c :: cs => if p = c then afterLeading ps cs else none

/-- The group of the pattern `/\[object ([^\]]+)\]/` when it matches at the
start of the text: `[object `, then the units up to the first `]` (unit 93),
at least one, then that `]`. -/
def classNameAt (s : List Nat) : Option (List Nat) :=
  match afterLeading (units "[object ") s with
  | none => none
  | some rest =>
    let name := rest.takeWhile (fun u => u != 93)
    if name ≠ [] ∧ (rest.drop name.length).head? = some 93 then some name else none

/-- The group of the first match of `/\[object ([^\]]+)\]/.exec(s)`, none when
the pattern matches nowhere (`exec` returns `null`). -/
def classNameOf : List Nat → Option (List Nat)
  | [] => none
  | c :: cs =>
    match classNameAt (c :: cs) with
    | some name => some name
    | none => classNameOf cs

/-- The function `debugString` on a value that is not an array.  The branch
`return toString.call(val)` for a match without its group is never reached: a
match of the pattern has its group, and on no match `builtInMatches` is `null`
and reading its `length` throws a `TypeError`. -/
def debugStringOther (h : Host) (val : JsVal) (g : Glue) : Run (List Nat) :=
  if typeOf h val = "number" ∨ typeOf h val = "boolean" ∨ isLikeNone val = true then
    toText h val g
  else if typeOf h val = "string" then
    (Except.ok ([34] ++ stringUnits val ++ [34]), g)
  else if typeOf h val = "function" then
    andThen (getProp h val "name" g) fun name g1 =>
      match name with
      | JsVal.str s =>
        if s.length > 0 then (Except.ok (units "Function(" ++ s ++ units ")"), g1)
        else (Except.ok (units "Function"), g1)
      | _ => (Except.ok (units "Function"), g1)
  else
    andThen (callMethod h (JsVal.fn "toString") "call" [val] g) fun r g1 =>
    andThen (toText h r g1) fun s g2 =>
      match classNameOf s with
      | none => (Except.error (JsVal.err "TypeError"), g2)
      | some className =>
        if className = units "Object" then
          match andThen (callMethod h (JsVal.fn "JSON") "stringify" [val] g2) (toText h) with
          | (Except.ok t, g3) => (Except.ok (units "Object(" ++ t ++ units ")"), g3)
          | (Except.error _, g3) => (Except.ok (units "Object"), g3)
        else if h.instanceOf val "Error" then
          andThen (getProp h val "name" g2) fun n g3 =>
          andThen (toText h n g3) fun nt g4 =>
          andThen (getProp h val "message" g4) fun m g5 =>
          andThen (toText h m g5) fun mt g6 =>
          andThen (getProp h val "stack" g6) fun st g7 =>
          andThen (toText h st g7) fun stt g8 =>
            (Except.ok (nt ++ units ": " ++ mt ++ [10] ++ stt), g8)
        else (Except.ok className, g2)

mutual
/-- The function `debugString`.  An array (`Array.isArray`) gives its items,
each by `debugString`, between `[` and `]` with `, ` between them. -/
def debugString (h : Host) : JsVal → Glue → Run (List Nat)
  | JsVal.arr items, g =>
    match debugStringItems h items g with
    | (Except.ok parts, g1) =>
      (Except.ok (units "[" ++ (units ", ").intercalate parts ++ units "]"), g1)
    | (Except.error e, g1) => (Except.error e, g1)
  | JsVal.undefined, g => debugStringOther h JsVal.undefined g
  | JsVal.null, g => debugStringOther h JsVal.null g
  | JsVal.bool b, g => debugStringOther h (JsVal.bool b) g
  | JsVal.num n, g => debugStringOther h (JsVal.num n) g
  | JsVal.str s, g => debugStringOther h (JsVal.str s) g
  | JsVal.fn name, g => debugStringOther h (JsVal.fn name) g
  | JsVal.obj id, g => debugStringOther h (JsVal.obj id) g
  | JsVal.err name, g => debugStringOther h (JsVal.err name) g
  | JsVal.lit name, g => debugStringOther h (JsVal.lit name) g
/-- The calls `debugString(val[i])` of the array branch, in order. -/
def debugStringItems (h : Host) : List JsVal → Glue → Run (List (List Nat))
  | [], g => (Except.ok [], g)
  | x :: xs, g =>
    match debugString h x g with
    | (Except.error e, g1) => (Except.error e, g1)
    | (Except.ok t, g1) =>
      match debugStringItems h xs g1 with
      | (Except.error e, g2) => (Except.error e, g2)
      | (Except.ok ts, g2) => (Except.ok (t :: ts), g2)
end

/-- A host in which every object has the class name `Object` and
`JSON.stringify` throws, as it does on an object with a cycle; the method
`toString` of an object gives `[object Object]`. -/
def cyclicHost : Host :=
  { defined := fun _ => true
    isFunction := fun _ => true
    instanceOf := fun _ _ => false
    construct := fun _ _ _ => Outcome.ret (JsVal.obj 9)
    call := fun _ _ method _ =>
      if method = "stringify" then Outcome.throw (JsVal.err "TypeError")
      else Outcome.ret (JsVal.str (units "[object Object]"))
    get := fun _ _ _ => Outcome.ret JsVal.undefined
    apply := fun _ _ _ => Outcome.ret JsVal.undefined
    await := fun _ v => Outcome.ret v
    decode := fun _ => Outcome.ret (JsVal.str [])
    hasEncodeInto := true }

/-! # Theorems -/

/-! ## Basic facts about the slab and the error boundary -/

theorem getD_jsSet_self (xs : List JsVal) (i : Nat) (v : JsVal) :
    (jsSet xs i v).getD i JsVal.undefined = v := by
  unfold jsSet
  split
  · next hi => simp [List.getD_eq_getElem?_getD, List.getElem?_set, hi]
  · next hi =>
    have hlen : (xs ++ List.replicate (i - xs.length) JsVal.undefined).length = i := by
      simp; omega
    rw [List.getD_eq_getElem?_getD, List.getElem?_append_right (by omega)]
    simp [hlen]

theorem addHeapObject_fst (obj : JsVal) (g : Glue) : (addHeapObject obj g).1 = g.heap_next := rfl

theorem addHeapObject_trace (obj : JsVal) (g : Glue) : (addHeapObject obj g).2.trace = g.trace :=
  rfl

theorem getObject_addHeapObject (obj : JsVal) (g : Glue) :
    getObject g.heap_next (addHeapObject obj g).2 = obj := by
  unfold getObject addHeapObject
  exact getD_jsSet_self _ _ _

theorem callMethod_of_throw (h : Host) (recv : JsVal) (method : String) (args : List JsVal)
    (g : Glue) (e : JsVal) (hn : isLikeNone recv = false)
    (hc : h.call g.trace recv method args = Outcome.throw e) :
    callMethod h recv method args g = (Except.error e, g.log (Event.call recv method args)) := by
  simp [callMethod, hn, hc]

theorem callMethod_of_ret (h : Host) (recv : JsVal) (method : String) (args : List JsVal)
    (g : Glue) (v : JsVal) (hn : isLikeNone recv = false)
    (hc : h.call g.trace recv method args = Outcome.ret v) :
    callMethod h recv method args g = (Except.ok v, g.log (Event.call recv method args)) := by
  simp [callMethod, hn, hc]

theorem handleError_of_throw (f : Glue → Run JsVal) (g g1 : Glue) (e : JsVal)
    (hf : f g = (Except.error e, g1)) :
    handleError f g = (Except.ok JsVal.undefined,
      (addHeapObject e g1).2.log (Event.wasm "__wbindgen_exn_store" [JsVal.num g1.heap_next])) := by
  simp [handleError, hf, addHeapObject_fst]

theorem caught_of_throw (f : Glue → Run JsVal) (g : Glue) (ev : Event) (e : JsVal)
    (hf : f g = (Except.error e, g.log ev)) : CaughtAndStored g ev e (handleError f g) := by
  rw [handleError_of_throw f g (g.log ev) e hf]
  refine ⟨rfl, ?_, ?_⟩
  · simp [Glue.log, addHeapObject_trace]
  · exact getObject_addHeapObject e (g.log ev)

theorem hostEvents_append (s t : List Event) : hostEvents (s ++ t) = hostEvents s ++ hostEvents t := by
  simp [hostEvents]

theorem handleError_hostEvents (f : Glue → Run JsVal) (g : Glue) (ev : Event)
    (hf : (f g).2.trace = g.trace ++ [ev]) (hev : hostEvents [ev] = [ev]) :
    hostEvents (handleError f g).2.trace = hostEvents g.trace ++ [ev] := by
  unfold handleError
  rcases hfg : f g with ⟨out, g1⟩
  rw [hfg] at hf
  simp only at hf
  cases out with
  | ok v => simp [hf, hostEvents_append, hev]
  | error e =>
    simp only [Glue.log, addHeapObject_trace, hf, List.append_assoc, hostEvents_append, hev]
    simp [hostEvents]

theorem callMethod_state (h : Host) (recv : JsVal) (method : String) (args : List JsVal)
    (g : Glue) (hn : isLikeNone recv = false) :
    (callMethod h recv method args g).2 = g.log (Event.call recv method args) := by
  unfold callMethod
  simp only [hn]
  cases h.call g.trace recv method args <;> rfl

theorem andThen_returnVoid_state (r : Run JsVal) : (andThen r returnVoid).2 = r.2 := by
  rcases r with ⟨out, g⟩
  cases out <;> rfl

theorem andThen_returnHandle_trace (r : Run JsVal) :
    (andThen r returnHandle).2.trace = r.2.trace := by
  rcases r with ⟨out, g⟩
  cases out <;> rfl

/-! ## C1: the bindings of the score-rendering collaborator -/

set_option maxRecDepth 8000 in
/-- C1, counterexample: `render()` of the score object throws `boom`, and the
render binding ends by throwing `boom` to its caller; nothing is handed to
`__wbindgen_exn_store`. -/
theorem render_exception_escapes :
    (__wbg_render_3b135fd5e31aafea throwingHost 132 sampleGlue).1 = Except.error boom ∧
    (__wbg_render_3b135fd5e31aafea throwingHost 132 sampleGlue).2.trace =
      [Event.call (JsVal.obj 7) "render" []] := by
  constructor <;> rfl

/-- C1, as amended: none of the bindings of the score-rendering collaborator
(load, render, handleResize, getHighestYAtEntry, getSVGGElement, getStemSVG,
getBeamSVGs, the cursor's reset, show, hide, next and previous, isRest) catches:
when the method it calls throws `e`, the binding throws the same `e` to its
caller, the slab is as before and the only new interaction is the call itself
(no `__wbindgen_exn_store`). -/
theorem rendering_bindings_propagate (h : Host) (w : Wasm) (g : Glue) (n a b : Nat) (e : JsVal)
    (hn : isLikeNone (getObject n g) = false) :
    (h.call g.trace (getObject n g) "load" [getObject a g] = Outcome.throw e →
      __wbg_load_6e1153682b5f3cd6 h n a g =
        (Except.error e, g.log (Event.call (getObject n g) "load" [getObject a g]))) ∧
    (h.call g.trace (getObject n g) "render" [] = Outcome.throw e →
      __wbg_render_3b135fd5e31aafea h n g =
        (Except.error e, g.log (Event.call (getObject n g) "render" []))) ∧
    (h.call g.trace (getObject n g) "handleResize" [getObject a g, getObject b g] =
        Outcome.throw e →
      __wbg_handleResize_381d10502b68005c h n a b g =
        (Except.error e,
          g.log (Event.call (getObject n g) "handleResize" [getObject a g, getObject b g]))) ∧
    (h.call g.trace (getObject n g) "getHighestYAtEntry" [] = Outcome.throw e →
      __wbg_getHighestYAtEntry_68bda7eb81b0caf3 h n g =
        (Except.error e, g.log (Event.call (getObject n g) "getHighestYAtEntry" []))) ∧
    (h.call g.trace (getObject n g) "getSVGGElement" [] = Outcome.throw e →
      __wbg_getSVGGElement_ce2a71516aa61312 h n g =
        (Except.error e, g.log (Event.call (getObject n g) "getSVGGElement" []))) ∧
    (h.call g.trace (getObject n g) "getStemSVG" [] = Outcome.throw e →
      __wbg_getStemSVG_07f004397ba5cc68 h n g =
        (Except.error e, g.log (Event.call (getObject n g) "getStemSVG" []))) ∧
    (h.call g.trace (getObject n g) "getBeamSVGs" [] = Outcome.throw e →
      __wbg_getBeamSVGs_75777c191e0993bb h w a n g =
        (Except.error e, g.log (Event.call (getObject n g) "getBeamSVGs" []))) ∧
    (h.call g.trace (getObject n g) "reset" [] = Outcome.throw e →
      __wbg_reset_f3e9c253e4b14d0c h n g =
        (Except.error e, g.log (Event.call (getObject n g) "reset" []))) ∧
    (h.call g.trace (getObject n g) "show" [] = Outcome.throw e →
      __wbg_show_4cf577f903a075f2 h n g =
        (Except.error e, g.log (Event.call (getObject n g) "show" []))) ∧
    (h.call g.trace (getObject n g) "hide" [] = Outcome.throw e →
      __wbg_hide_9d8a545faf194218 h n g =
        (Except.error e, g.log (Event.call (getObject n g) "hide" []))) ∧
    (h.call g.trace (getObject n g) "next" [] = Outcome.throw e →
      __wbg_next_2f65d938ae2296be h n g =
        (Except.error e, g.log (Event.call (getObject n g) "next" []))) ∧
    (h.call g.trace (getObject n g) "previous" [] = Outcome.throw e →
      __wbg_previous_8dcfc92d3457d593 h n g =
        (Except.error e, g.log (Event.call (getObject n g) "previous" []))) ∧
    (h.call g.trace (getObject n g) "isRest" [] = Outcome.throw e →
      __wbg_isRest_24efd610bb44f238 h n g =
        (Except.error e, g.log (Event.call (getObject n g) "isRest" []))) := by
  refine ⟨?_, ?_, ?_, ?_, ?_, ?_, ?_, ?_, ?_, ?_, ?_, ?_, ?_⟩ <;> intro hc
  · simp [__wbg_load_6e1153682b5f3cd6, callMethod_of_throw h _ _ _ g e hn hc, andThen]
  · simp [__wbg_render_3b135fd5e31aafea, callMethod_of_throw h _ _ _ g e hn hc, andThen]
  · simp [__wbg_handleResize_381d10502b68005c, callMethod_of_throw h _ _ _ g e hn hc, andThen]
  · simp [__wbg_getHighestYAtEntry_68bda7eb81b0caf3, callMethod_of_throw h _ _ _ g e hn hc,
      andThen]
  · simp [__wbg_getSVGGElement_ce2a71516aa61312, callMethod_of_throw h _ _ _ g e hn hc, andThen]
  · simp [__wbg_getStemSVG_07f004397ba5cc68, callMethod_of_throw h _ _ _ g e hn hc, andThen]
  · simp [__wbg_getBeamSVGs_75777c191e0993bb, callMethod_of_throw h _ _ _ g e hn hc, andThen]
  · simp [__wbg_reset_f3e9c253e4b14d0c, callMethod_of_throw h _ _ _ g e hn hc, andThen]
  · simp [__wbg_show_4cf577f903a075f2, callMethod_of_throw h _ _ _ g e hn hc, andThen]
  · simp [__wbg_hide_9d8a545faf194218, callMethod_of_throw h _ _ _ g e hn hc, andThen]
  · simp [__wbg_next_2f65d938ae2296be, callMethod_of_throw h _ _ _ g e hn hc, andThen]
  · simp [__wbg_previous_8dcfc92d3457d593, callMethod_of_throw h _ _ _ g e hn hc, andThen]
  · simp [__wbg_isRest_24efd610bb44f238, callMethod_of_throw h _ _ _ g e hn hc, andThen]

set_option maxRecDepth 8000 in
/-- C1, witness: in `throwingHost`, with the object behind handle 132, all
thirteen bindings end by throwing `boom`. -/
theorem rendering_bindings_propagate_witness :
    isLikeNone (getObject 132 sampleGlue) = false ∧
    (__wbg_load_6e1153682b5f3cd6 throwingHost 132 132 sampleGlue).1 = Except.error boom ∧
    (__wbg_render_3b135fd5e31aafea throwingHost 132 sampleGlue).1 = Except.error boom ∧
    (__wbg_handleResize_381d10502b68005c throwingHost 132 132 132 sampleGlue).1 =
      Except.error boom ∧
    (__wbg_getHighestYAtEntry_68bda7eb81b0caf3 throwingHost 132 sampleGlue).1 =
      Except.error boom ∧
    (__wbg_getSVGGElement_ce2a71516aa61312 throwingHost 132 sampleGlue).1 = Except.error boom ∧
    (__wbg_getStemSVG_07f004397ba5cc68 throwingHost 132 sampleGlue).1 = Except.error boom ∧
    (__wbg_getBeamSVGs_75777c191e0993bb throwingHost fixedWasm 132 132 sampleGlue).1 =
      Except.error boom ∧
    (__wbg_reset_f3e9c253e4b14d0c throwingHost 132 sampleGlue).1 = Except.error boom ∧
    (__wbg_show_4cf577f903a075f2 throwingHost 132 sampleGlue).1 = Except.error boom ∧
    (__wbg_hide_9d8a545faf194218 throwingHost 132 sampleGlue).1 = Except.error boom ∧
    (__wbg_next_2f65d938ae2296be throwingHost 132 sampleGlue).1 = Except.error boom ∧
    (__wbg_previous_8dcfc92d3457d593 throwingHost 132 sampleGlue).1 = Except.error boom ∧
    (__wbg_isRest_24efd610bb44f238 throwingHost 132 sampleGlue).1 = Except.error boom := by
  have hn : isLikeNone (getObject 132 sampleGlue) = false := by decide
  have t := rendering_bindings_propagate throwingHost fixedWasm sampleGlue 132 132 132 boom hn
  obtain ⟨t1, t2, t3, t4, t5, t6, t7, t8, t9, t10, t11, t12, t13⟩ := t
  refine ⟨hn, ?_, ?_, ?_, ?_, ?_, ?_, ?_, ?_, ?_, ?_, ?_, ?_, ?_⟩
  · rw [t1 rfl]
  · rw [t2 rfl]
  · rw [t3 rfl]
  · rw [t4 rfl]
  · rw [t5 rfl]
  · rw [t6 rfl]
  · rw [t7 rfl]
  · rw [t8 rfl]
  · rw [t9 rfl]
  · rw [t10 rfl]
  · rw [t11 rfl]
  · rw [t12 rfl]
  · rw [t13 rfl]

/-! ## C2: the bindings of the audio collaborator -/

/-- C2: each binding of the audio collaborator (the `AudioContext` constructor,
createBufferSource, createGain, decodeAudioData, start, stop, connect,
setValueAtTime, linearRampToValueAtTime) catches what the collaborator throws:
when the constructor or method throws `e`, the binding returns `undefined` to
its caller and `__wbindgen_exn_store` is called exactly once, with a new handle
of `e`. -/
theorem audio_bindings_catch (h : Host) (g : Glue) (n a : Nat) (u v : JsVal)
    (surplus : List JsVal) (e : JsVal) (c : String)
    (hl : lAudioContext h = JsVal.fn c)
    (hn : isLikeNone (getObject n g) = false) :
    (h.construct g.trace (JsVal.fn c) [] = Outcome.throw e →
      CaughtAndStored g (Event.construct (JsVal.fn c) []) e
        (__wbg_new_2f044fe84595e924 h g)) ∧
    (h.call g.trace (getObject n g) "createBufferSource" [] = Outcome.throw e →
      CaughtAndStored g (Event.call (getObject n g) "createBufferSource" []) e
        (__wbg_createBufferSource_0d65cd58ccd38511 h n g)) ∧
    (h.call g.trace (getObject n g) "createGain" [] = Outcome.throw e →
      CaughtAndStored g (Event.call (getObject n g) "createGain" []) e
        (__wbg_createGain_074e52e83a75da7f h n g)) ∧
    (h.call g.trace (getObject n g) "decodeAudioData" [getObject a g] = Outcome.throw e →
      CaughtAndStored g (Event.call (getObject n g) "decodeAudioData" [getObject a g]) e
        (__wbg_decodeAudioData_6e4a09d9bdf064dc h n a g)) ∧
    (h.call g.trace (getObject n g) "start" [] = Outcome.throw e →
      CaughtAndStored g (Event.call (getObject n g) "start" []) e
        (__wbg_start_a0650e3bc8fe8e8d h n surplus g)) ∧
    (h.call g.trace (getObject n g) "stop" [u] = Outcome.throw e →
      CaughtAndStored g (Event.call (getObject n g) "stop" [u]) e
        (__wbg_stop_8cd79bd9477aae21 h n u g)) ∧
    (h.call g.trace (getObject n g) "connect" [getObject a g] = Outcome.throw e →
      CaughtAndStored g (Event.call (getObject n g) "connect" [getObject a g]) e
        (__wbg_connect_186433827476e7d8 h n a g)) ∧
    (h.call g.trace (getObject n g) "setValueAtTime" [u, v] = Outcome.throw e →
      CaughtAndStored g (Event.call (getObject n g) "setValueAtTime" [u, v]) e
        (__wbg_setValueAtTime_1c6d27faeb36996a h n u v g)) ∧
    (h.call g.trace (getObject n g) "linearRampToValueAtTime" [u, v] = Outcome.throw e →
      CaughtAndStored g (Event.call (getObject n g) "linearRampToValueAtTime" [u, v]) e
        (__wbg_linearRampToValueAtTime_e88770a6b173b85e h n u v g)) := by
  refine ⟨?_, ?_, ?_, ?_, ?_, ?_, ?_, ?_, ?_⟩ <;> intro hc <;> apply caught_of_throw
  · simp [hl, construct, hc, andThen]
  all_goals simp [callMethod_of_throw h _ _ _ g e hn hc, andThen]

set_option maxRecDepth 8000 in
/-- C2, witness: in `throwingHost` the nine bindings return `undefined` and
hand `boom` to `__wbindgen_exn_store`. -/
theorem audio_bindings_catch_witness :
    lAudioContext throwingHost = JsVal.fn "AudioContext" ∧
    isLikeNone (getObject 132 sampleGlue) = false ∧
    CaughtAndStored sampleGlue (Event.construct (JsVal.fn "AudioContext") []) boom
      (__wbg_new_2f044fe84595e924 throwingHost sampleGlue) ∧
    CaughtAndStored sampleGlue (Event.call (JsVal.obj 7) "createBufferSource" []) boom
      (__wbg_createBufferSource_0d65cd58ccd38511 throwingHost 132 sampleGlue) ∧
    CaughtAndStored sampleGlue (Event.call (JsVal.obj 7) "createGain" []) boom
      (__wbg_createGain_074e52e83a75da7f throwingHost 132 sampleGlue) ∧
    CaughtAndStored sampleGlue (Event.call (JsVal.obj 7) "decodeAudioData" [JsVal.obj 7]) boom
      (__wbg_decodeAudioData_6e4a09d9bdf064dc throwingHost 132 132 sampleGlue) ∧
    CaughtAndStored sampleGlue (Event.call (JsVal.obj 7) "start" []) boom
      (__wbg_start_a0650e3bc8fe8e8d throwingHost 132 [] sampleGlue) ∧
    CaughtAndStored sampleGlue (Event.call (JsVal.obj 7) "stop" [JsVal.num 3]) boom
      (__wbg_stop_8cd79bd9477aae21 throwingHost 132 (JsVal.num 3) sampleGlue) ∧
    CaughtAndStored sampleGlue (Event.call (JsVal.obj 7) "connect" [JsVal.obj 7]) boom
      (__wbg_connect_186433827476e7d8 throwingHost 132 132 sampleGlue) ∧
    CaughtAndStored sampleGlue
      (Event.call (JsVal.obj 7) "setValueAtTime" [JsVal.num 3, JsVal.num 4]) boom
      (__wbg_setValueAtTime_1c6d27faeb36996a throwingHost 132 (JsVal.num 3) (JsVal.num 4)
        sampleGlue) ∧
    CaughtAndStored sampleGlue
      (Event.call (JsVal.obj 7) "linearRampToValueAtTime" [JsVal.num 3, JsVal.num 4]) boom
      (__wbg_linearRampToValueAtTime_e88770a6b173b85e throwingHost 132 (JsVal.num 3)
        (JsVal.num 4) sampleGlue) := by
  have hl : lAudioContext throwingHost = JsVal.fn "AudioContext" := by decide
  have hn : isLikeNone (getObject 132 sampleGlue) = false := by decide
  obtain ⟨t1, t2, t3, t4, t5, t6, t7, t8, t9⟩ :=
    audio_bindings_catch throwingHost sampleGlue 132 132 (JsVal.num 3) (JsVal.num 4) [] boom
      "AudioContext" hl hn
  exact ⟨hl, hn, t1 rfl, t2 rfl, t3 rfl, t4 rfl, t5 rfl, t6 rfl, t7 rfl, t8 rfl, t9 rfl⟩

/-! ## C3: the start binding -/

set_option maxRecDepth 8000 in
/-- C3, counterexample: called with the node behind handle 132 and the time 5,
the start binding makes the single call `start()` without an argument; the call
`start(5)` is not made. -/
theorem start_binding_drops_the_time :
    (__wbg_start_a0650e3bc8fe8e8d freshHost 132 [JsVal.num 5] sampleGlue).2.trace =
      [Event.call (JsVal.obj 7) "start" []] ∧
    Event.call (JsVal.obj 7) "start" [JsVal.num 5] ∉
      (__wbg_start_a0650e3bc8fe8e8d freshHost 132 [JsVal.num 5] sampleGlue).2.trace := by
  constructor <;> decide

/-- C3, as amended: the start binding takes the node alone and calls
`n.start()` once, without an argument, whatever else the caller supplies; no
start time reaches the node. -/
theorem start_binding_calls_start_without_argument (h : Host) (g : Glue) (n : Nat)
    (surplus : List JsVal) (hn : isLikeNone (getObject n g) = false) :
    hostEvents (__wbg_start_a0650e3bc8fe8e8d h n surplus g).2.trace =
      hostEvents g.trace ++ [Event.call (getObject n g) "start" []] := by
  apply handleError_hostEvents
  · rw [andThen_returnVoid_state, callMethod_state h _ _ _ g hn]
    rfl
  · rfl

set_option maxRecDepth 8000 in
/-- C3, witness: the node behind handle 132 of `sampleGlue`, with a surplus argument. -/
theorem start_binding_calls_start_without_argument_witness :
    isLikeNone (getObject 132 sampleGlue) = false ∧
    hostEvents (__wbg_start_a0650e3bc8fe8e8d freshHost 132 [JsVal.num 5] sampleGlue).2.trace =
      hostEvents sampleGlue.trace ++ [Event.call (getObject 132 sampleGlue) "start" []] :=
  ⟨by decide,
    start_binding_calls_start_without_argument freshHost sampleGlue 132 [JsVal.num 5]
      (by decide)⟩

/-! ## C4: the stop binding and the two gain bindings -/

/-- C4: the stop binding and the two gain-automation bindings only forward.
For every node and all values, the single interaction with the host is the call
`stop(time)`, `setValueAtTime(value, time)` or
`linearRampToValueAtTime(value, time)` on that node, with the arguments of the
caller, unchanged and in the order received. -/
theorem stop_and_gain_bindings_forward (h : Host) (g : Glue) (n : Nat) (time value : JsVal)
    (hn : isLikeNone (getObject n g) = false) :
    hostEvents (__wbg_stop_8cd79bd9477aae21 h n time g).2.trace =
      hostEvents g.trace ++ [Event.call (getObject n g) "stop" [time]] ∧
    hostEvents (__wbg_setValueAtTime_1c6d27faeb36996a h n value time g).2.trace =
      hostEvents g.trace ++ [Event.call (getObject n g) "setValueAtTime" [value, time]] ∧
    hostEvents (__wbg_linearRampToValueAtTime_e88770a6b173b85e h n value time g).2.trace =
      hostEvents g.trace ++
        [Event.call (getObject n g) "linearRampToValueAtTime" [value, time]] := by
  refine ⟨?_, ?_, ?_⟩ <;> apply handleError_hostEvents
  · rw [andThen_returnVoid_state, callMethod_state h _ _ _ g hn]
    rfl
  · rfl
  · rw [andThen_returnHandle_trace, callMethod_state h _ _ _ g hn]
    rfl
  · rfl
  · rw [andThen_returnHandle_trace, callMethod_state h _ _ _ g hn]
    rfl
  · rfl

set_option maxRecDepth 8000 in
/-- C4, witness: the node behind handle 132 of `sampleGlue`, value 3 and time 4. -/
theorem stop_and_gain_bindings_forward_witness :
    isLikeNone (getObject 132 sampleGlue) = false ∧
    hostEvents (__wbg_setValueAtTime_1c6d27faeb36996a freshHost 132 (JsVal.num 3) (JsVal.num 4)
        sampleGlue).2.trace =
      hostEvents sampleGlue.trace ++
        [Event.call (getObject 132 sampleGlue) "setValueAtTime" [JsVal.num 3, JsVal.num 4]] :=
  ⟨by decide,
    (stop_and_gain_bindings_forward freshHost sampleGlue 132 (JsVal.num 4) (JsVal.num 3)
      (by decide)).2.1⟩

/-! ## C5: the cursor bindings -/

/-- C5: each of the five cursor bindings makes one interaction with the host
and no other: the call of the method of its own name on the given cursor,
without arguments.  So the next and previous bindings call neither `show()` nor
`hide()`. -/
theorem cursor_bindings_call_their_method (h : Host) (g : Glue) (n : Nat)
    (hn : isLikeNone (getObject n g) = false) :
    (__wbg_reset_f3e9c253e4b14d0c h n g).2.trace =
      g.trace ++ [Event.call (getObject n g) "reset" []] ∧
    (__wbg_show_4cf577f903a075f2 h n g).2.trace =
      g.trace ++ [Event.call (getObject n g) "show" []] ∧
    (__wbg_hide_9d8a545faf194218 h n g).2.trace =
      g.trace ++ [Event.call (getObject n g) "hide" []] ∧
    (__wbg_next_2f65d938ae2296be h n g).2.trace =
      g.trace ++ [Event.call (getObject n g) "next" []] ∧
    (__wbg_previous_8dcfc92d3457d593 h n g).2.trace =
      g.trace ++ [Event.call (getObject n g) "previous" []] := by
  refine ⟨?_, ?_, ?_, ?_, ?_⟩
  · rw [__wbg_reset_f3e9c253e4b14d0c, andThen_returnVoid_state, callMethod_state h _ _ _ g hn]
    rfl
  · rw [__wbg_show_4cf577f903a075f2, andThen_returnVoid_state, callMethod_state h _ _ _ g hn]
    rfl
  · rw [__wbg_hide_9d8a545faf194218, andThen_returnVoid_state, callMethod_state h _ _ _ g hn]
    rfl
  · rw [__wbg_next_2f65d938ae2296be, andThen_returnVoid_state, callMethod_state h _ _ _ g hn]
    rfl
  · rw [__wbg_previous_8dcfc92d3457d593, andThen_returnVoid_state,
      callMethod_state h _ _ _ g hn]
    rfl

set_option maxRecDepth 8000 in
/-- C5, witness: the cursor behind handle 132 of `sampleGlue`; the next binding
makes the call `next()` and nothing else. -/
theorem cursor_bindings_call_their_method_witness :
    isLikeNone (getObject 132 sampleGlue) = false ∧
    (__wbg_next_2f65d938ae2296be freshHost 132 sampleGlue).2.trace =
      sampleGlue.trace ++ [Event.call (getObject 132 sampleGlue) "next" []] :=
  ⟨by decide, (cursor_bindings_call_their_method freshHost sampleGlue 132 (by decide)).2.2.2.1⟩

/-! ## C6: the audio-context constructor binding without a constructor -/

/-- C6: when the host has neither `AudioContext` nor `webkitAudioContext`, the
constructor binding does not throw: it returns `undefined`, calls no
constructor, and hands the `TypeError` of `new undefined()` to
`__wbindgen_exn_store`.  When `AudioContext` is defined it is `lAudioContext`;
`webkitAudioContext` is `lAudioContext` when it is defined and `AudioContext`
is not, and only then; and `lAudioContext` is the constructor the binding
calls. -/
theorem audio_context_constructor_choice (h : Host) (g : Glue) :
    (h.defined "AudioContext" = false → h.defined "webkitAudioContext" = false →
      lAudioContext h = JsVal.undefined ∧
      (__wbg_new_2f044fe84595e924 h g).1 = Except.ok JsVal.undefined ∧
      (__wbg_new_2f044fe84595e924 h g).2.trace =
        g.trace ++ [Event.wasm "__wbindgen_exn_store" [JsVal.num g.heap_next]] ∧
      getObject g.heap_next (__wbg_new_2f044fe84595e924 h g).2 = JsVal.err "TypeError") ∧
    (h.defined "AudioContext" = true → lAudioContext h = JsVal.fn "AudioContext") ∧
    (h.defined "AudioContext" = false → h.defined "webkitAudioContext" = true →
      lAudioContext h = JsVal.fn "webkitAudioContext") ∧
    (lAudioContext h = JsVal.fn "webkitAudioContext" → h.defined "AudioContext" = false) ∧
    (∀ c, lAudioContext h = JsVal.fn c →
      hostEvents (__wbg_new_2f044fe84595e924 h g).2.trace =
        hostEvents g.trace ++ [Event.construct (JsVal.fn c) []]) := by
  refine ⟨?_, ?_, ?_, ?_, ?_⟩
  · intro h1 h2
    have hl : lAudioContext h = JsVal.undefined := by simp [lAudioContext, h1, h2]
    have hf : (fun g0 => andThen (construct h (lAudioContext h) [] g0) returnHandle) g =
        (Except.error (JsVal.err "TypeError"), g) := by
      simp [hl, construct, andThen]
    refine ⟨hl, ?_, ?_, ?_⟩
    · rw [__wbg_new_2f044fe84595e924, handleError_of_throw _ g g _ hf]
    · rw [__wbg_new_2f044fe84595e924, handleError_of_throw _ g g _ hf]
      simp [Glue.log, addHeapObject_trace]
    · rw [__wbg_new_2f044fe84595e924, handleError_of_throw _ g g _ hf]
      exact getObject_addHeapObject _ g
  · intro h1
    simp [lAudioContext, h1]
  · intro h1 h2
    simp [lAudioContext, h1, h2]
  · intro hl
    cases h1 : h.defined "AudioContext" with
    | false => rfl
    | true => simp [lAudioContext, h1] at hl
  · intro c hl
    apply handleError_hostEvents
    · rw [andThen_returnHandle_trace, hl]
      simp only [construct]
      cases h.construct g.trace (JsVal.fn c) [] <;> rfl
    · rfl

set_option maxRecDepth 8000 in
/-- C6, witness: in `bareHost`, where no global is defined, the binding
returns `undefined` and stores the `TypeError` behind the new handle 133. -/
theorem audio_context_constructor_choice_witness :
    bareHost.defined "AudioContext" = false ∧ bareHost.defined "webkitAudioContext" = false ∧
    (__wbg_new_2f044fe84595e924 bareHost sampleGlue).1 = Except.ok JsVal.undefined ∧
    (__wbg_new_2f044fe84595e924 bareHost sampleGlue).2.trace =
      sampleGlue.trace ++ [Event.wasm "__wbindgen_exn_store" [JsVal.num sampleGlue.heap_next]] ∧
    getObject sampleGlue.heap_next (__wbg_new_2f044fe84595e924 bareHost sampleGlue).2 =
      JsVal.err "TypeError" :=
  ⟨rfl, rfl, ((audio_context_constructor_choice bareHost sampleGlue).1 rfl rfl).2⟩

/-! ## C7: how many audio contexts are constructed -/

set_option maxRecDepth 8000 in
/-- C7, counterexample: two calls of the constructor binding in a row, in a
host whose constructor returns a new object each time.  The constructor runs
twice, and the two handles, 132 and 133, refer to two different contexts. -/
theorem two_calls_construct_two_contexts :
    (__wbg_new_2f044fe84595e924 freshHost (Glue.initial zeroMem)).1 =
      Except.ok (JsVal.num 132) ∧
    (__wbg_new_2f044fe84595e924 freshHost
      (__wbg_new_2f044fe84595e924 freshHost (Glue.initial zeroMem)).2).1 =
      Except.ok (JsVal.num 133) ∧
    (repeatNew freshHost 2 (Glue.initial zeroMem)).trace =
      [Event.construct (JsVal.fn "AudioContext") [],
       Event.construct (JsVal.fn "AudioContext") []] ∧
    getObject 132 (repeatNew freshHost 2 (Glue.initial zeroMem)) = JsVal.obj 0 ∧
    getObject 133 (repeatNew freshHost 2 (Glue.initial zeroMem)) = JsVal.obj 1 ∧
    audioConstructions (repeatNew freshHost 2 (Glue.initial zeroMem)).trace = 2 := by
  refine ⟨rfl, rfl, ?_, ?_, ?_, ?_⟩ <;> decide

theorem audioConstructions_append (s t : List Event) :
    audioConstructions (s ++ t) = audioConstructions s + audioConstructions t := by
  simp [audioConstructions]

theorem lAudioContext_is_audio (h : Host) (c : String) (hl : lAudioContext h = JsVal.fn c)
    (args : List JsVal) : isAudioConstruction (Event.construct (JsVal.fn c) args) = true := by
  unfold lAudioContext at hl
  split at hl
  · cases hl; rfl
  · split at hl
    · cases hl; rfl
    · cases hl

theorem new_binding_constructs_once (h : Host) (g : Glue) (c : String)
    (hl : lAudioContext h = JsVal.fn c) :
    audioConstructions (__wbg_new_2f044fe84595e924 h g).2.trace =
      audioConstructions g.trace + 1 := by
  have ha := lAudioContext_is_audio h c hl []
  have hw : ∀ n a, isAudioConstruction (Event.wasm n a) = false := fun _ _ => rfl
  unfold __wbg_new_2f044fe84595e924 handleError
  rw [hl]
  simp only [construct]
  cases h.construct g.trace (JsVal.fn c) [] <;>
    simp [andThen, returnHandle, Glue.log, addHeapObject_trace, audioConstructions_append,
      audioConstructions, List.filter_cons, ha, hw]

theorem repeatNew_constructs (h : Host) (c : String) (hl : lAudioContext h = JsVal.fn c)
    (k : Nat) : ∀ g : Glue,
    audioConstructions (repeatNew h k g).trace = audioConstructions g.trace + k := by
  induction k with
  | zero => intro g; rfl
  | succ k ih =>
    intro g
    rw [repeatNew, ih, new_binding_constructs_once h g c hl]
    omega

/-- C7, as amended: the glue keeps no audio context of its own.  Where the
host has a constructor, every call of the constructor binding runs
`new lAudioContext()` once more, so `k` calls in a row run the constructor `k`
times.  A call in which the constructor returns an object returns the handle
`heap_next`, which then refers to that object, and its only interaction is the
construction; a call in which the constructor throws returns `undefined`, the
exception caught and stored under a new handle. -/
theorem each_call_constructs_a_context (h : Host) (c : String)
    (hl : lAudioContext h = JsVal.fn c) (k : Nat) (g : Glue) :
    audioConstructions (repeatNew h k g).trace = audioConstructions g.trace + k ∧
    (∀ v, h.construct g.trace (JsVal.fn c) [] = Outcome.ret v →
      (__wbg_new_2f044fe84595e924 h g).1 = Except.ok (JsVal.num g.heap_next) ∧
      getObject g.heap_next (__wbg_new_2f044fe84595e924 h g).2 = v ∧
      (__wbg_new_2f044fe84595e924 h g).2.trace =
        g.trace ++ [Event.construct (JsVal.fn c) []]) ∧
    (∀ e, h.construct g.trace (JsVal.fn c) [] = Outcome.throw e →
      CaughtAndStored g (Event.construct (JsVal.fn c) []) e
        (__wbg_new_2f044fe84595e924 h g)) := by
  refine ⟨repeatNew_constructs h c hl k g, fun v hv => ?_, fun e he => ?_⟩
  · have hrun : __wbg_new_2f044fe84595e924 h g =
        (Except.ok (JsVal.num g.heap_next),
          (addHeapObject v (g.log (Event.construct (JsVal.fn c) []))).2) := by
      unfold __wbg_new_2f044fe84595e924 handleError
      rw [hl]
      simp [construct, hv, andThen, returnHandle, addHeapObject_fst, Glue.log]
    rw [hrun]
    refine ⟨rfl, ?_, ?_⟩
    · exact getObject_addHeapObject v (g.log (Event.construct (JsVal.fn c) []))
    · simp [addHeapObject_trace, Glue.log]
  · unfold __wbg_new_2f044fe84595e924
    rw [hl]
    apply caught_of_throw
    simp [construct, he, andThen]

set_option maxRecDepth 8000 in
/-- C7, witness: three calls in `freshHost` run the constructor three times,
and the first of them returns the handle 133 of the object the constructor
returned. -/
theorem each_call_constructs_a_context_witness :
    lAudioContext freshHost = JsVal.fn "AudioContext" ∧
    audioConstructions (repeatNew freshHost 3 sampleGlue).trace =
      audioConstructions sampleGlue.trace + 3 ∧
    (__wbg_new_2f044fe84595e924 freshHost sampleGlue).1 = Except.ok (JsVal.num 133) ∧
    getObject 133 (__wbg_new_2f044fe84595e924 freshHost sampleGlue).2 = JsVal.obj 0 :=
  have t := each_call_constructs_a_context freshHost "AudioContext" (by decide) 3 sampleGlue
  have t2 := t.2.1 (JsVal.obj 0) rfl
  ⟨by decide, t.1, t2.1, t2.2.1⟩

/-! ## C8: nothing before the constructor binding constructs an audio context -/

theorem quiet_log {α : Type} (g : Glue) (out : Except JsVal α) (ev : Event)
    (hev : isAudioConstruction ev = false) : Quiet g (out, g.log ev) := by
  simp [Quiet, Glue.log, audioConstructions_append, audioConstructions, List.filter_cons, hev]

theorem quiet_pure {α : Type} (g : Glue) (out : Except JsVal α) : Quiet g (out, g) := rfl

theorem quiet_andThen {α β : Type} (g : Glue) (r : Run α) (k : α → Glue → Run β)
    (hr : Quiet g r) (hk : ∀ a g1, Quiet g1 (k a g1)) : Quiet g (andThen r k) := by
  rcases r with ⟨out, g1⟩
  cases out with
  | ok a => exact (hk a g1).trans hr
  | error e => exact hr

theorem quiet_callMethod (h : Host) (recv : JsVal) (method : String) (args : List JsVal)
    (g : Glue) : Quiet g (callMethod h recv method args g) := by
  unfold callMethod
  split
  · exact quiet_pure g _
  · cases h.call g.trace recv method args <;> exact quiet_log g _ _ rfl

theorem quiet_getProp (h : Host) (recv : JsVal) (prop : String) (g : Glue) :
    Quiet g (getProp h recv prop g) := by
  unfold getProp
  split
  · exact quiet_pure g _
  · cases h.get g.trace recv prop <;> exact quiet_log g _ _ rfl

theorem quiet_applyFunction (h : Host) (f : JsVal) (args : List JsVal) (g : Glue) :
    Quiet g (applyFunction h f args g) := by
  unfold applyFunction
  cases h.apply g.trace f args <;> exact quiet_log g _ _ rfl

theorem quiet_awaitValue (h : Host) (v : JsVal) (g : Glue) : Quiet g (awaitValue h v g) := by
  unfold awaitValue
  cases h.await g.trace v <;> exact quiet_log g _ _ rfl

theorem quiet_construct (h : Host) (c : String) (args : List JsVal) (g : Glue)
    (hc : isAudioConstruction (Event.construct (JsVal.fn c) args) = false) :
    Quiet g (construct h (JsVal.fn c) args g) := by
  simp only [construct]
  cases h.construct g.trace (JsVal.fn c) args <;> exact quiet_log g _ _ hc

theorem quiet_finalizationRegistry (h : Host) (callback : String) (g : Glue) :
    Quiet g (finalizationRegistry h callback g) := by
  unfold finalizationRegistry
  split
  · exact quiet_construct h _ _ g rfl
  · exact quiet_pure g _

theorem quiet_moduleBody (h : Host) (mem : Mem) : Quiet (Glue.initial mem) (moduleBody h mem) := by
  unfold moduleBody
  refine quiet_andThen _ _ _ ?_ fun _ g1 => quiet_andThen _ _ _ ?_ fun _ g2 =>
    quiet_andThen _ _ _ (quiet_finalizationRegistry h _ _) fun _ g3 =>
    quiet_andThen _ _ _ (quiet_callMethod h _ _ _ _) fun _ g4 =>
    quiet_andThen _ _ _ (quiet_finalizationRegistry h _ _) fun _ g5 =>
    quiet_andThen _ _ _ (quiet_finalizationRegistry h _ _) fun _ g6 =>
    quiet_finalizationRegistry h _ _
  · split
    · exact quiet_andThen _ _ _ (quiet_construct h _ _ _ rfl) fun _ _ => quiet_callMethod h _ _ _ _
    · exact quiet_pure _ _
  · split
    · exact quiet_construct h _ _ _ rfl
    · exact quiet_pure _ _

theorem quiet_finalize_init (h : Host) (inst mdl : JsVal) (g : Glue) :
    Quiet g (__wbg_finalize_init h inst mdl g) := by
  unfold __wbg_finalize_init
  refine quiet_andThen _ _ _ (quiet_getProp h _ _ _) fun exports g1 => ?_
  split
  · rfl
  · simp [Quiet, Glue.log, audioConstructions_append, audioConstructions, List.filter_cons,
      isAudioConstruction]

theorem quiet_initSync (h : Host) (mdl : JsVal) (g : Glue) : Quiet g (initSync h mdl g) := by
  unfold initSync
  split
  · refine quiet_andThen _ _ _ (quiet_pure _ _) fun imports g1 =>
      quiet_andThen _ _ _ ?_ fun mdl1 g2 =>
      quiet_andThen _ _ _ (quiet_construct h _ _ _ rfl) fun inst g3 =>
      quiet_finalize_init h _ _ _
    split
    · exact quiet_pure _ _
    · exact quiet_construct h _ _ _ rfl
  · exact quiet_pure _ _

theorem quiet_instantiateBytes (h : Host) (mdl imports : JsVal) (g : Glue) :
    Quiet g (instantiateBytes h mdl imports g) := by
  unfold instantiateBytes
  exact quiet_andThen _ _ _ (quiet_callMethod h _ _ _ _) fun _ _ =>
    quiet_andThen _ _ _ (quiet_awaitValue h _ _) fun _ _ =>
    quiet_andThen _ _ _ (quiet_callMethod h _ _ _ _) fun _ _ =>
    quiet_andThen _ _ _ (quiet_awaitValue h _ _) fun _ _ => quiet_pure _ _

theorem quiet_load (h : Host) (mdl imports : JsVal) (g : Glue) :
    Quiet g (__wbg_load h mdl imports g) := by
  unfold __wbg_load
  split
  · split
    · have hs : Quiet g (andThen (callMethod h (JsVal.fn "WebAssembly") "instantiateStreaming"
          [mdl, imports] g) (awaitValue h)) :=
        quiet_andThen _ _ _ (quiet_callMethod h _ _ _ _) fun _ _ => quiet_awaitValue h _ _
      split
      · next result g1 heq =>
        rw [heq] at hs
        exact hs
      · next e g1 heq =>
        rw [heq] at hs
        have hs1 : audioConstructions g1.trace = audioConstructions g.trace := hs
        refine Eq.trans ?_ hs1
        refine quiet_andThen _ _ _ (quiet_getProp h _ _ _) fun headers g2 =>
          quiet_andThen _ _ _ (quiet_callMethod h _ _ _ _) fun ct g3 => ?_
        split
        · exact quiet_andThen _ _ _ (quiet_callMethod h _ _ _ _) fun _ _ =>
            quiet_instantiateBytes h _ _ _
        · exact quiet_pure _ _
    · exact quiet_instantiateBytes h _ _ _
  · refine quiet_andThen _ _ _ (quiet_callMethod h _ _ _ _) fun p g1 =>
      quiet_andThen _ _ _ (quiet_awaitValue h _ _) fun inst g2 => ?_
    split <;> exact quiet_pure _ _

theorem quiet_destructureLoaded (h : Host) (l : Loaded) (g : Glue) :
    Quiet g (destructureLoaded h l g) := by
  cases l with
  | pair inst mdl => exact quiet_pure _ _
  | host result =>
    exact quiet_andThen _ _ _ (quiet_getProp h _ _ _) fun _ _ =>
      quiet_andThen _ _ _ (quiet_getProp h _ _ _) fun _ _ => quiet_pure _ _

theorem quiet_init (h : Host) (input : JsVal) (g : Glue) : Quiet g (__wbg_init h input g) := by
  unfold __wbg_init
  split
  · refine quiet_andThen _ _ _ ?_ fun input1 g1 =>
      quiet_andThen _ _ _ (quiet_pure _ _) fun imports g2 =>
      quiet_andThen _ _ _ ?_ fun input2 g3 =>
      quiet_andThen _ _ _ (quiet_awaitValue h _ _) fun mdl g4 =>
      quiet_andThen _ _ _ (quiet_load h _ _ _) fun loaded g5 =>
      quiet_andThen _ _ _ (quiet_destructureLoaded h _ _) fun im g6 =>
      quiet_finalize_init h _ _ _
    · split
      · exact quiet_construct h _ _ _ rfl
      · exact quiet_pure _ _
    · split
      · exact quiet_applyFunction h _ _ _
      · exact quiet_pure _ _
  · exact quiet_pure _ _

/-- C8: the audio context is constructed lazily.  The module body, the making
of the import table, `initSync` and `__wbg_init` (each up to and including its
call of `__wbindgen_start`) construct no audio context, whatever the host
does; of all the `new` expressions in the import table, the one of the
audio-context constructor binding alone names an audio-context constructor; and
a call of that binding, where the host has a constructor, constructs one. -/
theorem audio_context_is_constructed_lazily (h : Host) (mem : Mem) (input : JsVal) (g : Glue) :
    audioConstructions (moduleBody h mem).2.trace = 0 ∧
    (__wbg_get_imports g).2 = g ∧
    audioConstructions (initSync h input g).2.trace = audioConstructions g.trace ∧
    audioConstructions (__wbg_init h input g).2.trace = audioConstructions g.trace ∧
    (∀ b ∈ importConstructors h, isAudioConstruction (Event.construct b.2 []) = true →
      b.1 = "__wbg_new_2f044fe84595e924") ∧
    (∀ c, lAudioContext h = JsVal.fn c →
      audioConstructions (__wbg_new_2f044fe84595e924 h g).2.trace =
        audioConstructions g.trace + 1) := by
  refine ⟨quiet_moduleBody h mem, rfl, quiet_initSync h input g, quiet_init h input g, ?_,
    fun c hl => new_binding_constructs_once h g c hl⟩
  intro b hb hc
  simp only [importConstructors, List.mem_cons, List.mem_singleton, List.not_mem_nil,
    or_false] at hb
  rcases hb with hb | hb | hb | hb | hb | hb | hb | hb | hb | hb | hb | hb | hb | hb | hb | hb <;>
    subst hb <;> first | rfl | (exact absurd hc (by decide))

set_option maxRecDepth 8000 in
/-- C8, witness: in `freshHost` the module body and `initSync` construct no
audio context, and the first call of the constructor binding constructs one. -/
theorem audio_context_is_constructed_lazily_witness :
    audioConstructions (moduleBody freshHost zeroMem).2.trace = 0 ∧
    audioConstructions (initSync freshHost (JsVal.obj 3) sampleGlue).2.trace =
      audioConstructions sampleGlue.trace ∧
    audioConstructions (__wbg_new_2f044fe84595e924 freshHost sampleGlue).2.trace =
      audioConstructions sampleGlue.trace + 1 :=
  have t := audio_context_is_constructed_lazily freshHost zeroMem (JsVal.obj 3) sampleGlue
  ⟨t.1, t.2.2.1, t.2.2.2.2.2 "AudioContext" (by decide)⟩

/-! ## The free list of the slab -/

theorem FreeChain.set {heap : List JsVal} {j : Nat} {fl : List Nat} (hc : FreeChain heap j fl)
    (i : Nat) (v : JsVal) (hi : i ∉ fl) : FreeChain (heap.set i v) j fl := by
  induction hc with
  | done =>
    have : FreeChain (heap.set i v) (heap.set i v).length [] := FreeChain.done
    simpa using this
  | step k j fl hk hj _ ih =>
    simp only [List.mem_cons, not_or] at hi
    refine FreeChain.step k j fl (by simpa using hk) ?_ (ih hi.2)
    rw [List.getElem?_set_ne hi.1]
    exact hj

theorem FreeChain.nil_inv {heap : List JsVal} {n : Nat} (hc : FreeChain heap n []) :
    n = heap.length := by
  cases hc
  rfl

theorem FreeChain.cons_inv {heap : List JsVal} {n i : Nat} {fl : List Nat}
    (hc : FreeChain heap n (i :: fl)) :
    n = i ∧ i < heap.length ∧ ∃ j : Nat, heap[i]? = some (JsVal.num j) ∧ FreeChain heap j fl := by
  cases hc with
  | step _ j _ hi hj hrest => exact ⟨rfl, hi, j, hj, hrest⟩

/-- One allocation on a slab with a well-formed free list. -/
theorem addHeapObject_chain (x : JsVal) (g : Glue) (fl : List Nat)
    (hc : FreeChain g.heap g.heap_next fl) (hnd : fl.Nodup) :
    (addHeapObject x g).1 = (freshHandles fl g.heap.length 1).headD 0 ∧
    FreeChain (addHeapObject x g).2.heap (addHeapObject x g).2.heap_next fl.tail ∧
    (addHeapObject x g).2.heap.length = (if fl = [] then g.heap.length + 1 else g.heap.length) ∧
    (addHeapObject x g).1 < (addHeapObject x g).2.heap.length ∧
    (addHeapObject x g).1 ∉ fl.tail ∧
    (∀ k, k ≠ (addHeapObject x g).1 → (addHeapObject x g).2.heap[k]? = g.heap[k]?) := by
  cases fl with
  | nil =>
    have hnext : g.heap_next = g.heap.length := hc.nil_inv
    have hheap : (addHeapObject x g).2.heap = g.heap ++ [x] := by
      simp [addHeapObject, hnext, jsSet, List.set_append_right]
    refine ⟨by simp [addHeapObject, freshHandles, hnext], ?_, ?_, ?_, ?_, ?_⟩
    · have hn : (addHeapObject x g).2.heap_next = (g.heap ++ [x]).length := by
        simp only [addHeapObject, hnext, if_true, List.getD_eq_getElem?_getD]
        rw [List.getElem?_append_right (le_refl _)]
        simp [asIndex]
      rw [hheap, hn]
      exact FreeChain.done
    · simp [hheap]
    · rw [hheap]
      simp [addHeapObject, hnext]
    · simp
    · intro k hk
      rw [hheap]
      have hk1 : k ≠ g.heap.length := by simpa [addHeapObject, hnext] using hk
      rcases Nat.lt_or_gt_of_ne hk1 with hlt | hgt
      · rw [List.getElem?_append_left hlt]
      · rw [List.getElem?_eq_none (by simp; omega), List.getElem?_eq_none (by omega)]
  | cons i fl =>
    obtain ⟨hnext, hi, j, hj, hrest⟩ := hc.cons_inv
    subst hnext
    have hne : g.heap_next ≠ g.heap.length := by omega
    have hlt : g.heap_next < g.heap.length := hi
    have hheap : (addHeapObject x g).2.heap = g.heap.set g.heap_next x := by
      simp [addHeapObject, hne, jsSet, hlt]
    have hn : (addHeapObject x g).2.heap_next = j := by
      simp [addHeapObject, hne, hj, asIndex]
    have hnotin : g.heap_next ∉ fl := (List.nodup_cons.mp hnd).1
    refine ⟨by simp [addHeapObject, freshHandles], ?_, ?_, ?_, ?_, ?_⟩
    · rw [hheap, hn]
      exact hrest.set _ _ hnotin
    · simp [hheap]
    · rw [hheap]
      simpa [addHeapObject] using hlt
    · simpa [addHeapObject] using hnotin
    · intro k hk
      rw [hheap]
      have hk1 : k ≠ g.heap_next := by simpa [addHeapObject] using hk
      exact List.getElem?_set_ne (Ne.symm hk1)

theorem FreeChain.lt {heap : List JsVal} {n : Nat} {fl : List Nat} (hc : FreeChain heap n fl) :
    ∀ i ∈ fl, i < heap.length := by
  induction hc with
  | done => simp
  | step i j fl hi _ _ ih =>
    intro k hk
    rcases List.mem_cons.mp hk with rfl | hk
    · exact hi
    · exact ih k hk

theorem addAll_mem (xs : List JsVal) : ∀ g : Glue, (addAll xs g).2.mem = g.mem ∧
    (addAll xs g).2.trace = g.trace ∧ (addAll xs g).2.WASM_VECTOR_LEN = g.WASM_VECTOR_LEN ∧
    (addAll xs g).2.wasm = g.wasm ∧ (addAll xs g).1.length = xs.length := by
  induction xs with
  | nil => intro g; simp [addAll]
  | cons x xs ih =>
    intro g
    obtain ⟨h1, h2, h3, h4, h5⟩ := ih (addHeapObject x g).2
    simp only [addAll, h1, h2, h3, h4, h5, List.length_cons]
    simp [addHeapObject]

/-- Allocating the values `xs` in a row on a slab with a well-formed free list:
the handles are the next free ones, each refers to its value afterwards, the
slots that were in use keep their values, and the free list stays well formed. -/
theorem addAll_spec (xs : List JsVal) : ∀ (g : Glue) (fl : List Nat),
    FreeChain g.heap g.heap_next fl → fl.Nodup →
    (addAll xs g).1 = freshHandles fl g.heap.length xs.length ∧
    (addAll xs g).1.map (fun hd => getObject hd (addAll xs g).2) = xs ∧
    (∀ k, k < g.heap.length → k ∉ fl → (addAll xs g).2.heap[k]? = g.heap[k]?) ∧
    FreeChain (addAll xs g).2.heap (addAll xs g).2.heap_next (fl.drop xs.length) := by
  induction xs with
  | nil =>
    intro g fl hc _
    refine ⟨by cases fl <;> rfl, rfl, fun _ _ _ => rfl, ?_⟩
    simpa [addAll] using hc
  | cons x xs ih =>
    intro g fl hc hnd
    obtain ⟨h1, hchain, hlen, hlt, hnotin, hpres⟩ := addHeapObject_chain x g fl hc hnd
    have hndt : fl.tail.Nodup := hnd.sublist (List.tail_sublist fl)
    obtain ⟨i1, i2, i3, i4⟩ := ih (addHeapObject x g).2 fl.tail hchain hndt
    have hfst : (addHeapObject x g).1 = g.heap_next := rfl
    refine ⟨?_, ?_, ?_, ?_⟩
    · simp only [addAll, i1, h1, hlen, List.length_cons]
      cases fl <;> simp [freshHandles]
    · simp only [addAll, List.map_cons, i2, List.cons.injEq, and_true]
      have := i3 (addHeapObject x g).1 hlt hnotin
      unfold getObject
      rw [List.getD_eq_getElem?_getD, this, ← List.getD_eq_getElem?_getD]
      exact getObject_addHeapObject x g
    · intro k hk hkfl
      have hk1 : k ≠ (addHeapObject x g).1 := by
        rw [h1]
        cases fl with
        | nil => simp [freshHandles]; omega
        | cons i fl =>
          simp only [freshHandles, List.headD_cons]
          intro hki
          exact hkfl (hki ▸ List.mem_cons_self _ _)
      have hk2 : k < (addHeapObject x g).2.heap.length := by
        rw [hlen]; split <;> omega
      have hk3 : k ∉ fl.tail := fun hm => hkfl (List.mem_of_mem_tail hm)
      simp only [addAll]
      rw [i3 k hk2 hk3, hpres k hk1]
    · simp only [addAll, List.length_cons]
      cases fl with
      | nil => simpa using i4
      | cons i fl => simpa using i4

theorem freshHandles_length (n : Nat) : ∀ (fl : List Nat) (len : Nat),
    (freshHandles fl len n).length = n := by
  induction n with
  | zero => intro fl len; cases fl <;> rfl
  | succ n ih => intro fl len; cases fl <;> simp [freshHandles, ih]

/-- The handles handed out next were free before, lie below `len + n`, and are
pairwise different. -/
theorem freshHandles_fresh (n : Nat) : ∀ (fl : List Nat) (len : Nat),
    (∀ i ∈ fl, i < len) → fl.Nodup →
    (∀ hd ∈ freshHandles fl len n, (hd ∈ fl ∨ len ≤ hd) ∧ hd < len + n) ∧
    (freshHandles fl len n).Nodup := by
  induction n with
  | zero => intro fl len _ _; cases fl <;> simp [freshHandles]
  | succ n ih =>
    intro fl len hlt hnd
    cases fl with
    | nil =>
      obtain ⟨a, b⟩ := ih [] (len + 1) (by simp) List.nodup_nil
      simp only [freshHandles, List.mem_cons, List.nodup_cons]
      refine ⟨?_, ?_, b⟩
      · rintro hd (rfl | hm)
        · exact ⟨Or.inr (le_refl _), by omega⟩
        · have := a hd hm
          simp only [List.not_mem_nil, false_or] at this ⊢
          omega
      · intro hm
        have := a len hm
        simp at this
    | cons i fl =>
      have hlt2 : ∀ k ∈ fl, k < len := fun k hk => hlt k (List.mem_cons_of_mem _ hk)
      obtain ⟨a, b⟩ := ih fl len hlt2 (List.nodup_cons.mp hnd).2
      simp only [freshHandles, List.mem_cons, List.nodup_cons]
      refine ⟨?_, ?_, b⟩
      · rintro hd (rfl | hm)
        · exact ⟨Or.inl (Or.inl rfl), by have := hlt hd (List.mem_cons_self _ _); omega⟩
        · have := a hd hm
          exact ⟨this.1.elim (fun x => Or.inl (Or.inr x)) Or.inr, by omega⟩
      · intro hm
        rcases (a i hm).1 with hin | hge
        · exact (List.nodup_cons.mp hnd).1 hin
        · have := hlt i (List.mem_cons_self _ _)
          omega

/-! ## Words in the linear memory -/

theorem toU32_lt (x : Int) : toU32 x < 4294967296 := by
  unfold toU32
  omega

theorem load32_store32_same (m : Mem) (a v : Nat) :
    load32 (store32 m a v) a = v % 4294967296 := by
  simp only [load32, store32]
  have h1 : a + 1 ≠ a := by omega
  have h2 : a + 2 ≠ a := by omega
  have h3 : a + 3 ≠ a := by omega
  have h4 : a + 2 ≠ a + 1 := by omega
  have h5 : a + 3 ≠ a + 1 := by omega
  have h6 : a + 3 ≠ a + 2 := by omega
  simp only [h1, h2, h3, h4, h5, h6, if_true, if_false]
  omega

theorem load32_store32_disjoint (m : Mem) (a v b : Nat) (hd : b + 4 ≤ a ∨ a + 4 ≤ b) :
    load32 (store32 m a v) b = load32 m b := by
  have hb : ∀ c, b ≤ c → c < b + 4 → store32 m a v c = m c := by
    intro c h1 h2
    unfold store32
    rw [if_neg (by omega), if_neg (by omega), if_neg (by omega), if_neg (by omega)]
  simp only [load32]
  rw [hb b (by omega) (by omega), hb (b + 1) (by omega) (by omega),
    hb (b + 2) (by omega) (by omega), hb (b + 3) (by omega) (by omega)]

theorem writeWords_outside (ptr : Nat) (hp : ptr % 4 = 0) (hs : List Nat) :
    ∀ (m : Mem) (i b : Nat), b + 4 ≤ ptr + 4 * i ∨ ptr + 4 * (i + hs.length) ≤ b →
    load32 (writeWords m ptr i hs) b = load32 m b := by
  induction hs with
  | nil => intro m i b _; rfl
  | cons x hs ih =>
    intro m i b hb
    simp only [writeWords, List.length_cons] at hb ⊢
    rw [ih _ (i + 1) b (by omega), setWord, if_pos hp, load32_store32_disjoint _ _ _ _ (by omega)]

theorem writeWords_read (ptr : Nat) (hp : ptr % 4 = 0) (hs : List Nat) :
    ∀ (m : Mem) (i : Nat), (∀ x ∈ hs, x < 4294967296) →
    (List.range hs.length).map (fun k => load32 (writeWords m ptr i hs) (ptr + 4 * (i + k))) =
      hs := by
  induction hs with
  | nil => intro m i _; rfl
  | cons x hs ih =>
    intro m i hx
    rw [List.length_cons, List.range_succ_eq_map, List.map_cons, List.map_map]
    congr 1
    · simp only [writeWords]
      rw [writeWords_outside ptr hp hs _ (i + 1) _ (by omega), setWord, if_pos hp,
        Nat.add_zero, load32_store32_same]
      exact Nat.mod_eq_of_lt (hx x (List.mem_cons_self _ _))
    · have := ih (setWord m ptr i x) (i + 1) fun y hy => hx y (List.mem_cons_of_mem _ hy)
      refine Eq.trans ?_ this
      apply List.map_congr_left
      intro k _
      simp only [Function.comp, writeWords]
      rw [show i + (k + 1) = i + 1 + k by omega]

theorem addAll_setMem (xs : List JsVal) : ∀ (g : Glue) (m : Mem),
    addAll xs { g with mem := m } = ((addAll xs g).1, { (addAll xs g).2 with mem := m }) := by
  induction xs with
  | nil => intro g m; rfl
  | cons x xs ih =>
    intro g m
    change ((addHeapObject x g).1 :: (addAll xs { (addHeapObject x g).2 with mem := m }).1,
      (addAll xs { (addHeapObject x g).2 with mem := m }).2) = _
    rw [ih]
    rfl

/-- The loop of `passArrayJsValueToWasm0` puts the values on the slab and
writes their handles to consecutive words. -/
theorem passArrayLoop_eq (ptr : Nat) (xs : List JsVal) : ∀ (i : Nat) (g : Glue),
    passArrayLoop ptr xs i g =
      { (addAll xs g).2 with mem := writeWords g.mem ptr i (addAll xs g).1 } := by
  induction xs with
  | nil => intro i g; rfl
  | cons x xs ih =>
    intro i g
    simp only [passArrayLoop, ih, addAll_setMem, addAll, writeWords]
    have hm : (addHeapObject x g).2.mem = g.mem := rfl
    rw [hm]

theorem writePtrLen_mem (m : Mem) (arg0 ptr len : Nat) (halign : arg0 % 4 = 0) :
    load32 (setWord (setWord m arg0 1 len) arg0 0 ptr) arg0 = ptr % 4294967296 ∧
    load32 (setWord (setWord m arg0 1 len) arg0 0 ptr) (arg0 + 4) = len % 4294967296 ∧
    ∀ b, b + 4 ≤ arg0 ∨ arg0 + 8 ≤ b →
      load32 (setWord (setWord m arg0 1 len) arg0 0 ptr) b = load32 m b := by
  simp only [setWord, if_pos halign, Nat.mul_zero, Nat.mul_one, Nat.add_zero]
  refine ⟨load32_store32_same _ _ _, ?_, ?_⟩
  · rw [load32_store32_disjoint _ _ _ _ (by omega), load32_store32_same]
  · intro b hb
    rw [load32_store32_disjoint _ _ _ _ (by omega), load32_store32_disjoint _ _ _ _ (by omega)]

/-- Marshalling an array and writing pointer and length to the return area:
what the wasm side finds in its memory afterwards. -/
theorem passArray_then_writePtrLen (w : Wasm) (xs : List JsVal) (g : Glue) (arg0 : Nat)
    (fl : List Nat) (halign : arg0 % 4 = 0)
    (hal : toU32 (w.malloc g.trace g.mem (xs.length * 4) 4).1 % 4 = 0)
    (hdisj : arg0 + 8 ≤ toU32 (w.malloc g.trace g.mem (xs.length * 4) 4).1 ∨
      toU32 (w.malloc g.trace g.mem (xs.length * 4) 4).1 + xs.length * 4 ≤ arg0)
    (hc : FreeChain g.heap g.heap_next fl) (hnd : fl.Nodup)
    (hsize : g.heap.length + xs.length < 4294967296) :
    (passArrayJsValueToWasm0 w xs g).1 = toU32 (w.malloc g.trace g.mem (xs.length * 4) 4).1 ∧
    (writePtrLen arg0 (passArrayJsValueToWasm0 w xs g).1 (passArrayJsValueToWasm0 w xs g).2).1 =
      Except.ok JsVal.undefined ∧
    load32 (writePtrLen arg0 (passArrayJsValueToWasm0 w xs g).1
      (passArrayJsValueToWasm0 w xs g).2).2.mem arg0 =
        toU32 (w.malloc g.trace g.mem (xs.length * 4) 4).1 ∧
    load32 (writePtrLen arg0 (passArrayJsValueToWasm0 w xs g).1
      (passArrayJsValueToWasm0 w xs g).2).2.mem (arg0 + 4) = xs.length ∧
    readWords (writePtrLen arg0 (passArrayJsValueToWasm0 w xs g).1
      (passArrayJsValueToWasm0 w xs g).2).2.mem
        (toU32 (w.malloc g.trace g.mem (xs.length * 4) 4).1) xs.length =
      freshHandles fl g.heap.length xs.length ∧
    (freshHandles fl g.heap.length xs.length).map (fun hd => getObject hd
      (writePtrLen arg0 (passArrayJsValueToWasm0 w xs g).1
        (passArrayJsValueToWasm0 w xs g).2).2) = xs := by
  generalize hp : toU32 (w.malloc g.trace g.mem (xs.length * 4) 4).1 = p at hal hdisj
  have hplt : p < 4294967296 := hp ▸ toU32_lt _
  generalize hg1 : ({ g with mem := (w.malloc g.trace g.mem (xs.length * 4) 4).2 } : Glue).log
    (Event.wasm "__wbindgen_malloc" [JsVal.num (xs.length * 4 : Nat), JsVal.num 4]) = g1
  have hheap1 : g1.heap = g.heap := by rw [← hg1]; rfl
  have hnext1 : g1.heap_next = g.heap_next := by rw [← hg1]; rfl
  have hc1 : FreeChain g1.heap g1.heap_next fl := by rw [hheap1, hnext1]; exact hc
  obtain ⟨a1, a2, _, _⟩ := addAll_spec xs g1 fl hc1 hnd
  rw [hheap1] at a1
  obtain ⟨fr, _⟩ := freshHandles_fresh xs.length fl g.heap.length hc.lt hnd
  have hpass : passArrayJsValueToWasm0 w xs g =
      (p, { (addAll xs g1).2 with mem := writeWords g1.mem p 0 (addAll xs g1).1,
                                  WASM_VECTOR_LEN := xs.length }) := by
    simp only [passArrayJsValueToWasm0, hp, hg1, passArrayLoop_eq]
  rw [hpass]
  simp only [writePtrLen]
  obtain ⟨m1, m2, m3⟩ := writePtrLen_mem (writeWords g1.mem p 0 (addAll xs g1).1) arg0 p
    xs.length halign
  refine ⟨trivial, trivial, ?_, ?_, ?_, ?_⟩
  · rw [m1, Nat.mod_eq_of_lt hplt]
  · rw [m2, Nat.mod_eq_of_lt (by omega)]
  · have hrd := writeWords_read p hal (addAll xs g1).1 g1.mem 0 (by
      intro x hx
      rw [a1] at hx
      have := (fr x hx).2
      omega)
    rw [(addAll_mem xs g1).2.2.2.2] at hrd
    rw [← a1]
    refine Eq.trans ?_ hrd
    unfold readWords
    apply List.map_congr_left
    intro k hk
    rw [List.mem_range] at hk
    have hb : p + 4 * k + 4 ≤ arg0 ∨ arg0 + 8 ≤ p + 4 * k := by omega
    rw [Nat.zero_add]
    exact m3 (p + 4 * k) hb
  · rw [← a1]
    exact a2

theorem getProp_of_ret (h : Host) (recv : JsVal) (prop : String) (g : Glue) (v : JsVal)
    (hn : isLikeNone recv = false) (hc : h.get g.trace recv prop = Outcome.ret v) :
    getProp h recv prop g = (Except.ok v, g.log (Event.get recv prop)) := by
  simp [getProp, hn, hc]

/-! ## C9: the current voice entries -/

/-- C9: the binding of `currentVoiceEntries` reports none exactly where there
are no entries.  Let the cursor's property be `ret`, the return area `arg0` be
4-aligned and `malloc` never return 0.  Then the binding returns, and the
pointer word at `arg0` is 0 if and only if `ret` is `null` or `undefined`.
Otherwise, when `malloc` returns 4-aligned blocks away from the return area and
the slab has a well-formed free list `fl`, the length word at `arg0 + 4` is the
number `N` of entries, and the `N` words at the pointer are handles that were
free before the call (the next free handles of the slab, pairwise different),
handle `i` referring to entry `i`. -/
theorem currentVoiceEntries_none_iff_absent (h : Host) (w : Wasm) (g : Glue) (arg0 arg1 : Nat)
    (ret : JsVal)
    (hrecv : isLikeNone (getObject arg1 g) = false)
    (hget : h.get g.trace (getObject arg1 g) "currentVoiceEntries" = Outcome.ret ret)
    (halign : arg0 % 4 = 0)
    (hnz : ∀ t m n a, toU32 (w.malloc t m n a).1 ≠ 0) :
    (__wbg_currentVoiceEntries_44382659d766d76e h w arg0 arg1 g).1 = Except.ok JsVal.undefined ∧
    (load32 (__wbg_currentVoiceEntries_44382659d766d76e h w arg0 arg1 g).2.mem arg0 = 0 ↔
      isLikeNone ret = true) ∧
    (∀ fl : List Nat, isLikeNone ret = false →
      (∀ t m n, toU32 (w.malloc t m n 4).1 % 4 = 0) →
      (∀ t m n a, arg0 + 8 ≤ toU32 (w.malloc t m n a).1 ∨
        toU32 (w.malloc t m n a).1 + n ≤ arg0) →
      FreeChain g.heap g.heap_next fl → fl.Nodup →
      g.heap.length + (arrayItems ret).length < 4294967296 →
      load32 (__wbg_currentVoiceEntries_44382659d766d76e h w arg0 arg1 g).2.mem (arg0 + 4) =
        (arrayItems ret).length ∧
      readWords (__wbg_currentVoiceEntries_44382659d766d76e h w arg0 arg1 g).2.mem
        (load32 (__wbg_currentVoiceEntries_44382659d766d76e h w arg0 arg1 g).2.mem arg0)
        (arrayItems ret).length = freshHandles fl g.heap.length (arrayItems ret).length ∧
      (freshHandles fl g.heap.length (arrayItems ret).length).map
        (fun hd => getObject hd (__wbg_currentVoiceEntries_44382659d766d76e h w arg0 arg1 g).2) =
        arrayItems ret ∧
      (freshHandles fl g.heap.length (arrayItems ret).length).Nodup ∧
      ∀ hd ∈ freshHandles fl g.heap.length (arrayItems ret).length,
        hd ∈ fl ∨ g.heap.length ≤ hd) := by
  have hrun : __wbg_currentVoiceEntries_44382659d766d76e h w arg0 arg1 g =
      if isLikeNone ret then
        writePtrLen arg0 0 (g.log (Event.get (getObject arg1 g) "currentVoiceEntries"))
      else
        writePtrLen arg0
          (passArrayJsValueToWasm0 w (arrayItems ret)
            (g.log (Event.get (getObject arg1 g) "currentVoiceEntries"))).1
          (passArrayJsValueToWasm0 w (arrayItems ret)
            (g.log (Event.get (getObject arg1 g) "currentVoiceEntries"))).2 := by
    simp only [__wbg_currentVoiceEntries_44382659d766d76e,
      getProp_of_ret h _ _ g ret hrecv hget, andThen]
  rw [hrun]
  cases hnone : isLikeNone ret with
  | true =>
    simp only [if_true]
    refine ⟨rfl, ?_, fun _ hf => absurd hf (by simp)⟩
    simp only [writePtrLen, iff_true]
    rw [(writePtrLen_mem _ arg0 0 _ halign).1]
  | false =>
    simp only [Bool.false_eq_true, if_false]
    generalize hg1 : g.log (Event.get (getObject arg1 g) "currentVoiceEntries") = g1
    have hheap1 : g1.heap = g.heap := by rw [← hg1]; rfl
    have hnext1 : g1.heap_next = g.heap_next := by rw [← hg1]; rfl
    have hptr : (passArrayJsValueToWasm0 w (arrayItems ret) g1).1 =
        toU32 (w.malloc g1.trace g1.mem ((arrayItems ret).length * 4) 4).1 := rfl
    have hload : load32 (writePtrLen arg0 (passArrayJsValueToWasm0 w (arrayItems ret) g1).1
        (passArrayJsValueToWasm0 w (arrayItems ret) g1).2).2.mem arg0 =
        toU32 (w.malloc g1.trace g1.mem ((arrayItems ret).length * 4) 4).1 := by
      simp only [writePtrLen]
      rw [(writePtrLen_mem _ arg0 _ _ halign).1, hptr, Nat.mod_eq_of_lt (toU32_lt _)]
    refine ⟨rfl, ?_, ?_⟩
    · rw [hload]
      simp only [iff_false]
      exact hnz _ _ _ _
    · intro fl _ hal hdisj hc hnd hsize
      have hc1 : FreeChain g1.heap g1.heap_next fl := by rw [hheap1, hnext1]; exact hc
      obtain ⟨_, _, _, b4, b5, b6⟩ := passArray_then_writePtrLen w (arrayItems ret) g1 arg0 fl
        halign (hal _ _ _) (hdisj _ _ _ _) hc1 hnd (by rw [hheap1]; exact hsize)
      rw [hheap1] at b5 b6
      obtain ⟨fr, hnodup⟩ :=
        freshHandles_fresh (arrayItems ret).length fl g.heap.length hc.lt hnd
      refine ⟨b4, ?_, b6, hnodup, fun hd hm => (fr hd hm).1⟩
      rw [hload]
      exact b5

set_option maxRecDepth 8000 in
/-- C9, witness: the cursor behind handle 132 has the entries 1 and 2; the
binding writes a pointer that is not 0, the length 2, and the handles 133 and
134 to the block. -/
theorem currentVoiceEntries_none_iff_absent_witness :
    (__wbg_currentVoiceEntries_44382659d766d76e arrayHost fixedWasm 16 132 sampleGlue).1 =
      Except.ok JsVal.undefined ∧
    (load32 (__wbg_currentVoiceEntries_44382659d766d76e arrayHost fixedWasm 16 132
        sampleGlue).2.mem 16 = 0 ↔
      isLikeNone (JsVal.arr [JsVal.obj 1, JsVal.obj 2]) = true) ∧
    readWords (__wbg_currentVoiceEntries_44382659d766d76e arrayHost fixedWasm 16 132
        sampleGlue).2.mem
      (load32 (__wbg_currentVoiceEntries_44382659d766d76e arrayHost fixedWasm 16 132
        sampleGlue).2.mem 16) 2 = [133, 134] := by
  have hlen : sampleGlue.heap_next = sampleGlue.heap.length := by decide
  have hc : FreeChain sampleGlue.heap sampleGlue.heap_next [] := hlen ▸ FreeChain.done
  have t := currentVoiceEntries_none_iff_absent arrayHost fixedWasm sampleGlue 16 132
    (JsVal.arr [JsVal.obj 1, JsVal.obj 2]) (by decide) rfl (by decide)
    (fun _ _ _ _ => (by decide : toU32 1024 ≠ 0))
  exact ⟨t.1, t.2.1, (t.2.2 [] rfl (fun _ _ _ => (by decide : toU32 1024 % 4 = 0))
    (fun _ _ _ _ => Or.inl (by decide : 16 + 8 ≤ toU32 1024)) hc List.nodup_nil
    (by decide)).2.1⟩

/-! ## UTF-8 -/

theorem utf8Encode_ascii_cons (c : Nat) (t : List Nat) (hc : c ≤ 0x7F) :
    utf8Encode (c :: t) = c :: utf8Encode t := by
  have h1 : isHighSurrogate c = false := by simp [isHighSurrogate]; omega
  have h2 : isLowSurrogate c = false := by simp [isLowSurrogate]; omega
  have h3 : utf8OfCodePoint c = [c] := by simp [utf8OfCodePoint]; omega
  cases t with
  | nil => simp [utf8Encode, utf8Chunks, h1, h2, h3]
  | cons v rest => simp [utf8Encode, utf8Chunks, h1, h2, h3]

theorem utf8Encode_split (s : List Nat) :
    utf8Encode s = s.takeWhile (fun c => decide (c ≤ 0x7F)) ++
      utf8Encode (s.drop (s.takeWhile (fun c => decide (c ≤ 0x7F))).length) := by
  induction s with
  | nil => rfl
  | cons c t ih =>
    by_cases hc : c ≤ 0x7F
    · rw [utf8Encode_ascii_cons c t hc, List.takeWhile_cons_of_pos (by simpa using hc)]
      simp only [List.length_cons, List.drop_succ_cons, List.cons_append]
      rw [← ih]
    · rw [List.takeWhile_cons_of_neg (by simpa using hc)]
      rfl

theorem utf8OfCodePoint_length (cp : Nat) (hcp : cp < 65536) : (utf8OfCodePoint cp).length ≤ 3 := by
  unfold utf8OfCodePoint
  split
  · simp
  · split
    · simp
    · simp

theorem utf8OfCodePoint_length_le_four (cp : Nat) : (utf8OfCodePoint cp).length ≤ 4 := by
  unfold utf8OfCodePoint
  split
  · simp
  · split
    · simp
    · split <;> simp

/-- A string of `n` code units has at most `3 n` bytes of UTF-8. -/
theorem utf8Encode_length_le : ∀ (n : Nat) (s : List Nat), s.length = n →
    (∀ u ∈ s, u < 65536) → (utf8Encode s).length ≤ 3 * s.length := by
  intro n
  induction n using Nat.strong_induction_on with
  | _ n ih =>
    intro s hn hu
    match s, hn, hu with
    | [], _, _ => simp [utf8Encode, utf8Chunks]
    | [u], _, hu =>
      have := utf8OfCodePoint_length u (hu u (List.mem_singleton_self u))
      simp only [utf8Encode, utf8Chunks, List.flatten_cons, List.flatten_nil, List.append_nil,
        List.length_singleton]
      split
      · simp [utf8Replacement]
      · omega
    | u :: v :: rest, hn, hu =>
      have hrest := ih rest.length (by simp at hn; omega) rest rfl
        (fun x hx => hu x (List.mem_cons_of_mem _ (List.mem_cons_of_mem _ hx)))
      have hvrest := ih (v :: rest).length (by simp at hn ⊢; omega) (v :: rest) rfl
        (fun x hx => hu x (List.mem_cons_of_mem _ hx))
      have hu3 := utf8OfCodePoint_length u (hu u (List.mem_cons_self _ _))
      have h4 := utf8OfCodePoint_length_le_four (0x10000 + (u - 0xD800) * 0x400 + (v - 0xDC00))
      simp only [utf8Encode, List.length_cons] at hrest hvrest ⊢
      simp only [utf8Chunks]
      split
      · split
        · simp only [List.flatten_cons, List.length_append]
          omega
        · simp only [List.flatten_cons, List.length_append, utf8Replacement, List.length_cons,
            List.length_nil]
          omega
      · split
        · simp only [List.flatten_cons, List.length_append, utf8Replacement, List.length_cons,
            List.length_nil]
          omega
        · simp only [List.flatten_cons, List.length_append]
          omega

theorem encodeIntoChunks_all (cs : List (List Nat)) : ∀ cap : Nat, cs.flatten.length ≤ cap →
    encodeIntoChunks cs cap = cs.flatten := by
  induction cs with
  | nil => intro cap _; rfl
  | cons c cs ih =>
    intro cap hcap
    simp only [List.flatten_cons, List.length_append] at hcap
    simp only [encodeIntoChunks, List.flatten_cons]
    rw [if_pos (by omega), ih _ (by omega)]

/-- In a view of three bytes per code unit `encodeString` writes the whole encoding. -/
theorem encodeString_all (h : Host) (arg : List Nat) (cap : Nat)
    (henc : h.defined "TextEncoder" = true) (hu : ∀ u ∈ arg, u < 65536)
    (hcap : 3 * arg.length ≤ cap) : encodeString h arg cap = Except.ok (utf8Encode arg) := by
  have hlen := utf8Encode_length_le arg.length arg rfl hu
  unfold encodeString
  split
  · rw [encodeIntoChunks_all _ _ (by unfold utf8Encode at hlen; omega)]
    rfl
  · simp only [encode, henc, if_true]
    rw [if_pos (by omega)]

/-! ## Bytes in the linear memory -/

theorem readBytes_eq_of_forall (m : Mem) (ptr : Nat) (bs : List Nat)
    (hb : ∀ i, i < bs.length → m (ptr + i) = bs.getD i 0) : readBytes m ptr bs.length = bs := by
  apply List.ext_getElem
  · simp [readBytes]
  · intro i h1 h2
    simp only [readBytes, List.getElem_map, List.getElem_range]
    rw [hb i h2, List.getD_eq_getElem _ _ h2]

theorem readBytes_append_of_forall (m : Mem) (ptr : Nat) (as bs : List Nat)
    (hb : ∀ i, i < as.length + bs.length → m (ptr + i) = (as ++ bs).getD i 0) :
    readBytes m ptr (as.length + bs.length) = as ++ bs := by
  rw [← List.length_append]
  exact readBytes_eq_of_forall m ptr (as ++ bs) fun i hi => hb i (by rwa [List.length_append] at hi)

theorem writeBytes_inside (m : Mem) (ptr : Nat) (bs : List Nat) (i : Nat) (hi : i < bs.length) :
    writeBytes m ptr bs (ptr + i) = bs.getD i 0 := by
  unfold writeBytes
  rw [if_pos (by omega), Nat.add_sub_cancel_left]

theorem writeBytes_outside (m : Mem) (ptr : Nat) (bs : List Nat) (b : Nat)
    (hb : b < ptr ∨ ptr + bs.length ≤ b) : writeBytes m ptr bs b = m b := by
  unfold writeBytes
  rw [if_neg (by omega)]

theorem asciiLoop_eq (ptr : Nat) (s : List Nat) : ∀ (offset : Nat) (m : Mem),
    asciiLoop ptr s offset m =
      (writeBytes m (ptr + offset) (s.takeWhile (fun c => decide (c ≤ 0x7F))),
        offset + (s.takeWhile (fun c => decide (c ≤ 0x7F))).length) := by
  induction s with
  | nil =>
    intro offset m
    simp only [asciiLoop, List.takeWhile_nil, List.length_nil, Nat.add_zero, Prod.mk.injEq,
      and_true]
    funext b
    simp only [writeBytes, List.length_nil]
    rw [if_neg (by omega)]
  | cons c t ih =>
    intro offset m
    by_cases hc : c ≤ 0x7F
    · rw [asciiLoop, if_neg (by omega), ih, List.takeWhile_cons_of_pos (by simpa using hc)]
      simp only [List.length_cons, Prod.mk.injEq]
      refine ⟨?_, by omega⟩
      funext b
      simp only [writeBytes, List.length_cons]
      by_cases h1 : b = ptr + offset
      · subst h1
        rw [if_neg (by omega), if_pos (by omega)]
        simp
      · by_cases h2 : ptr + (offset + 1) ≤ b ∧
            b < ptr + (offset + 1) + (t.takeWhile (fun c => decide (c ≤ 0x7F))).length
        · rw [if_pos h2, if_pos (by omega)]
          have : b - (ptr + offset) = (b - (ptr + (offset + 1))) + 1 := by omega
          rw [this, List.getD_cons_succ]
        · rw [if_neg h2, if_neg h1, if_neg (by omega)]
    · rw [asciiLoop, if_pos (by omega), List.takeWhile_cons_of_neg (by simpa using hc)]
      simp only [List.length_nil, Nat.add_zero, Prod.mk.injEq, and_true]
      funext b
      simp only [writeBytes, List.length_nil]
      rw [if_neg (by omega)]

theorem takeWhile_eq_self_of_length (s : List Nat) (p : Nat → Bool)
    (hl : (s.takeWhile p).length = s.length) : s.takeWhile p = s := by
  have h1 := List.takeWhile_append_dropWhile p s
  have h2 : (s.dropWhile p).length = 0 := by
    have := congrArg List.length h1
    rw [List.length_append] at this
    omega
  rw [List.length_eq_zero.mp h2, List.append_nil] at h1
  exact h1

theorem hostEvents_log_wasm (g : Glue) (name : String) (args : List JsVal) :
    hostEvents (g.log (Event.wasm name args)).trace = hostEvents g.trace := by
  simp [Glue.log, hostEvents_append, hostEvents]

/-- What `passStringToWasm0` leaves behind, on either of its two paths: a
non-zero pointer and, in `WASM_VECTOR_LEN`, the length of the UTF-8 encoding of
the string; with a `realloc` that keeps the contents, the bytes at the pointer
are that encoding. -/
theorem passStringToWasm0_spec (h : Host) (w : Wasm) (s : List Nat) (g : Glue) (arg0 : Nat)
    (henc : h.defined "TextEncoder" = true) (hu : ∀ u ∈ s, u < 65536)
    (hnzm : ∀ t m n a, toU32 (w.malloc t m n a).1 ≠ 0)
    (hnzr : ∀ t m p o n a, toU32 (w.realloc t m p o n a).1 ≠ 0) :
    ∃ ptr g1, passStringToWasm0 h w s g = (Except.ok ptr, g1) ∧ ptr ≠ 0 ∧ ptr < 4294967296 ∧
      g1.WASM_VECTOR_LEN = (utf8Encode s).length ∧
      g1.heap = g.heap ∧ g1.heap_next = g.heap_next ∧
      hostEvents g1.trace = hostEvents g.trace ∧
      ((∀ t m n a, arg0 + 8 ≤ toU32 (w.malloc t m n a).1 ∨
          toU32 (w.malloc t m n a).1 + n ≤ arg0) →
        (∀ t m p o n a, arg0 + 8 ≤ toU32 (w.realloc t m p o n a).1 ∨
          toU32 (w.realloc t m p o n a).1 + n ≤ arg0) →
        (arg0 + 8 ≤ ptr ∨ ptr + (utf8Encode s).length ≤ arg0)) ∧
      ((∀ t m p o n a i, i < o → i < n →
          (w.realloc t m p o n a).2 (toU32 (w.realloc t m p o n a).1 + i) = m (p + i)) →
        readBytes g1.mem ptr (utf8Encode s).length = utf8Encode s) := by
  unfold passStringToWasm0
  by_cases hr : w.hasRealloc = false
  · rw [if_pos hr]
    simp only [encode, henc, if_true]
    refine ⟨_, _, rfl, hnzm _ _ _ _, toU32_lt _, rfl, rfl, rfl, ?_, fun hdm _ => hdm _ _ _ _,
      fun _ => ?_⟩
    · exact hostEvents_log_wasm _ _ _
    · exact readBytes_eq_of_forall _ _ _ (fun i hi => writeBytes_inside _ _ _ i hi)
  · rw [if_neg hr]
    simp only [asciiLoop_eq, Nat.zero_add, Nat.add_zero]
    have hsplit := utf8Encode_split s
    generalize hpre : s.takeWhile (fun c => decide (c ≤ 0x7F)) = pre at hsplit ⊢
    have hprele : pre.length ≤ s.length := by
      have h1 := congrArg List.length (List.takeWhile_append_dropWhile (fun c => decide (c ≤ 0x7F)) s)
      rw [List.length_append, hpre] at h1
      omega
    by_cases hoff : pre.length = s.length
    · rw [if_neg (not_not.mpr hoff)]
      have hpres : pre = s := by
        rw [← hpre] at hoff ⊢
        exact takeWhile_eq_self_of_length s _ hoff
      have henc_s : utf8Encode s = s := by
        rw [hsplit, hoff, List.drop_length, hpres]
        simp [utf8Encode, utf8Chunks]
      rw [henc_s, hpres]
      refine ⟨_, _, rfl, hnzm _ _ _ _, toU32_lt _, rfl, rfl, rfl, ?_, fun hdm _ => hdm _ _ _ _,
        fun _ => ?_⟩
      · exact hostEvents_log_wasm _ _ _
      · exact readBytes_eq_of_forall _ _ _ (fun i hi => writeBytes_inside _ _ _ i hi)
    · rw [if_pos hoff]
      have harg1 : (if pre.length ≠ 0 then s.drop pre.length else s) = s.drop pre.length := by
        split
        · rfl
        · next h0 => rw [not_not.mp h0]; rfl
      rw [harg1]
      have hu1 : ∀ u ∈ s.drop pre.length, u < 65536 := fun u hm => hu u (List.mem_of_mem_drop hm)
      have hcap : pre.length + (s.drop pre.length).length * 3 - pre.length =
          (s.drop pre.length).length * 3 := by omega
      rw [hcap, encodeString_all h _ _ henc hu1 (by omega)]
      simp only []
      have hlen3 := utf8Encode_length_le _ _ rfl hu1
      have htot : (utf8Encode s).length = pre.length + (utf8Encode (s.drop pre.length)).length := by
        rw [hsplit, List.length_append]
      rw [htot]
      refine ⟨_, _, rfl, hnzr _ _ _ _ _ _, toU32_lt _, rfl, rfl, rfl, ?_,
        fun _ hdr => hdr _ _ _ _ _ _, fun hkeep => ?_⟩
      · simp only [Glue.log, hostEvents_append, List.append_assoc]
        simp [hostEvents]
      · simp only [Glue.log]
        rw [hsplit]
        apply readBytes_append_of_forall
        intro i hi
        have h1 : i < pre.length + (s.drop pre.length).length * 3 := by omega
        rw [hkeep _ _ _ _ _ _ i h1 hi]
        by_cases hip : i < pre.length
        · have h3 : i < s.length := by omega
          rw [writeBytes_outside _ _ _ _ (Or.inl (by omega)), hkeep _ _ _ _ _ _ i h3 h1,
            writeBytes_inside _ _ _ i hip, List.getD_append _ _ _ _ hip]
        · have h4 : i - pre.length < (utf8Encode (s.drop pre.length)).length := by omega
          have hi2 : i = pre.length + (i - pre.length) := by omega
          rw [hi2, ← Nat.add_assoc, writeBytes_inside _ _ _ _ h4,
            List.getD_append_right _ _ _ _ (by omega)]
          congr 1
          omega

theorem writePtrLen_byte_outside (m : Mem) (arg0 ptr len b : Nat) (hb : b < arg0 ∨ arg0 + 8 ≤ b) :
    setWord (setWord m arg0 1 len) arg0 0 ptr b = m b := by
  unfold setWord
  split
  · simp only [store32]
    rw [if_neg (by omega), if_neg (by omega), if_neg (by omega), if_neg (by omega),
      if_neg (by omega), if_neg (by omega), if_neg (by omega), if_neg (by omega)]
  · rfl

theorem getCachedStringFromWasm0_state (h : Host) (ptr : Int) (len : Nat) (g : Glue) :
    (getCachedStringFromWasm0 h ptr len g).2 = g := by
  unfold getCachedStringFromWasm0 getStringFromWasm0
  split
  · rfl
  · cases h.decode (readBytes g.mem (toU32 ptr) len) <;> rfl

theorem handleError_of_ok (f : Glue → Run JsVal) (g g1 : Glue) (v : JsVal)
    (hf : f g = (Except.ok v, g1)) : handleError f g = (Except.ok v, g1) := by
  simp [handleError, hf]

/-! ## C10: reading a persisted value -/

/-- C10: the getItem binding tells an absent value from every stored one.  Let
the key decode to `key`, the store answer `ret` for it, the return area `arg0`
be 4-aligned, the host have a `TextEncoder`, and the allocator (`malloc` and
`realloc`) never return 0.  Then the binding returns without storing an
exception, and the pointer word at `arg0` is 0 if and only if `ret` is `null`
or `undefined`.  For a stored string `s`, the empty string included, with an
allocator whose blocks lie away from the return area and whose `realloc` keeps
the contents, the pointer is not 0, the bytes at the pointer are the UTF-8
encoding of `s` and the length word at `arg0 + 4` is their number. -/
theorem getItem_none_iff_absent (h : Host) (w : Wasm) (g : Glue) (arg0 arg1 : Nat) (arg2 : Int)
    (arg3 : Nat) (key ret : JsVal)
    (hkey : (getCachedStringFromWasm0 h arg2 arg3 g).1 = Except.ok key)
    (hrecv : isLikeNone (getObject arg1 g) = false)
    (hget : h.call g.trace (getObject arg1 g) "getItem" [key] = Outcome.ret ret)
    (henc : h.defined "TextEncoder" = true)
    (hu : ∀ u ∈ stringUnits ret, u < 65536)
    (halign : arg0 % 4 = 0)
    (hnzm : ∀ t m n a, toU32 (w.malloc t m n a).1 ≠ 0)
    (hnzr : ∀ t m p o n a, toU32 (w.realloc t m p o n a).1 ≠ 0) :
    (__wbg_getItem_164e8e5265095b87 h w arg0 arg1 arg2 arg3 g).1 = Except.ok JsVal.undefined ∧
    (__wbg_getItem_164e8e5265095b87 h w arg0 arg1 arg2 arg3 g).2.heap = g.heap ∧
    hostEvents (__wbg_getItem_164e8e5265095b87 h w arg0 arg1 arg2 arg3 g).2.trace =
      hostEvents g.trace ++ [Event.call (getObject arg1 g) "getItem" [key]] ∧
    (load32 (__wbg_getItem_164e8e5265095b87 h w arg0 arg1 arg2 arg3 g).2.mem arg0 = 0 ↔
      isLikeNone ret = true) ∧
    (∀ s, ret = JsVal.str s →
      3 * s.length < 4294967296 →
      (∀ t m p o n a i, i < o → i < n →
        (w.realloc t m p o n a).2 (toU32 (w.realloc t m p o n a).1 + i) = m (p + i)) →
      (∀ t m n a, arg0 + 8 ≤ toU32 (w.malloc t m n a).1 ∨
        toU32 (w.malloc t m n a).1 + n ≤ arg0) →
      (∀ t m p o n a, arg0 + 8 ≤ toU32 (w.realloc t m p o n a).1 ∨
        toU32 (w.realloc t m p o n a).1 + n ≤ arg0) →
      load32 (__wbg_getItem_164e8e5265095b87 h w arg0 arg1 arg2 arg3 g).2.mem arg0 ≠ 0 ∧
      load32 (__wbg_getItem_164e8e5265095b87 h w arg0 arg1 arg2 arg3 g).2.mem (arg0 + 4) =
        (utf8Encode s).length ∧
      readBytes (__wbg_getItem_164e8e5265095b87 h w arg0 arg1 arg2 arg3 g).2.mem
        (load32 (__wbg_getItem_164e8e5265095b87 h w arg0 arg1 arg2 arg3 g).2.mem arg0)
        (utf8Encode s).length = utf8Encode s) := by
  have hk : getCachedStringFromWasm0 h arg2 arg3 g = (Except.ok key, g) :=
    Prod.ext hkey (getCachedStringFromWasm0_state h arg2 arg3 g)
  generalize hg2 : g.log (Event.call (getObject arg1 g) "getItem" [key]) = g2
  have hheap2 : g2.heap = g.heap := by rw [← hg2]; rfl
  have htr2 : hostEvents g2.trace =
      hostEvents g.trace ++ [Event.call (getObject arg1 g) "getItem" [key]] := by
    rw [← hg2]
    simp [Glue.log, hostEvents_append, hostEvents]
  cases hnone : isLikeNone ret with
  | true =>
    have hrun : __wbg_getItem_164e8e5265095b87 h w arg0 arg1 arg2 arg3 g =
        writePtrLen arg0 0 g2 := by
      unfold __wbg_getItem_164e8e5265095b87
      apply handleError_of_ok
      simp only [hk, andThen, callMethod_of_ret h _ _ _ g ret hrecv hget, hnone, if_true, hg2]
      rfl
    rw [hrun]
    refine ⟨rfl, hheap2, htr2, ?_, ?_⟩
    · simp only [writePtrLen, iff_true]
      rw [(writePtrLen_mem _ arg0 0 _ halign).1]
    · intro s hs
      rw [hs] at hnone
      cases hnone
  | false =>
    obtain ⟨ptr, g3, hpass, hp0, hplt, hvl, hheap3, _, htr3, hpd, hrb⟩ :=
      passStringToWasm0_spec h w (stringUnits ret) g2 arg0 henc hu hnzm hnzr
    have hrun : __wbg_getItem_164e8e5265095b87 h w arg0 arg1 arg2 arg3 g =
        writePtrLen arg0 ptr g3 := by
      unfold __wbg_getItem_164e8e5265095b87
      apply handleError_of_ok
      simp only [hk, andThen, callMethod_of_ret h _ _ _ g ret hrecv hget, hnone, hg2, hpass,
        Bool.false_eq_true, if_false]
      rfl
    rw [hrun]
    obtain ⟨m1, m2, _⟩ := writePtrLen_mem g3.mem arg0 ptr g3.WASM_VECTOR_LEN halign
    have hload : load32 (writePtrLen arg0 ptr g3).2.mem arg0 = ptr := by
      simp only [writePtrLen]
      rw [m1, Nat.mod_eq_of_lt hplt]
    have hlen3 := utf8Encode_length_le _ _ rfl hu
    refine ⟨rfl, hheap3.trans hheap2, htr3.trans htr2, ?_, ?_⟩
    · rw [hload]
      simp only [Bool.false_eq_true, iff_false]
      exact hp0
    · intro s hs hsize hkeep hdm hdr
      have hpd1 := hpd hdm hdr
      have hrb1 := hrb hkeep
      rw [hs] at hlen3 hvl hrb1 hpd1
      simp only [stringUnits] at hlen3 hvl hrb1 hpd1
      rw [hload]
      refine ⟨hp0, ?_, ?_⟩
      · simp only [writePtrLen]
        rw [m2, hvl, Nat.mod_eq_of_lt (by omega)]
      · refine Eq.trans ?_ hrb1
        simp only [writePtrLen, readBytes]
        apply List.map_congr_left
        intro i hi
        rw [List.mem_range] at hi
        exact writePtrLen_byte_outside _ _ _ _ _ (by omega)

set_option maxRecDepth 8000 in
/-- C10, witness: the store behind handle 132 answers the two-unit string of
`a` and `é`; the binding writes a non-zero pointer to its three bytes of UTF-8. -/
theorem getItem_none_iff_absent_witness :
    (load32 (__wbg_getItem_164e8e5265095b87 storageHost fixedWasm 16 132 8 5 sampleGlue).2.mem
      16 = 0 ↔ isLikeNone (JsVal.str [0x61, 0xE9]) = true) ∧
    load32 (__wbg_getItem_164e8e5265095b87 storageHost fixedWasm 16 132 8 5 sampleGlue).2.mem 16
      ≠ 0 ∧
    load32 (__wbg_getItem_164e8e5265095b87 storageHost fixedWasm 16 132 8 5 sampleGlue).2.mem
      (16 + 4) = (utf8Encode [0x61, 0xE9]).length ∧
    readBytes (__wbg_getItem_164e8e5265095b87 storageHost fixedWasm 16 132 8 5 sampleGlue).2.mem
      (load32 (__wbg_getItem_164e8e5265095b87 storageHost fixedWasm 16 132 8 5
        sampleGlue).2.mem 16)
      (utf8Encode [0x61, 0xE9]).length = utf8Encode [0x61, 0xE9] := by
  have hkeep : ∀ (t : List Event) (m : Mem) (p o n a i : Nat), i < o → i < n →
      (fixedWasm.realloc t m p o n a).2 (toU32 (fixedWasm.realloc t m p o n a).1 + i) =
        m (p + i) := by
    intro t m p o n a i _ hn
    have h2048 : toU32 (fixedWasm.realloc t m p o n a).1 = 2048 :=
      (by decide : toU32 2048 = 2048)
    rw [h2048]
    simp only [fixedWasm]
    rw [if_pos (by omega), Nat.add_sub_cancel_left]
  have t := getItem_none_iff_absent storageHost fixedWasm sampleGlue 16 132 8 5
    (JsVal.str (units "tempo")) (JsVal.str [0x61, 0xE9]) rfl (by decide) rfl rfl
    (by decide) (by decide)
    (fun _ _ _ _ => (by decide : toU32 1024 ≠ 0))
    (fun _ _ _ _ _ _ => (by decide : toU32 2048 ≠ 0))
  exact ⟨t.2.2.2.1, t.2.2.2.2 [0x61, 0xE9] rfl (by decide) hkeep
    (fun _ _ _ _ => Or.inl (by decide : 16 + 8 ≤ toU32 1024))
    (fun _ _ _ _ _ _ => Or.inl (by decide : 16 + 8 ≤ toU32 2048))⟩

/-! ## C18: the error boundary -/

/-- C18: `handleError` is a total error boundary.  When `f` returns `v`,
`handleError` returns `v` and leaves the state as `f` left it, so nothing is
stored.  When `f` throws `e`, `handleError` does not throw: it returns
`undefined` and calls `__wbindgen_exn_store` exactly once, with a handle that
refers to `e`; on a slab with a well-formed free list that handle was free
before, and every other slot keeps its value. -/
theorem handleError_is_total_boundary (f : Glue → Run JsVal) (g : Glue) :
    (∀ v g1, f g = (Except.ok v, g1) → handleError f g = (Except.ok v, g1)) ∧
    (∀ e g1, f g = (Except.error e, g1) →
      (handleError f g).1 = Except.ok JsVal.undefined ∧
      (handleError f g).2.trace =
        g1.trace ++ [Event.wasm "__wbindgen_exn_store" [JsVal.num g1.heap_next]] ∧
      getObject g1.heap_next (handleError f g).2 = e ∧
      ∀ fl : List Nat, FreeChain g1.heap g1.heap_next fl → fl.Nodup →
        (g1.heap_next ∈ fl ∨ g1.heap_next = g1.heap.length) ∧
        ∀ k, k ≠ g1.heap_next → (handleError f g).2.heap[k]? = g1.heap[k]?) := by
  refine ⟨fun v g1 hf => handleError_of_ok f g g1 v hf, fun e g1 hf => ?_⟩
  rw [handleError_of_throw f g g1 e hf]
  refine ⟨rfl, ?_, getObject_addHeapObject e g1, fun fl hc hnd => ⟨?_, ?_⟩⟩
  · simp [Glue.log, addHeapObject_trace]
  · cases fl with
    | nil => exact Or.inr hc.nil_inv
    | cons i fl => exact Or.inl (hc.cons_inv.1 ▸ List.mem_cons_self _ _)
  · intro k hk
    exact (addHeapObject_chain e g1 fl hc hnd).2.2.2.2.2 k hk

set_option maxRecDepth 8000 in
/-- C18, witness: a function that returns 3 and a function that throws `boom`,
both run in `sampleGlue`, whose next free handle is 133. -/
theorem handleError_is_total_boundary_witness :
    handleError (fun g0 => (Except.ok (JsVal.num 3), g0)) sampleGlue =
      (Except.ok (JsVal.num 3), sampleGlue) ∧
    (handleError (fun g0 => (Except.error boom, g0)) sampleGlue).1 =
      Except.ok JsVal.undefined ∧
    (handleError (fun g0 => (Except.error boom, g0)) sampleGlue).2.trace =
      sampleGlue.trace ++ [Event.wasm "__wbindgen_exn_store" [JsVal.num sampleGlue.heap_next]] ∧
    getObject sampleGlue.heap_next
      (handleError (fun g0 => (Except.error boom, g0)) sampleGlue).2 = boom :=
  ⟨(handleError_is_total_boundary (fun g0 => (Except.ok (JsVal.num 3), g0)) sampleGlue).1
      (JsVal.num 3) sampleGlue rfl,
    ((handleError_is_total_boundary (fun g0 => (Except.error boom, g0)) sampleGlue).2
      boom sampleGlue rfl).1,
    ((handleError_is_total_boundary (fun g0 => (Except.error boom, g0)) sampleGlue).2
      boom sampleGlue rfl).2.1,
    ((handleError_is_total_boundary (fun g0 => (Except.error boom, g0)) sampleGlue).2
      boom sampleGlue rfl).2.2.1⟩

/-! ## C20: the fallback of `__wbg_load` -/

/-- C20: `__wbg_load` falls back as its warning says.  Let the module be a
`Response`, `WebAssembly.instantiateStreaming` be a function, and the streaming
instantiation fail with `e`, leaving the state `g1`; let the header
`Content-Type` of the response be `ct`.  When `ct` is `application/wasm`, the
same `e` is thrown and the only interactions after the failure are the reading
of the header: no `arrayBuffer`, no `instantiate`.  When `ct` is anything
else, the warning is printed, `e` is dropped, and the result is that of
`WebAssembly.instantiate` on the `arrayBuffer` of the response: the instance it
is fulfilled with, or the reason it is rejected with. -/
theorem load_falls_back_unless_wasm_mime (h : Host) (mdl imports : JsVal) (g g1 : Glue)
    (e headers ct : JsVal)
    (hR : h.isFunction "Response" = true) (hI : h.instanceOf mdl "Response" = true)
    (hS : h.isFunction "WebAssembly.instantiateStreaming" = true)
    (hfail : andThen (callMethod h (JsVal.fn "WebAssembly") "instantiateStreaming"
      [mdl, imports] g) (awaitValue h) = (Except.error e, g1))
    (hm : isLikeNone mdl = false)
    (hhead : h.get g1.trace mdl "headers" = Outcome.ret headers)
    (hh : isLikeNone headers = false)
    (hct : h.call (g1.log (Event.get mdl "headers")).trace headers "get"
      [JsVal.str (units "Content-Type")] = Outcome.ret ct) :
    (ct = JsVal.str (units "application/wasm") →
      __wbg_load h mdl imports g =
        (Except.error e, (g1.log (Event.get mdl "headers")).log
          (Event.call headers "get" [JsVal.str (units "Content-Type")]))) ∧
    (ct ≠ JsVal.str (units "application/wasm") →
      ∀ (v p bytes q : JsVal) (g4 g5 g6 g7 : Glue),
      g4 = ((g1.log (Event.get mdl "headers")).log
        (Event.call headers "get" [JsVal.str (units "Content-Type")])).log
        (Event.call (JsVal.fn "console") "warn" [JsVal.str (units fallbackWarning), e]) →
      h.call ((g1.log (Event.get mdl "headers")).log
        (Event.call headers "get" [JsVal.str (units "Content-Type")])).trace
        (JsVal.fn "console") "warn" [JsVal.str (units fallbackWarning), e] = Outcome.ret v →
      h.call g4.trace mdl "arrayBuffer" [] = Outcome.ret p →
      g5 = g4.log (Event.call mdl "arrayBuffer" []) →
      h.await g5.trace p = Outcome.ret bytes →
      g6 = g5.log (Event.await p) →
      h.call g6.trace (JsVal.fn "WebAssembly") "instantiate" [bytes, imports] = Outcome.ret q →
      g7 = g6.log (Event.call (JsVal.fn "WebAssembly") "instantiate" [bytes, imports]) →
      __wbg_load h mdl imports g =
        match h.await g7.trace q with
        | Outcome.ret result => (Except.ok (Loaded.host result), g7.log (Event.await q))
        | Outcome.throw e2 => (Except.error e2, g7.log (Event.await q))) := by
  have hw : isLikeNone (JsVal.fn "WebAssembly") = false := rfl
  have hc : isLikeNone (JsVal.fn "console") = false := rfl
  have hg2 := getProp_of_ret h mdl "headers" g1 headers hm hhead
  have hg3 := callMethod_of_ret h headers "get" [JsVal.str (units "Content-Type")] _ ct hh hct
  constructor
  · intro hcteq
    unfold __wbg_load
    rw [if_pos (by simp [hR, hI]), if_pos hS, hfail]
    simp only [andThen, hg2, hg3, hcteq, ne_eq, not_true_eq_false, if_false]
  · intro hctne v p bytes q g4 g5 g6 g7 e4 hwarn hab e5 haw e6 hinst e7
    subst e4 e5 e6 e7
    have hg4 := callMethod_of_ret h (JsVal.fn "console") "warn"
      [JsVal.str (units fallbackWarning), e] _ v hc hwarn
    have hg5 := callMethod_of_ret h mdl "arrayBuffer" [] _ p hm hab
    have hg7 := callMethod_of_ret h (JsVal.fn "WebAssembly") "instantiate" [bytes, imports] _ q
      hw hinst
    unfold __wbg_load
    rw [if_pos (by simp [hR, hI]), if_pos hS, hfail]
    simp only [andThen, hg2, hg3, ne_eq, hctne, not_false_eq_true, if_true, hg4,
      instantiateBytes, hg5, awaitValue, haw, hg7]
    cases h.await _ q <;> rfl

set_option maxRecDepth 8000 in
/-- C20, witness: in `fallbackHost` the streaming instantiation of the
response 5 throws `boom` and the header is `text/html`; `__wbg_load` returns
what `WebAssembly.instantiate` yields, the object 9. -/
theorem load_falls_back_unless_wasm_mime_witness :
    (__wbg_load fallbackHost (JsVal.obj 5) (JsVal.lit "imports") sampleGlue).1 =
      Except.ok (Loaded.host (JsVal.obj 9)) := by
  have t := (load_falls_back_unless_wasm_mime fallbackHost (JsVal.obj 5) (JsVal.lit "imports")
    sampleGlue
    (sampleGlue.log (Event.call (JsVal.fn "WebAssembly") "instantiateStreaming"
      [JsVal.obj 5, JsVal.lit "imports"]))
    boom (JsVal.obj 9) (JsVal.str (units "text/html")) rfl rfl rfl rfl rfl rfl rfl rfl).2
    (by decide) (JsVal.obj 9) (JsVal.obj 9) (JsVal.obj 9) (JsVal.obj 9) _ _ _ _
    rfl rfl rfl rfl rfl rfl rfl rfl
  rw [t]
  rfl

/-! ## C19: the reference count of a closure -/

/-- C19, counterexample: a closure that is never invoked and never dropped is
collected; the callback of `CLOSURE_DTORS` calls the destructor, with the count
at 1 and without any invocation having finished. -/
theorem destructor_runs_on_collection :
    ((makeMutClosure freshHost 7 8 1656).run [ClosureEvent.collect]).destroyed =
      [{ a := 7, b := 8, byFinally := false, inProgress := 0, cnt := 1 }] ∧
    ((makeClosure freshHost 7 8 1656).run [ClosureEvent.collect]).destroyed =
      [{ a := 7, b := 8, byFinally := false, inProgress := 0, cnt := 1 }] := by
  constructor <;> decide

/-- What every run keeps true: the count is the number of invocations in
progress, plus one until the drop; and every call of the destructor so far
found no invocation in progress, the calls made by a `finally` block with the
count at zero. -/
theorem Closure.run_invariant (evs : List ClosureEvent) : ∀ (c : Closure) (k : Nat),
    c.state.cnt = c.frames.length + 1 - k → k + evs.count ClosureEvent.drop ≤ 1 →
    (∀ d ∈ c.destroyed, d.inProgress = 0 ∧ (d.byFinally = true → d.cnt = 0)) →
    ∀ d ∈ (c.run evs).destroyed, d.inProgress = 0 ∧ (d.byFinally = true → d.cnt = 0) := by
  induction evs with
  | nil => intro c k _ _ hd; exact hd
  | cons ev evs ih =>
    intro c k hcnt hk hd
    rw [List.count_cons] at hk
    cases ev with
    | enter =>
      refine ih c.enter k ?_ (by simpa using hk) hd
      simp only [Closure.enter, List.length_cons, hcnt]
      push_cast
      ring
    | leave threw =>
      simp only [Closure.run, List.foldl_cons, Closure.step]
      have hk1 : k + evs.count ClosureEvent.drop ≤ 1 := by simpa using hk
      unfold Closure.leave
      cases hf : c.frames with
      | nil =>
        simp only []
        exact ih c k hcnt hk1 hd
      | cons a rest =>
        rw [hf] at hcnt
        simp only [List.length_cons] at hcnt
        push_cast at hcnt
        simp only []
        split
        · next h0 =>
          refine ih _ k ?_ hk1 ?_
          · simp only []
            omega
          · intro d hm
            simp only [List.mem_append, List.mem_singleton] at hm
            rcases hm with hm | rfl
            · exact hd d hm
            · refine ⟨?_, fun _ => rfl⟩
              simp only []
              omega
        · next h0 =>
          refine ih _ k ?_ hk1 hd
          simp only []
          omega
    | drop =>
      have hk1 : (k + 1) + evs.count ClosureEvent.drop ≤ 1 := by
        simp at hk
        omega
      refine ih c.drop (k + 1) ?_ hk1 hd
      simp only [Closure.drop, hcnt]
      push_cast
      ring
    | collect =>
      simp only [Closure.run, List.foldl_cons, Closure.step]
      have hk1 : k + evs.count ClosureEvent.drop ≤ 1 := by simpa using hk
      unfold Closure.collect
      split
      · next hreg =>
        refine ih _ k hcnt hk1 ?_
        intro d hm
        simp only [List.mem_append, List.mem_singleton] at hm
        rcases hm with hm | rfl
        · exact hd d hm
        · simp only [Bool.and_eq_true, List.isEmpty_iff] at hreg
          refine ⟨?_, fun hb => absurd hb (by simp)⟩
          simp [hreg.2]
      · exact ih c k hcnt hk1 hd

/-- C19, as amended: for a closure made by `makeMutClosure` or `makeClosure`
and any course of invocations (nested ones included), drops and collection in
which `__wbindgen_cb_drop` is called at most once, the destructor is never
called while an invocation of the closure is in progress.  A `finally` block
calls it only when the last invocation in progress finishes with the count at
zero; the one other call is that of the registry `CLOSURE_DTORS`, after the
function has been collected. -/
theorem destructor_waits_for_invocations (h : Host) (isMut : Bool) (arg0 arg1 : Int)
    (dtor : Nat) (evs : List ClosureEvent) (hdrop : evs.count ClosureEvent.drop ≤ 1) :
    ∀ d ∈ ((Closure.make h isMut arg0 arg1 dtor).run evs).destroyed,
      d.inProgress = 0 ∧ (d.byFinally = true → d.cnt = 0) := by
  refine Closure.run_invariant evs _ 0 ?_ (by simpa using hdrop) ?_
  · simp [Closure.make]
  · simp [Closure.make]

/-- C19, witness: an invocation, inside it a nested invocation and the drop,
then both invocations finish.  The destructor is called once, by the `finally`
block of the outer invocation, with nothing in progress and the count at 0. -/
theorem destructor_waits_for_invocations_witness :
    ([ClosureEvent.enter, ClosureEvent.enter, ClosureEvent.drop, ClosureEvent.leave false,
        ClosureEvent.leave true].count ClosureEvent.drop ≤ 1) ∧
    ((makeMutClosure freshHost 7 8 1656).run
      [ClosureEvent.enter, ClosureEvent.enter, ClosureEvent.drop, ClosureEvent.leave false,
        ClosureEvent.leave true]).destroyed =
      [{ a := 7, b := 8, byFinally := true, inProgress := 0, cnt := 0 }] ∧
    ∀ d ∈ ((makeMutClosure freshHost 7 8 1656).run
      [ClosureEvent.enter, ClosureEvent.enter, ClosureEvent.drop, ClosureEvent.leave false,
        ClosureEvent.leave true]).destroyed,
      d.inProgress = 0 ∧ (d.byFinally = true → d.cnt = 0) :=
  ⟨by decide, by decide,
    destructor_waits_for_invocations freshHost true 7 8 1656 _ (by decide)⟩


/-! ## C17: the Tailwind extractor and the two class syntaxes

The comment above the extractor says that it supports the inline syntax
`class:classname=predicate` and the tuple syntax `class=("classname", predicate)`.
The tuple syntax is always found; the inline syntax is missed behind a match
that is still running, as behind `class=btn `. -/

theorem isNameChar_class {c : Char} (h : isNameChar c = true) :
    isClassChar c = true ∧ c ≠ ' ' := by
  constructor
  · simp only [isNameChar, Bool.or_eq_true] at h
    simp only [isClassChar, Bool.or_eq_true]
    tauto
  · rintro rfl
    revert h
    decide

theorem splitOnSpace_of_no_space (s : List Char) (h : ∀ c ∈ s, c ≠ ' ') :
    splitOnSpace s = [s] := by
  induction s with
  | nil => rfl
  | cons c rest ih =>
    have hc : c ≠ ' ' := h c (List.mem_cons_self _ _)
    have hr := ih (fun d hd => h d (List.mem_cons_of_mem _ hd))
    simp [splitOnSpace, hc, hr]

/-- While a match is in progress, a run of characters of the class followed
by a character outside it is taken whole and closes the match. -/
theorem scanMatches_run (run : List Char) (hrun : ∀ c ∈ run, isClassChar c = true)
    (c : Char) (hc : isClassChar c = false) (before acc rest : List Char) :
    scanMatches before (some acc) (run ++ c :: rest) =
      (acc.reverse ++ run) :: scanMatches (c :: (run.reverse ++ before)) none rest := by
  induction run generalizing before acc with
  | nil => simp [scanMatches, hc]
  | cons x xs ih =>
    have hx : isClassChar x = true := hrun x (List.mem_cons_self _ _)
    have hxs := ih (fun d hd => hrun d (List.mem_cons_of_mem _ hd)) (x :: before) (x :: acc)
    simp only [List.cons_append, scanMatches, hx, if_true]
    simpa using hxs

/-- A character outside the class leaves the scanner idle, whatever came before. -/
theorem scanMatches_to_outside (xs : List Char) (c : Char) (hc : isClassChar c = false)
    (before : List Char) (cur : Option (List Char)) (rest : List Char) :
    ∃ ms, scanMatches before cur (xs ++ c :: rest) =
      ms ++ scanMatches (c :: (xs.reverse ++ before)) none rest := by
  induction xs generalizing before cur with
  | nil =>
    cases cur with
    | none => exact ⟨[], by simp [scanMatches, hc]⟩
    | some acc => exact ⟨[acc.reverse], by simp [scanMatches, hc]⟩
  | cons x xs ih =>
    cases cur with
    | none =>
      by_cases hx : (lookbehind before && isClassChar x) = true
      · obtain ⟨ms, hms⟩ := ih (x :: before) (some [x])
        exact ⟨ms, by simp only [List.cons_append, scanMatches, hx, if_true]; simpa using hms⟩
      · obtain ⟨ms, hms⟩ := ih (x :: before) none
        exact ⟨ms, by simp only [List.cons_append, scanMatches, hx, if_false]; simpa using hms⟩
    | some acc =>
      by_cases hx : isClassChar x = true
      · obtain ⟨ms, hms⟩ := ih (x :: before) (some (x :: acc))
        exact ⟨ms, by simp only [List.cons_append, scanMatches, hx, if_true]; simpa using hms⟩
      · obtain ⟨ms, hms⟩ := ih (x :: before) none
        exact ⟨acc.reverse :: ms,
          by simp only [List.cons_append, scanMatches, hx, if_false]; simpa using hms⟩

/-- The scanner is idle behind a text in which no run of characters of the
class that reaches the end of the text begins where the lookbehind holds. -/
theorem scanMatches_idle (xs : List Char) (before : List Char) (cur : Option (List Char))
    (hcur : cur.isSome = true → ∃ c ∈ xs, isClassChar c = false)
    (hidle : ∀ u v, xs = u ++ v → (∀ c ∈ v, isClassChar c = true) →
      lookbehind (u.reverse ++ before) = false)
    (rest : List Char) :
    ∃ ms, scanMatches before cur (xs ++ rest) =
      ms ++ scanMatches (xs.reverse ++ before) none rest := by
  induction xs generalizing before cur with
  | nil =>
    cases cur with
    | none => exact ⟨[], by simp⟩
    | some acc => obtain ⟨c, hc, _⟩ := hcur rfl; cases hc
  | cons x xs ih =>
    have hidle2 : ∀ u v, xs = u ++ v → (∀ c ∈ v, isClassChar c = true) →
        lookbehind (u.reverse ++ (x :: before)) = false := by
      intro u v huv hv
      have := hidle (x :: u) v (by rw [huv]; rfl) hv
      simpa using this
    cases cur with
    | none =>
      by_cases hx : (lookbehind before && isClassChar x) = true
      · have hx2 : lookbehind before = true ∧ isClassChar x = true := by
          simpa using hx
        have hex : ∃ c ∈ xs, isClassChar c = false := by
          by_contra hno
          have hall : ∀ c ∈ x :: xs, isClassChar c = true := by
            intro c hc
            rcases List.mem_cons.1 hc with rfl | hc
            · exact hx2.2
            · by_contra hcf
              exact hno ⟨c, hc, by simpa using hcf⟩
          have := hidle [] (x :: xs) rfl hall
          rw [List.reverse_nil, List.nil_append, hx2.1] at this
          cases this
        obtain ⟨ms, hms⟩ := ih (x :: before) (some [x]) (fun _ => hex) hidle2
        exact ⟨ms, by simp only [List.cons_append, scanMatches, hx, if_true]; simpa using hms⟩
      · obtain ⟨ms, hms⟩ := ih (x :: before) none (fun h => by cases h) hidle2
        exact ⟨ms, by simp only [List.cons_append, scanMatches, hx, if_false]; simpa using hms⟩
    | some acc =>
      by_cases hx : isClassChar x = true
      · have hex : ∃ c ∈ xs, isClassChar c = false := by
          obtain ⟨c, hc, hcf⟩ := hcur rfl
          rcases List.mem_cons.1 hc with rfl | hc
          · rw [hx] at hcf; cases hcf
          · exact ⟨c, hc, hcf⟩
        obtain ⟨ms, hms⟩ := ih (x :: before) (some (x :: acc)) (fun _ => hex) hidle2
        exact ⟨ms, by simp only [List.cons_append, scanMatches, hx, if_true]; simpa using hms⟩
      · obtain ⟨ms, hms⟩ := ih (x :: before) none (fun h => by cases h) hidle2
        exact ⟨acc.reverse :: ms,
          by simp only [List.cons_append, scanMatches, hx, if_false]; simpa using hms⟩

theorem scanMatches_skip (before : List Char) (c : Char) (rest : List Char)
    (h : (lookbehind before && isClassChar c) = false) :
    scanMatches before none (c :: rest) = scanMatches (c :: before) none rest := by
  simp [scanMatches, h]

theorem scanMatches_start (before : List Char) (c : Char) (rest : List Char)
    (h : (lookbehind before && isClassChar c) = true) :
    scanMatches before none (c :: rest) = scanMatches (c :: before) (some [c]) rest := by
  simp only [scanMatches, h, if_true]

theorem mem_extract_rs_of_match (content N : List Char) (ms rest : List (List Char))
    (hN : ∀ c ∈ N, isNameChar c = true)
    (h : scanMatches [] none content = ms ++ N :: rest) : N ∈ extract_rs content := by
  unfold extract_rs
  rw [h, List.mem_flatMap]
  refine ⟨N, by simp, ?_⟩
  rw [splitOnSpace_of_no_space N (fun c hc => (isNameChar_class (hN c hc)).2)]
  exact List.mem_singleton_self N

theorem lookbehind_tuple (r : List Char) :
    lookbehind ('"' :: '(' :: '=' :: 's' :: 's' :: 'a' :: 'l' :: 'c' :: r) = true := by
  simp [lookbehind, endsWithClassOpener]

theorem lookbehind_inline (r : List Char) :
    lookbehind (':' :: 's' :: 's' :: 'a' :: 'l' :: 'c' :: r) = true := by
  simp [lookbehind, endsWithClassOpener]

theorem lookbehind_letter (c : Char) (r : List Char) (h : c.isAlpha = true) :
    lookbehind (c :: r) = false := by
  have h1 : c ≠ ':' := by rintro rfl; revert h; decide
  have h2 : c ≠ '=' := by rintro rfl; revert h; decide
  have h3 : c ≠ '(' := by rintro rfl; revert h; decide
  have h4 : c ≠ '"' := by rintro rfl; revert h; decide
  simp [lookbehind, endsWithClassOpener, h1, h2, h3, h4]

/-- C17: the content `<div class=btn class:active=on>` contains the inline form
`class:active=`, and the comment above the extractor says that this syntax is
supported, but the tokens returned are `btn` and `class:active`, and `active` is
not among them: the match that starts behind `class=` runs over the blank and
over `class:`, which are characters of `[-\w: ]`.  The same happens in
`class=btn class:a=`, whose tokens are `btn` and `class:a`, and in
`class:class:a=`, whose only token is `class:a`. -/
theorem inline_class_inside_a_match_is_lost :
    extract_rs ("<div class=btn ".toList ++ inlineForm "active".toList ++ "on>".toList)
      = ["btn".toList, "class:active".toList] ∧
    "active".toList ∉
      extract_rs ("<div class=btn ".toList ++ inlineForm "active".toList ++ "on>".toList) ∧
    extract_rs ("class=btn ".toList ++ inlineForm "a".toList)
      = ["btn".toList, "class:a".toList] ∧
    "a".toList ∉ extract_rs ("class=btn ".toList ++ inlineForm "a".toList) ∧
    extract_rs ("class:".toList ++ inlineForm "a".toList) = ["class:a".toList] ∧
    "a".toList ∉ extract_rs ("class:".toList ++ inlineForm "a".toList) := by
  decide

/-- Where the extractor does return the class name: for every content and
every non-empty class name `N` made of letters, digits, `_` and `-`, the tuple
form `class=("N",` anywhere in the content makes `N` one of the tokens of
`extract.rs`; the inline form `class:N=` does so when it does not continue an
earlier match, that is when no run of characters of `[-\w: ]` that ends where
the form begins starts at a place where the lookbehind of the pattern holds. -/
theorem class_syntaxes_are_extracted (pre N post : List Char) (hne : N ≠ [])
    (hN : ∀ c ∈ N, isNameChar c = true) :
    N ∈ extract_rs (pre ++ tupleForm N ++ post) ∧
    ((∀ u v, pre = u ++ v → (∀ c ∈ v, isClassChar c = true) →
        lookbehind u.reverse = false) →
      N ∈ extract_rs (pre ++ inlineForm N ++ post)) := by
  obtain ⟨n, N1, rfl⟩ := List.exists_cons_of_ne_nil hne
  have hn : isClassChar n = true := (isNameChar_class (hN n (List.mem_cons_self _ _))).1
  have hN1 : ∀ c ∈ N1, isClassChar c = true :=
    fun c hc => (isNameChar_class (hN c (List.mem_cons_of_mem _ hc))).1
  constructor
  · obtain ⟨ms, hms⟩ := scanMatches_to_outside (pre ++ ['c', 'l', 'a', 's', 's']) '='
      (by decide) [] none ('(' :: '"' :: n :: (N1 ++ '"' :: ',' :: post))
    apply mem_extract_rs_of_match _ _ ms
      (scanMatches ('"' :: (N1.reverse ++ n :: '"' :: '(' :: '=' :: 's' :: 's' :: 'a' :: 'l'
        :: 'c' :: pre.reverse)) none (',' :: post)) hN
    have hcontent : pre ++ tupleForm (n :: N1) ++ post
        = (pre ++ ['c', 'l', 'a', 's', 's']) ++
          '=' :: ('(' :: '"' :: n :: (N1 ++ '"' :: ',' :: post)) := by
      simp [tupleForm]
    rw [hcontent, hms]
    have hrun := scanMatches_run N1 hN1 '"' (by decide)
      (n :: '"' :: '(' :: '=' :: 's' :: 's' :: 'a' :: 'l' :: 'c' :: pre.reverse) [n]
      (',' :: post)
    simp only [List.reverse_append, List.reverse_cons, List.reverse_nil, List.nil_append,
      List.cons_append, List.append_nil, List.singleton_append]
    rw [scanMatches_skip _ _ _ (by simp [show isClassChar '(' = false by decide]),
      scanMatches_skip _ _ _ (by simp [show isClassChar '"' = false by decide]),
      scanMatches_start _ _ _ (by simp [lookbehind_tuple, hn]), hrun]
    simp
  · intro hidle
    obtain ⟨ms, hms⟩ := scanMatches_idle pre [] none (fun h => by cases h)
      (by simpa using hidle)
      (['c', 'l', 'a', 's', 's', ':'] ++ n :: (N1 ++ '=' :: post))
    apply mem_extract_rs_of_match _ _ ms
      (scanMatches ('=' :: (N1.reverse ++ n :: ':' :: 's' :: 's' :: 'a' :: 'l'
        :: 'c' :: pre.reverse)) none post) hN
    have hcontent : pre ++ inlineForm (n :: N1) ++ post
        = pre ++ (['c', 'l', 'a', 's', 's', ':'] ++ n :: (N1 ++ '=' :: post)) := by
      simp [inlineForm]
    rw [hcontent, hms]
    have hrun := scanMatches_run N1 hN1 '=' (by decide)
      (n :: ':' :: 's' :: 's' :: 'a' :: 'l' :: 'c' :: pre.reverse) [n] post
    have h0 : lookbehind pre.reverse = false := hidle pre [] (by simp) (by simp)
    have h1 := lookbehind_letter 'c' pre.reverse (by decide)
    have h2 := lookbehind_letter 'l' ('c' :: pre.reverse) (by decide)
    have h3 := lookbehind_letter 'a' ('l' :: 'c' :: pre.reverse) (by decide)
    have h4 := lookbehind_letter 's' ('a' :: 'l' :: 'c' :: pre.reverse) (by decide)
    have h5 := lookbehind_letter 's' ('s' :: 'a' :: 'l' :: 'c' :: pre.reverse) (by decide)
    simp only [List.append_nil, List.cons_append, List.nil_append]
    rw [scanMatches_skip _ _ _ (by simp [h0]), scanMatches_skip _ _ _ (by simp [h1]),
      scanMatches_skip _ _ _ (by simp [h2]), scanMatches_skip _ _ _ (by simp [h3]),
      scanMatches_skip _ _ _ (by simp [h4]), scanMatches_skip _ _ _ (by simp [h5]),
      scanMatches_start _ _ _ (by simp [lookbehind_inline, hn]), hrun]
    simp

theorem class_syntaxes_are_extracted_witness :
    "hidden".toList ∈ extract_rs ("<p ".toList ++ tupleForm "hidden".toList ++ " x)>".toList) ∧
    "hidden".toList ∈ extract_rs ("<p ".toList ++ inlineForm "hidden".toList ++ "x>".toList) :=
  ⟨(class_syntaxes_are_extracted "<p ".toList "hidden".toList " x)>".toList (by decide)
      (by decide)).1,
   (class_syntaxes_are_extracted "<p ".toList "hidden".toList "x>".toList (by decide)
      (by decide)).2 (fun u v h _ =>
        (by decide : ∀ w ∈ "<p ".toList.inits, lookbehind w.reverse = false) u
          ((List.mem_inits u _).2 ⟨v, h.symm⟩))⟩


/-! ## C15: reduction of rational time -/

theorem fitsWidth_of_abs_le (width : Nat) (x y : Int) (hxy : |x| ≤ |y|)
    (hy : 2 * |y| < (2 : Int) ^ width) : fitsWidth width x = true := by
  have h1 := abs_le.1 hxy
  have h2 := neg_abs_le y
  have h3 := le_abs_self y
  have h4 := abs_nonneg y
  simp only [fitsWidth, decide_eq_true_eq]
  constructor <;> omega

/-- The reduced pair of `n / d` for `d ≠ 0`: the quotients by the greatest
common divisor, with the sign of `d` moved to the numerator, are coprime, the
denominator is positive and the value is the same. -/
theorem reduce_parts (n d : Int) (hd : d ≠ 0) :
    let g : Int := Int.gcd n d
    let s : Int := if d < 0 then -1 else 1
    Int.gcd (s * (n / g)) (s * (d / g)) = 1 ∧ 0 < s * (d / g) ∧
      (s * (n / g)) * d = n * (s * (d / g)) ∧ |s * (n / g)| ≤ |n| ∧ |s * (d / g)| ≤ |d| := by
  intro g s
  have hgpos : 0 < Int.gcd n d := Int.gcd_pos_of_ne_zero_right n hd
  have hg : (0 : Int) < g := by
    show (0 : Int) < ((Int.gcd n d : Nat) : Int)
    exact_mod_cast hgpos
  have hco : Int.gcd (n / g) (d / g) = 1 := Int.gcd_div_gcd_div_gcd hgpos
  have hn : n / g * g = n := Int.ediv_mul_cancel (Int.gcd_dvd_left)
  have hdd : d / g * g = d := Int.ediv_mul_cancel (Int.gcd_dvd_right)
  have habs : ∀ a : Int, |a| ≤ |a * g| := by
    intro a
    rw [abs_mul, abs_of_pos hg]
    nlinarith [abs_nonneg a]
  have hnle : |n / g| ≤ |n| := by
    have := habs (n / g)
    rwa [hn] at this
  have hdle : |d / g| ≤ |d| := by
    have := habs (d / g)
    rwa [hdd] at this
  have hval : (n / g) * d = n * (d / g) := by
    calc (n / g) * d = (n / g) * (d / g * g) := by rw [hdd]
      _ = (n / g * g) * (d / g) := by ring
      _ = n * (d / g) := by rw [hn]
  by_cases hneg : d < 0
  · have hs : s = -1 := if_pos hneg
    have hq : d / g < 0 := by
      by_contra hq
      have : 0 ≤ d / g * g := mul_nonneg (not_lt.1 hq) hg.le
      omega
    rw [hs]
    refine ⟨?_, by omega, ?_, ?_, ?_⟩
    · simpa using hco
    · linear_combination -hval
    · simpa using hnle
    · simpa using hdle
  · have hs : s = 1 := if_neg hneg
    have hq : 0 < d / g := by
      by_contra hq
      have : d / g * g ≤ 0 := mul_nonpos_of_nonpos_of_nonneg (not_lt.1 hq) hg.le
      omega
    rw [hs]
    refine ⟨?_, by omega, ?_, ?_, ?_⟩
    · simpa using hco
    · linear_combination hval
    · simpa using hnle
    · simpa using hdle

theorem reduce_eq (width : Nat) (n d : Int) (hd : d ≠ 0) :
    RationalTime.reduce width n d =
      if (fitsWidth width ((if d < 0 then -1 else 1) * (n / (Int.gcd n d : Int))) &&
          fitsWidth width ((if d < 0 then -1 else 1) * (d / (Int.gcd n d : Int)))) = true then
        Except.ok { numerator := (if d < 0 then -1 else 1) * (n / (Int.gcd n d : Int))
                    denominator := (if d < 0 then -1 else 1) * (d / (Int.gcd n d : Int)) }
      else Except.error CoreError.ArithmeticError := by
  unfold RationalTime.reduce
  rw [if_neg hd]

/-- What a successful reduction returns. -/
theorem reduce_ok (width : Nat) (n d : Int) (r : RationalTime)
    (h : RationalTime.reduce width n d = Except.ok r) :
    d ≠ 0 ∧ Int.gcd r.numerator r.denominator = 1 ∧ 0 < r.denominator ∧
      r.numerator * d = n * r.denominator ∧
      fitsWidth width r.numerator = true ∧ fitsWidth width r.denominator = true := by
  by_cases hd : d = 0
  · unfold RationalTime.reduce at h
    rw [if_pos hd] at h; cases h
  · rw [reduce_eq width n d hd] at h
    have hp := reduce_parts n d hd
    simp only at hp
    by_cases hfit : (fitsWidth width ((if d < 0 then -1 else 1) * (n / (Int.gcd n d : Int))) &&
        fitsWidth width ((if d < 0 then -1 else 1) * (d / (Int.gcd n d : Int)))) = true
    · rw [if_pos hfit] at h
      cases h
      simp only [Bool.and_eq_true] at hfit
      exact ⟨hd, hp.1, hp.2.1, hp.2.2.1, hfit.1, hfit.2⟩
    · rw [if_neg hfit] at h
      cases h

/-- A pair in lowest terms with a positive denominator that fits the width is
its own reduction. -/
theorem reduce_of_reduced (width : Nat) (r : RationalTime)
    (hco : Int.gcd r.numerator r.denominator = 1) (hpos : 0 < r.denominator)
    (hfn : fitsWidth width r.numerator = true) (hfd : fitsWidth width r.denominator = true) :
    RationalTime.reduce width r.numerator r.denominator = Except.ok r := by
  unfold RationalTime.reduce
  rw [if_neg (by omega)]
  simp only [hco, if_neg (not_lt.2 hpos.le), Nat.cast_one, Int.ediv_one, one_mul, hfn, hfd,
    Bool.and_self, if_true]

/-- C15: for every numerator and every non-zero denominator the reduction
either returns a pair or fails with `ArithmeticError`, and it returns a pair
whenever the given numbers fit the width without being its least value; the
pair returned is in lowest terms, has a positive denominator and the same
value, and reducing it again returns it unchanged. -/
theorem reduce_is_idempotent (width : Nat) (n d : Int) (hd : d ≠ 0) :
    (RationalTime.reduce width n d = Except.error CoreError.ArithmeticError ∨
      ∃ r, RationalTime.reduce width n d = Except.ok r) ∧
    (2 * |n| < (2 : Int) ^ width → 2 * |d| < (2 : Int) ^ width →
      ∃ r, RationalTime.reduce width n d = Except.ok r) ∧
    ∀ r, RationalTime.reduce width n d = Except.ok r →
      RationalTime.reduce width r.numerator r.denominator = Except.ok r ∧
      Int.gcd r.numerator r.denominator = 1 ∧ 0 < r.denominator ∧
      r.numerator * d = n * r.denominator := by
  refine ⟨?_, ?_, ?_⟩
  · rw [reduce_eq width n d hd]
    by_cases hfit : (fitsWidth width ((if d < 0 then -1 else 1) * (n / (Int.gcd n d : Int))) &&
        fitsWidth width ((if d < 0 then -1 else 1) * (d / (Int.gcd n d : Int)))) = true
    · rw [if_pos hfit]
      exact Or.inr ⟨_, rfl⟩
    · rw [if_neg hfit]
      exact Or.inl rfl
  · intro hn hdw
    have hp := reduce_parts n d hd
    simp only at hp
    rw [reduce_eq width n d hd, fitsWidth_of_abs_le width _ n hp.2.2.2.1 hn,
      fitsWidth_of_abs_le width _ d hp.2.2.2.2 hdw]
    exact ⟨_, rfl⟩
  · intro r hr
    obtain ⟨_, hco, hpos, hval, hfn, hfd⟩ := reduce_ok width n d r hr
    exact ⟨reduce_of_reduced width r hco hpos hfn hfd, hco, hpos, hval⟩

theorem reduce_is_idempotent_witness :
    RationalTime.reduce 64 6 (-8) = Except.ok { numerator := -3, denominator := 4 } ∧
    RationalTime.reduce 64 (-3) 4 = Except.ok { numerator := -3, denominator := 4 } ∧
    Int.gcd (-3) 4 = 1 :=
  have h := (reduce_is_idempotent 64 6 (-8) (by decide)).2.2
    { numerator := -3, denominator := 4 } (by unfold RationalTime.reduce fitsWidth; rfl)
  ⟨by unfold RationalTime.reduce fitsWidth; rfl, h.1, h.2.1⟩


/-! ## C12: the score timeline -/

theorem compare_lt_iff (a b : RationalTime) (ha : 0 < a.denominator) (hb : 0 < b.denominator) :
    RationalTime.compare a b = Ordering.lt ↔ a.toRat < b.toRat := by
  have ha2 : (0 : ℚ) < (a.denominator : ℚ) := by exact_mod_cast ha
  have hb2 : (0 : ℚ) < (b.denominator : ℚ) := by exact_mod_cast hb
  unfold RationalTime.compare RationalTime.toRat
  rw [compare_lt_iff_lt, div_lt_div_iff₀ ha2 hb2]
  exact_mod_cast Iff.rfl

theorem compare_eq_iff (a b : RationalTime) (ha : 0 < a.denominator) (hb : 0 < b.denominator) :
    RationalTime.compare a b = Ordering.eq ↔ a.toRat = b.toRat := by
  have ha2 : (a.denominator : ℚ) ≠ 0 := by exact_mod_cast ha.ne.symm
  have hb2 : (b.denominator : ℚ) ≠ 0 := by exact_mod_cast hb.ne.symm
  unfold RationalTime.compare RationalTime.toRat
  rw [compare_eq_iff_eq, div_eq_div_iff ha2 hb2]
  exact_mod_cast Iff.rfl

theorem compare_gt_iff (a b : RationalTime) (ha : 0 < a.denominator) (hb : 0 < b.denominator) :
    RationalTime.compare a b = Ordering.gt ↔ b.toRat < a.toRat := by
  have ha2 : (0 : ℚ) < (a.denominator : ℚ) := by exact_mod_cast ha
  have hb2 : (0 : ℚ) < (b.denominator : ℚ) := by exact_mod_cast hb
  unfold RationalTime.compare RationalTime.toRat
  rw [compare_gt_iff_gt, gt_iff_lt, div_lt_div_iff₀ hb2 ha2]
  exact_mod_cast Iff.rfl

/-- On a timeline with positive denominators, strictly increasing timestamps
are strictly increasing rational values. -/
theorem strictlyIncreasing_iff (tl : List TimelineEntry)
    (hpos : ∀ e ∈ tl, 0 < e.timestamp.denominator) :
    StrictlyIncreasing tl ↔
      tl.Pairwise (fun a b => a.timestamp.toRat < b.timestamp.toRat) := by
  unfold StrictlyIncreasing
  exact List.Pairwise.iff_of_mem
    (fun {a b} ha hb => compare_lt_iff a.timestamp b.timestamp (hpos a ha) (hpos b hb))

theorem mem_insertEntry (e y : TimelineEntry) (tl : List TimelineEntry)
    (h : y ∈ insertEntry e tl) :
    y.timestamp = e.timestamp ∨ ∃ x ∈ tl, y.timestamp = x.timestamp := by
  induction tl with
  | nil =>
    simp only [insertEntry, List.mem_singleton] at h
    exact Or.inl (by rw [h])
  | cons x xs ih =>
    unfold insertEntry at h
    cases hc : RationalTime.compare e.timestamp x.timestamp with
    | lt =>
      rw [hc] at h
      rcases List.mem_cons.1 h with rfl | h
      · exact Or.inl rfl
      · exact Or.inr ⟨y, h, rfl⟩
    | eq =>
      rw [hc] at h
      rcases List.mem_cons.1 h with rfl | h
      · exact Or.inr ⟨x, List.mem_cons_self _ _, rfl⟩
      · exact Or.inr ⟨y, List.mem_cons_of_mem _ h, rfl⟩
    | gt =>
      rw [hc] at h
      rcases List.mem_cons.1 h with rfl | h
      · exact Or.inr ⟨y, List.mem_cons_self _ _, rfl⟩
      · rcases ih h with h1 | ⟨z, hz, h2⟩
        · exact Or.inl h1
        · exact Or.inr ⟨z, List.mem_cons_of_mem _ hz, h2⟩

theorem insertEntry_length (e : TimelineEntry) (tl : List TimelineEntry) :
    (insertEntry e tl).length ≤ tl.length + 1 ∧ tl.length ≤ (insertEntry e tl).length ∧
      0 < (insertEntry e tl).length := by
  induction tl with
  | nil => simp [insertEntry]
  | cons x xs ih =>
    unfold insertEntry
    cases RationalTime.compare e.timestamp x.timestamp with
    | lt => simp
    | eq => simp
    | gt => simp only [List.length_cons]; omega

theorem insertEntry_wellFormed (e : TimelineEntry) (tl : List TimelineEntry)
    (he : 0 < e.timestamp.denominator) (h : WellFormed tl) : WellFormed (insertEntry e tl) := by
  have hpos : ∀ y ∈ insertEntry e tl, 0 < y.timestamp.denominator := by
    intro y hy
    rcases mem_insertEntry e y tl hy with h1 | ⟨x, hx, h2⟩
    · rw [h1]; exact he
    · rw [h2]; exact h.1 x hx
  refine ⟨hpos, ?_⟩
  rw [strictlyIncreasing_iff _ hpos]
  have hs := (strictlyIncreasing_iff tl h.1).1 h.2
  have hp := h.1
  clear h hpos
  induction tl with
  | nil => simp [insertEntry]
  | cons x xs ih =>
    have hx : 0 < x.timestamp.denominator := hp x (List.mem_cons_self _ _)
    have hxs := List.pairwise_cons.1 hs
    unfold insertEntry
    cases hc : RationalTime.compare e.timestamp x.timestamp with
    | lt =>
      have hlt := (compare_lt_iff _ _ he hx).1 hc
      refine List.pairwise_cons.2 ⟨?_, hs⟩
      intro y hy
      rcases List.mem_cons.1 hy with rfl | hy
      · exact hlt
      · exact lt_trans hlt (hxs.1 y hy)
    | eq => exact List.pairwise_cons.2 ⟨fun y hy => hxs.1 y hy, hxs.2⟩
    | gt =>
      have hgt := (compare_gt_iff _ _ he hx).1 hc
      refine List.pairwise_cons.2 ⟨?_, ih hxs.2 (fun y hy => hp y (List.mem_cons_of_mem _ hy))⟩
      intro y hy
      rcases mem_insertEntry e y xs hy with h1 | ⟨z, hz, h2⟩
      · rw [h1]; exact hgt
      · rw [h2]; exact hxs.1 z hz

theorem toTimelineEntry_pos (width : Nat) (ve : VoiceEntry) (te : TimelineEntry)
    (h : toTimelineEntry width ve = Except.ok te) : 0 < te.timestamp.denominator := by
  unfold toTimelineEntry at h
  cases ht : RationalTime.ofFraction width ve.timestamp with
  | error e => rw [ht] at h; cases h
  | ok t =>
    rw [ht] at h
    cases hn : toNoteEvents width ve.notes with
    | error e => rw [hn] at h; cases h
    | ok evs =>
      rw [hn] at h
      cases h
      exact (reduce_ok width _ _ t ht).2.2.1

theorem addEntries_spec (width : Nat) (ves : List VoiceEntry) (tl tl2 : List TimelineEntry)
    (hwf : WellFormed tl) (h : addEntries width tl ves = Except.ok tl2) :
    WellFormed tl2 ∧ tl2.length ≤ tl.length + ves.length ∧ tl.length ≤ tl2.length ∧
      (ves ≠ [] → tl2 ≠ []) := by
  induction ves generalizing tl with
  | nil =>
    simp only [addEntries] at h
    cases h
    exact ⟨hwf, by simp, le_refl _, fun hne => absurd rfl hne⟩
  | cons ve rest ih =>
    unfold addEntries at h
    cases hte : toTimelineEntry width ve with
    | error e => rw [hte] at h; cases h
    | ok te =>
      rw [hte] at h
      have hlen := insertEntry_length te tl
      obtain ⟨h1, h2, h3, _⟩ := ih (insertEntry te tl)
        (insertEntry_wellFormed te tl (toTimelineEntry_pos width ve te hte) hwf) h
      refine ⟨h1, by simp only [List.length_cons]; omega, by omega, fun _ hnil => ?_⟩
      rw [hnil] at h3
      simp only [List.length_nil] at h3
      omega

theorem addEntries_total (width : Nat) (ves : List VoiceEntry) (tl : List TimelineEntry)
    (h : ∀ ve ∈ ves, ∃ te, toTimelineEntry width ve = Except.ok te) :
    ∃ tl2, addEntries width tl ves = Except.ok tl2 := by
  induction ves generalizing tl with
  | nil => exact ⟨tl, rfl⟩
  | cons ve rest ih =>
    obtain ⟨te, hte⟩ := h ve (List.mem_cons_self _ _)
    unfold addEntries
    rw [hte]
    exact ih (insertEntry te tl) (fun v hv => h v (List.mem_cons_of_mem _ hv))

theorem wellFormed_nil : WellFormed [] :=
  ⟨fun _ h => absurd h (List.not_mem_nil _), List.Pairwise.nil⟩

/-- A timeline that was built is well formed and no longer than the score. -/
theorem buildTimeline_spec (width : Nat) (s : Score) (tl : List TimelineEntry)
    (h : buildTimeline width s = Except.ok tl) :
    WellFormed tl ∧ tl.length ≤ s.voiceEntries.length ∧ tl ≠ [] := by
  unfold buildTimeline at h
  cases ha : addEntries width [] s.voiceEntries with
  | error e => rw [ha] at h; cases h
  | ok tl2 =>
    rw [ha] at h
    obtain ⟨h1, h2, _, _⟩ := addEntries_spec width _ [] tl2 wellFormed_nil ha
    cases tl2 with
    | nil => cases h
    | cons x xs =>
      cases h
      exact ⟨h1, by simpa using h2, List.cons_ne_nil _ _⟩

/-- C12: for every score with N voice entries, a timeline built from it has
at most N entries and strictly increasing timestamps; the timeline is built
whenever the score has an entry and every fraction of the score reduces, and
a score without entries gives `EmptyScoreError`. -/
theorem timeline_is_strictly_increasing (width : Nat) (s : Score) :
    (∀ tl, buildTimeline width s = Except.ok tl →
      tl.length ≤ s.voiceEntries.length ∧ StrictlyIncreasing tl) ∧
    ((∀ ve ∈ s.voiceEntries, ∃ te, toTimelineEntry width ve = Except.ok te) →
      s.voiceEntries ≠ [] → ∃ tl, buildTimeline width s = Except.ok tl) ∧
    (s.voiceEntries = [] →
      buildTimeline width s = Except.error CoreError.EmptyScoreError) := by
  refine ⟨?_, ?_, ?_⟩
  · intro tl h
    obtain ⟨h1, h2, _⟩ := buildTimeline_spec width s tl h
    exact ⟨h2, h1.2⟩
  · intro hall hne
    obtain ⟨tl2, ha⟩ := addEntries_total width s.voiceEntries [] hall
    obtain ⟨_, _, _, h4⟩ := addEntries_spec width _ [] tl2 wellFormed_nil ha
    unfold buildTimeline
    rw [ha]
    cases tl2 with
    | nil => exact absurd rfl (h4 hne)
    | cons x xs => exact ⟨x :: xs, rfl⟩
  · intro hnil
    unfold buildTimeline
    rw [hnil]
    rfl

theorem timeline_is_strictly_increasing_witness :
    buildTimeline 64 sampleScore = Except.ok sampleTimeline ∧
    sampleTimeline.length ≤ sampleScore.voiceEntries.length ∧
    StrictlyIncreasing sampleTimeline :=
  ⟨by rfl, (timeline_is_strictly_increasing 64 sampleScore).1 sampleTimeline (by rfl)⟩


/-! ## C13: seeking -/

/-- The first element with a property is the one at index `k` when no element
before `k` has the property and the element at `k`, if there is one, has it. -/
theorem find_eq_getElem (p : TimelineEntry → Bool) (tl : List TimelineEntry) (k : Nat)
    (hlt : ∀ i e, i < k → tl[i]? = some e → p e = false)
    (hk : ∀ e, tl[k]? = some e → p e = true) : tl.find? p = tl[k]? := by
  induction tl generalizing k with
  | nil => simp
  | cons x xs ih =>
    cases k with
    | zero =>
      have hx : p x = true := hk x (by simp)
      simp [List.find?, hx]
    | succ k =>
      have hx : p x = false := hlt 0 x (by omega) (by simp)
      have := ih k (fun i e hi he => hlt (i + 1) e (by omega) (by simpa using he))
        (fun e he => hk e (by simpa using he))
      simp [List.find?, hx, this]

/-- Along a well-formed timeline, an entry before an entry that lies before
`T` lies before `T`. -/
theorem before_of_le (tl : List TimelineEntry) (T : RationalTime) (hwf : WellFormed tl)
    (hT : 0 < T.denominator) (i j : Nat) (a b : TimelineEntry) (hij : i ≤ j)
    (ha : tl[i]? = some a) (hb : tl[j]? = some b)
    (hlt : RationalTime.compare b.timestamp T = Ordering.lt) :
    RationalTime.compare a.timestamp T = Ordering.lt := by
  obtain ⟨hi, rfl⟩ := List.getElem?_eq_some_iff.1 ha
  obtain ⟨hj, rfl⟩ := List.getElem?_eq_some_iff.1 hb
  have hpa := hwf.1 _ (List.getElem_mem hi)
  have hpb := hwf.1 _ (List.getElem_mem hj)
  rcases Nat.eq_or_lt_of_le hij with h | h
  · subst h; exact hlt
  · have hs := List.pairwise_iff_getElem.1 ((strictlyIncreasing_iff tl hwf.1).1 hwf.2) i j hi hj h
    rw [compare_lt_iff _ _ hpb hT] at hlt
    rw [compare_lt_iff _ _ hpa hT]
    exact lt_trans hs hlt

theorem lowerBoundLoop_spec (tl : List TimelineEntry) (T : RationalTime) (hwf : WellFormed tl)
    (hT : 0 < T.denominator) (fuel lo hi : Nat) (hfuel : hi - lo ≤ fuel) (hlohi : lo ≤ hi)
    (hhi : hi ≤ tl.length)
    (hbelow : ∀ i e, i < lo → tl[i]? = some e →
      RationalTime.compare e.timestamp T = Ordering.lt)
    (habove : ∀ i e, hi ≤ i → tl[i]? = some e →
      RationalTime.compare e.timestamp T ≠ Ordering.lt) :
    lowerBoundLoop tl T fuel lo hi ≤ tl.length ∧
    (∀ i e, i < lowerBoundLoop tl T fuel lo hi → tl[i]? = some e →
      RationalTime.compare e.timestamp T = Ordering.lt) ∧
    (∀ i e, lowerBoundLoop tl T fuel lo hi ≤ i → tl[i]? = some e →
      RationalTime.compare e.timestamp T ≠ Ordering.lt) := by
  induction fuel generalizing lo hi with
  | zero =>
    have : lo = hi := by omega
    subst this
    exact ⟨hhi, hbelow, habove⟩
  | succ fuel ih =>
    unfold lowerBoundLoop
    by_cases hlt : lo < hi
    · rw [if_pos hlt]
      have hmid : (lo + hi) / 2 < tl.length := by omega
      have hget : tl[(lo + hi) / 2]? = some (tl[(lo + hi) / 2]) := List.getElem?_eq_getElem hmid
      simp only [hget]
      by_cases hc : RationalTime.compare (tl[(lo + hi) / 2]).timestamp T = Ordering.lt
      · rw [if_pos hc]
        exact ih ((lo + hi) / 2 + 1) hi (by omega) (by omega) hhi
          (fun i e hi2 he => before_of_le tl T hwf hT i _ e _ (by omega) he hget hc) habove
      · rw [if_neg hc]
        exact ih lo ((lo + hi) / 2) (by omega) (by omega) (by omega) hbelow
          (fun i e hi2 he hcon => hc (before_of_le tl T hwf hT _ i _ e hi2 hget he hcon))
    · rw [if_neg hlt]
      have : lo = hi := by omega
      subst this
      exact ⟨hhi, hbelow, habove⟩

theorem lowerBound_spec (tl : List TimelineEntry) (T : RationalTime) (hwf : WellFormed tl)
    (hT : 0 < T.denominator) :
    lowerBound tl T ≤ tl.length ∧
    (∀ i e, i < lowerBound tl T → tl[i]? = some e →
      RationalTime.compare e.timestamp T = Ordering.lt) ∧
    (∀ i e, lowerBound tl T ≤ i → tl[i]? = some e →
      RationalTime.compare e.timestamp T ≠ Ordering.lt) := by
  unfold lowerBound
  refine lowerBoundLoop_spec tl T hwf hT tl.length 0 tl.length (by omega) (by omega) (le_refl _)
    (fun i e hi _ => absurd hi (Nat.not_lt_zero i)) (fun i e hi he => ?_)
  rw [List.getElem?_eq_none hi] at he
  cases he

/-- C13: on every timeline (well formed, as every timeline that was built is)
and for every timestamp `T`, `currentEntry()` after `seek(T)` is the first
entry whose timestamp is not before `T`, and none, with the cursor at the
after-last sentinel, when every entry lies before `T`. -/
theorem seek_then_currentEntry (tl : List TimelineEntry) (c : CursorController)
    (T : RationalTime) (hwf : WellFormed tl) (hT : 0 < T.denominator) :
    (c.seek tl T).currentEntry tl =
      tl.find? (fun e => decide (RationalTime.compare e.timestamp T ≠ Ordering.lt)) ∧
    ((∀ e ∈ tl, RationalTime.compare e.timestamp T = Ordering.lt) →
      (c.seek tl T).position = CursorPosition.afterLast ∧
      (c.seek tl T).currentEntry tl = none) := by
  obtain ⟨hle, hbelow, habove⟩ := lowerBound_spec tl T hwf hT
  have hfind : tl.find? (fun e => decide (RationalTime.compare e.timestamp T ≠ Ordering.lt))
      = tl[lowerBound tl T]? :=
    find_eq_getElem _ tl (lowerBound tl T)
      (fun i e hi he => by simpa using hbelow i e hi he)
      (fun e he => by simpa using habove _ e (le_refl _) he)
  by_cases hk : lowerBound tl T < tl.length
  · have hseek : c.seek tl T = { position := CursorPosition.atEntry (lowerBound tl T), visible := true } := by
      unfold CursorController.seek
      simp only [hk, if_true]
    refine ⟨by rw [hseek, hfind]; rfl, fun hall => ?_⟩
    exact absurd (hall _ (List.getElem_mem hk))
      (habove _ _ (le_refl _) (List.getElem?_eq_getElem hk))
  · have hseek : c.seek tl T = { position := CursorPosition.afterLast, visible := false } := by
      unfold CursorController.seek
      simp only [hk, if_false]
    refine ⟨?_, fun _ => by rw [hseek]; exact ⟨rfl, rfl⟩⟩
    rw [hseek, hfind, List.getElem?_eq_none (by omega)]
    rfl

theorem seek_then_currentEntry_witness :
    (CursorController.seek sampleTimeline (CursorController.mk CursorPosition.beforeFirst false)
        { numerator := 1, denominator := 3 }).currentEntry sampleTimeline
      = sampleTimeline.find? (fun e => decide
          (RationalTime.compare e.timestamp { numerator := 1, denominator := 3 } ≠ Ordering.lt)) ∧
    sampleTimeline.find? (fun e => decide
          (RationalTime.compare e.timestamp { numerator := 1, denominator := 3 } ≠ Ordering.lt))
      = sampleTimeline[1]? :=
  ⟨(seek_then_currentEntry sampleTimeline (CursorController.mk CursorPosition.beforeFirst false)
      { numerator := 1, denominator := 3 }
      (buildTimeline_spec 64 sampleScore sampleTimeline (by rfl)).1 (by decide)).1, by decide⟩


/-! ## Stepping the cursor to the end

The Cursor Controller is not among the sources.  On the controller as §4.3
describes it (`reset()` puts the index at before-first, `next()` advances it by
one or to after-last) the sentinel is reached by the call after the last
entry; the sentence of §8 about `length` calls counts one call less.  The two
theorems below say what the controller of §4.3 does; they do not decide
between the two sections. -/

theorem next_position (tl : List TimelineEntry) (c : CursorController) :
    (c.next tl).position =
      match c.position with
      | CursorPosition.beforeFirst =>
        if 0 < tl.length then CursorPosition.atEntry 0 else CursorPosition.afterLast
      | CursorPosition.atEntry i =>
        if i + 1 < tl.length then CursorPosition.atEntry (i + 1) else CursorPosition.afterLast
      | CursorPosition.afterLast => CursorPosition.afterLast := by
  obtain ⟨p, v⟩ := c
  cases p with
  | beforeFirst => unfold CursorController.next; simp only; split <;> rfl
  | atEntry i => unfold CursorController.next; simp only; split <;> rfl
  | afterLast => rfl

/-- On the controller of §4.3 and the timeline of two entries, two calls of
`next()` after `reset()` leave the cursor on the second entry, which
`currentEntry()` returns; the after-last sentinel is reached by the third
call.  On the empty timeline no call at all leaves the cursor at the
before-first sentinel. -/
theorem next_length_times_stops_on_last_entry :
    (Nat.iterate (CursorController.next sampleTimeline) sampleTimeline.length
      (CursorController.reset (CursorController.mk CursorPosition.afterLast true))).position
      = CursorPosition.atEntry 1 ∧
    (Nat.iterate (CursorController.next sampleTimeline) sampleTimeline.length
      (CursorController.reset (CursorController.mk CursorPosition.afterLast true))).currentEntry
        sampleTimeline = sampleTimeline[1]? ∧
    (Nat.iterate (CursorController.next sampleTimeline) (sampleTimeline.length + 1)
      (CursorController.reset (CursorController.mk CursorPosition.afterLast true))).position
      = CursorPosition.afterLast ∧
    (Nat.iterate (CursorController.next []) ([] : List TimelineEntry).length
      (CursorController.reset (CursorController.mk CursorPosition.afterLast true))).position
      = CursorPosition.beforeFirst := by
  decide

/-- On the controller of §4.3 and every timeline of length L, after `reset()`
the cursor is at the before-first sentinel, after k calls of `next()` with
1 ≤ k ≤ L it is on the entry of index k - 1, and after more than L calls it is
at the after-last sentinel: the sentinel is reached by call L + 1 and no
further call moves the position. -/
theorem next_reaches_after_last_at_length_plus_one (tl : List TimelineEntry)
    (c : CursorController) (k : Nat) :
    (k = 0 →
      (Nat.iterate (CursorController.next tl) k c.reset).position
        = CursorPosition.beforeFirst) ∧
    (0 < k → k ≤ tl.length →
      (Nat.iterate (CursorController.next tl) k c.reset).position
        = CursorPosition.atEntry (k - 1)) ∧
    (tl.length < k →
      (Nat.iterate (CursorController.next tl) k c.reset).position
        = CursorPosition.afterLast) := by
  induction k with
  | zero =>
    exact ⟨fun _ => rfl, fun h => absurd h (Nat.lt_irrefl 0), fun h => absurd h (Nat.not_lt_zero _)⟩
  | succ k ih =>
    rw [Function.iterate_succ_apply']
    obtain ⟨h0, h1, h2⟩ := ih
    refine ⟨fun h => absurd h (Nat.succ_ne_zero k), fun _ hk => ?_, fun hk => ?_⟩
    · rw [next_position]
      rcases Nat.eq_zero_or_pos k with hz | hp
      · rw [h0 hz]
        simp only [if_pos (show 0 < tl.length by omega)]
        subst hz
        rfl
      · rw [h1 hp (by omega)]
        simp only [if_pos (show k - 1 + 1 < tl.length by omega)]
        congr 1
        omega
    · rw [next_position]
      rcases Nat.eq_zero_or_pos k with hz | hp
      · rw [h0 hz]
        simp only [if_neg (show ¬ 0 < tl.length by omega)]
      · by_cases hle : k ≤ tl.length
        · rw [h1 hp hle]
          simp only [if_neg (show ¬ k - 1 + 1 < tl.length by omega)]
        · rw [h2 (by omega)]

theorem next_reaches_after_last_at_length_plus_one_witness :
    (Nat.iterate (CursorController.next sampleTimeline) 2
      (CursorController.reset (CursorController.mk CursorPosition.afterLast true))).position
      = CursorPosition.atEntry (2 - 1) ∧
    (Nat.iterate (CursorController.next sampleTimeline) 3
      (CursorController.reset (CursorController.mk CursorPosition.afterLast true))).position
      = CursorPosition.afterLast :=
  ⟨(next_reaches_after_last_at_length_plus_one sampleTimeline _ 2).2.1 (by decide) (by decide),
   (next_reaches_after_last_at_length_plus_one sampleTimeline _ 3).2.2 (by decide)⟩


/-! ## C11: the scheduling tick -/

/-- The walk stops at the end of the timeline or in front of an entry that
starts at the horizon or later: a walk from where it stopped, with the same
horizon, passes nothing and gives no event. -/
theorem walk_stops (clock : PlaybackClock) (t t2 horizon : ℚ) (rest : List TimelineEntry)
    (i : Nat) :
    i ≤ (Scheduler.walk clock t horizon rest i).1 ∧
    Scheduler.walk clock t2 horizon
        (rest.drop ((Scheduler.walk clock t horizon rest i).1 - i))
        (Scheduler.walk clock t horizon rest i).1
      = ((Scheduler.walk clock t horizon rest i).1, []) := by
  induction rest generalizing i with
  | nil => simp [Scheduler.walk]
  | cons e rest ih =>
    by_cases hlt : clock.toReal e.timestamp < horizon
    · obtain ⟨h1, h2⟩ := ih (i + 1)
      have hw : (Scheduler.walk clock t horizon (e :: rest) i).1
          = (Scheduler.walk clock t horizon rest (i + 1)).1 := by
        simp only [Scheduler.walk, if_pos hlt]
      rw [hw]
      refine ⟨by omega, ?_⟩
      have hd : (Scheduler.walk clock t horizon rest (i + 1)).1 - i
          = ((Scheduler.walk clock t horizon rest (i + 1)).1 - (i + 1)) + 1 := by omega
      rw [hd, List.drop_succ_cons]
      exact h2
    · have hw : (Scheduler.walk clock t horizon (e :: rest) i).1 = i := by
        simp only [Scheduler.walk, if_neg hlt]
      rw [hw]
      refine ⟨le_refl _, ?_⟩
      simp only [Nat.sub_self, List.drop_zero, Scheduler.walk, if_neg hlt]

/-- C11: for every timeline, clock, look-ahead window, scheduler state and
value `now` of the audio clock, a second scheduling tick with the same `now`
submits no audio event and leaves `lastScheduledIndex` and `lastScheduledTime`
as the first tick left them. -/
theorem scheduling_tick_is_idempotent (tl : List TimelineEntry) (clock : PlaybackClock)
    (W : ℚ) (s : Scheduler) (now : ℚ) :
    Scheduler.tick tl clock W (Scheduler.tick tl clock W s now).1 now
      = ((Scheduler.tick tl clock W s now).1, []) := by
  obtain ⟨h1, h2⟩ := walk_stops clock s.lastScheduledTime (max s.lastScheduledTime (now + W))
    (now + W) (tl.drop s.lastScheduledIndex) s.lastScheduledIndex
  rw [List.drop_drop] at h2
  have hidx : s.lastScheduledIndex +
      ((Scheduler.walk clock s.lastScheduledTime (now + W) (tl.drop s.lastScheduledIndex)
        s.lastScheduledIndex).1 - s.lastScheduledIndex)
      = (Scheduler.walk clock s.lastScheduledTime (now + W) (tl.drop s.lastScheduledIndex)
        s.lastScheduledIndex).1 := by omega
  rw [hidx] at h2
  simp only [Scheduler.tick, h2, max_self, max_assoc]

/-- The first tick of the scenario of §8 at `now = 0` with a window of a
quarter of a second submits the note at the start of the timeline, and the
second tick with the same `now` submits nothing. -/
theorem scheduling_tick_is_idempotent_witness :
    (Scheduler.tick sampleTimeline sampleClock (1 / 4)
      { lastScheduledIndex := 0, lastScheduledTime := 0 } 0).2.length = 1 ∧
    Scheduler.tick sampleTimeline sampleClock (1 / 4)
      (Scheduler.tick sampleTimeline sampleClock (1 / 4)
        { lastScheduledIndex := 0, lastScheduledTime := 0 } 0).1 0
      = ((Scheduler.tick sampleTimeline sampleClock (1 / 4)
        { lastScheduledIndex := 0, lastScheduledTime := 0 } 0).1, []) :=
  ⟨by
    simp only [Scheduler.tick, sampleTimeline, List.drop_zero, Scheduler.walk, sampleClock,
      PlaybackClock.toReal, RationalTime.toRat, eventsOfEntry]
    norm_num,
   scheduling_tick_is_idempotent sampleTimeline sampleClock (1 / 4) _ 0⟩

/-! ## C16: commands that a state does not allow -/

/-- A command that the state allows changes the state of the transport. -/
theorem allowed_command_changes_state (t : Transport) (cmd : Command)
    (h : t.allowed cmd = true) :
    ∃ t2, t.handle cmd = Except.ok t2 ∧ t2.state ≠ t.state := by
  obtain ⟨tl, clock, W, st, so, cur, sch⟩ := t
  cases cmd <;> cases st <;> simp [Transport.allowed] at h
  · cases tl with
    | nil => simp at h
    | cons x xs => exact ⟨_, rfl, by simp⟩
  all_goals exact ⟨_, rfl, by simp⟩

/-- C16: in every transport state, a command that the state does not allow
(`pause` while Stopped, `play` on an empty timeline, ...) returns without an
error and leaves the whole transport as it was: its state, the cursor and the
scheduling bookkeeping. -/
theorem invalid_command_is_a_no_op (t : Transport) (cmd : Command)
    (h : t.allowed cmd = false) : t.handle cmd = Except.ok t := by
  obtain ⟨tl, clock, W, st, so, cur, sch⟩ := t
  cases cmd <;> cases st <;> simp [Transport.allowed] at h <;> try rfl
  cases tl with
  | nil => rfl
  | cons x xs => simp at h

theorem invalid_command_is_a_no_op_witness :
    emptyTransport.handle Command.pause = Except.ok emptyTransport ∧
    emptyTransport.handle Command.play = Except.ok emptyTransport :=
  ⟨invalid_command_is_a_no_op emptyTransport Command.pause rfl,
   invalid_command_is_a_no_op emptyTransport Command.play rfl⟩


/-! ## The slab under allocation and release -/

theorem initialHeap_length : initialHeap.length = 132 := by
  simp [initialHeap]

theorem slabInv_initial (mem : Mem) : SlabInv (Glue.initial mem) [] := by
  refine ⟨[], ?_, List.nodup_nil, by simp, by simp, List.nodup_nil, ?_, fun _ _ => rfl⟩
  · exact FreeChain.done
  · exact le_of_eq initialHeap_length.symm

/-- What one allocation does to a slab that satisfies the invariant. -/
theorem slabInv_add (obj : JsVal) (g : Glue) (live : List Nat) (hinv : SlabInv g live) :
    132 ≤ (addHeapObject obj g).1 ∧ (addHeapObject obj g).1 ∉ live ∧
    getObject (addHeapObject obj g).1 (addHeapObject obj g).2 = obj ∧
    (∀ k, k ≠ (addHeapObject obj g).1 →
      (addHeapObject obj g).2.heap[k]? = g.heap[k]?) ∧
    SlabInv (addHeapObject obj g).2 ((addHeapObject obj g).1 :: live) := by
  obtain ⟨fl, hc, hnd, hfl, hlive, hlnd, hlen, hres⟩ := hinv
  obtain ⟨h1, hchain, hlen2, hlt, hnotin, hpres⟩ := addHeapObject_chain obj g fl hc hnd
  have hge : 132 ≤ (addHeapObject obj g).1 := by
    rw [h1]
    cases fl with
    | nil => simpa [freshHandles] using hlen
    | cons i fl => simpa [freshHandles] using hfl i (List.mem_cons_self _ _)
  have hnl : (addHeapObject obj g).1 ∉ live := by
    intro hm
    obtain ⟨_, hk2, hk3⟩ := hlive _ hm
    rw [h1] at hk2 hk3
    cases fl with
    | nil => simp [freshHandles] at hk2
    | cons i fl => simp [freshHandles] at hk3
  have hlen3 : g.heap.length ≤ (addHeapObject obj g).2.heap.length := by
    rw [hlen2]; split <;> omega
  refine ⟨hge, hnl, getObject_addHeapObject obj g, hpres, fl.tail, hchain,
    hnd.sublist (List.tail_sublist fl), fun i hi => hfl i (List.mem_of_mem_tail hi), ?_,
    List.nodup_cons.2 ⟨hnl, hlnd⟩, by omega, fun k hk => ?_⟩
  · intro k hk
    rcases List.mem_cons.1 hk with rfl | hk
    · exact ⟨hge, hlt, hnotin⟩
    · obtain ⟨a, b, c⟩ := hlive k hk
      exact ⟨a, by omega, fun hm => c (List.mem_of_mem_tail hm)⟩
  · rw [hpres k (by omega)]
    exact hres k hk

/-- Releasing a reserved index does nothing. -/
theorem dropObject_reserved (idx : Nat) (g : Glue) (h : idx < 132) : dropObject idx g = g := by
  simp [dropObject, h]

/-- What the release of a handle in use does to a slab that satisfies the
invariant. -/
theorem slabInv_drop (idx : Nat) (g : Glue) (live : List Nat) (hinv : SlabInv g live)
    (hin : idx < 132 ∨ idx ∈ live) : SlabInv (dropObject idx g) (live.erase idx) := by
  obtain ⟨fl, hc, hnd, hfl, hlive, hlnd, hlen, hres⟩ := hinv
  by_cases hlt : idx < 132
  · rw [dropObject_reserved idx g hlt]
    refine ⟨fl, hc, hnd, hfl, fun k hk => hlive k (List.mem_of_mem_erase hk),
      hlnd.erase idx, hlen, hres⟩
  · have hm : idx ∈ live := hin.resolve_left hlt
    obtain ⟨hge, hidx, hnfl⟩ := hlive idx hm
    have hheap : (dropObject idx g).heap = g.heap.set idx (JsVal.num g.heap_next) := by
      simp [dropObject, hlt, jsSet, hidx]
    have hnext : (dropObject idx g).heap_next = idx := by
      simp [dropObject, hlt]
    refine ⟨idx :: fl, ?_, List.nodup_cons.2 ⟨hnfl, hnd⟩, ?_, ?_, hlnd.erase idx, ?_, ?_⟩
    · rw [hheap, hnext]
      refine FreeChain.step idx g.heap_next fl (by simpa using hidx) ?_ (hc.set idx _ hnfl)
      simp [List.getElem?_set_self hidx]
    · intro i hi
      rcases List.mem_cons.1 hi with rfl | hi
      · exact hge
      · exact hfl i hi
    · intro k hk
      obtain ⟨a, b, c⟩ := hlive k (List.mem_of_mem_erase hk)
      refine ⟨a, by rw [hheap]; simpa using b, ?_⟩
      intro hmem
      rcases List.mem_cons.1 hmem with rfl | hmem
      · exact (List.Nodup.not_mem_erase hlnd) hk
      · exact c hmem
    · rw [hheap]; simpa using hlen
    · intro k hk
      rw [hheap, List.getElem?_set_ne (by omega)]
      exact hres k hk

/-- Every state reached by calls in which each handle is released at most
once for each time it was handed out satisfies the invariant. -/
theorem slabInv_run (calls : List SlabCall) : ∀ (s : Glue × List Nat), SlabInv s.1 s.2 →
    disciplined s calls = true → SlabInv (calls.foldl SlabCall.run s).1
      (calls.foldl SlabCall.run s).2 := by
  induction calls with
  | nil => intro s hs _; exact hs
  | cons c cs ih =>
    intro s hs hd
    simp only [disciplined, Bool.and_eq_true] at hd
    refine ih (c.run s) ?_ hd.2
    cases c with
    | add obj => exact (slabInv_add obj s.1 s.2 hs).2.2.2.2
    | drop idx =>
      have := hd.1
      simp only [SlabCall.inOrder, Bool.or_eq_true, decide_eq_true_eq] at this
      exact slabInv_drop idx s.1 s.2 hs this
    | take idx =>
      have := hd.1
      simp only [SlabCall.inOrder, Bool.or_eq_true, decide_eq_true_eq] at this
      exact slabInv_drop idx s.1 s.2 hs this

theorem slabInv_slabAfter (mem : Mem) (calls : List SlabCall)
    (hd : disciplined (Glue.initial mem, []) calls = true) :
    SlabInv (slabAfter mem calls).1 (slabAfter mem calls).2 :=
  slabInv_run calls (Glue.initial mem, []) (slabInv_initial mem) hd

theorem getObject_of_getElem (k : Nat) (g1 g2 : Glue) (h : g1.heap[k]? = g2.heap[k]?) :
    getObject k g1 = getObject k g2 := by
  unfold getObject
  rw [List.getD_eq_getElem?_getD, List.getD_eq_getElem?_getD, h]

/-! ## C22: the slab as a finite map -/

/-- C22: in every state reached from the initial state by calls of
`addHeapObject`, `dropObject` and `takeObject` in which each handle is released
at most once for each time it was handed out, `addHeapObject(obj)` returns an
index that is at least 132 and not in use, `getObject` of that index is then
`obj`, and `getObject` of every handle in use is what it was. -/
theorem slab_is_a_finite_map (mem : Mem) (calls : List SlabCall) (obj : JsVal)
    (hd : disciplined (Glue.initial mem, []) calls = true) :
    132 ≤ (addHeapObject obj (slabAfter mem calls).1).1 ∧
    (addHeapObject obj (slabAfter mem calls).1).1 ∉ (slabAfter mem calls).2 ∧
    getObject (addHeapObject obj (slabAfter mem calls).1).1
      (addHeapObject obj (slabAfter mem calls).1).2 = obj ∧
    ∀ k ∈ (slabAfter mem calls).2,
      getObject k (addHeapObject obj (slabAfter mem calls).1).2
        = getObject k (slabAfter mem calls).1 := by
  obtain ⟨h1, h2, h3, h4, _⟩ := slabInv_add obj _ _ (slabInv_slabAfter mem calls hd)
  refine ⟨h1, h2, h3, fun k hk => getObject_of_getElem k _ _ (h4 k ?_)⟩
  rintro rfl
  exact h2 hk

set_option maxRecDepth 8000 in
theorem slab_is_a_finite_map_witness :
    (slabAfter zeroMem [SlabCall.add (JsVal.obj 7), SlabCall.add (JsVal.obj 8),
      SlabCall.take 132]).2 = [133] ∧
    (addHeapObject (JsVal.obj 9) (slabAfter zeroMem [SlabCall.add (JsVal.obj 7),
      SlabCall.add (JsVal.obj 8), SlabCall.take 132]).1).1 = 132 ∧
    getObject 133 (addHeapObject (JsVal.obj 9) (slabAfter zeroMem [SlabCall.add (JsVal.obj 7),
      SlabCall.add (JsVal.obj 8), SlabCall.take 132]).1).2 = JsVal.obj 8 ∧
    getObject (addHeapObject (JsVal.obj 9) (slabAfter zeroMem [SlabCall.add (JsVal.obj 7),
        SlabCall.add (JsVal.obj 8), SlabCall.take 132]).1).1
      (addHeapObject (JsVal.obj 9) (slabAfter zeroMem [SlabCall.add (JsVal.obj 7),
        SlabCall.add (JsVal.obj 8), SlabCall.take 132]).1).2 = JsVal.obj 9 :=
  ⟨by decide, by decide, by decide,
   (slab_is_a_finite_map zeroMem [SlabCall.add (JsVal.obj 7), SlabCall.add (JsVal.obj 8),
      SlabCall.take 132] (JsVal.obj 9) (by decide)).2.2.1⟩

/-! ## C23: the reserved handles -/

/-- C23: in every state reached from the initial state by calls in which each
handle is released at most once for each time it was handed out, the handles
128 to 131 refer to `undefined`, `null`, `true` and `false`; `dropObject` and
`takeObject` of an index below 132 leave the state, with the array `heap` and
`heap_next`, as it is; and `addHeapObject` returns an index that is at least
132 and leaves every slot below 132 as it is. -/
theorem reserved_handles_are_permanent (mem : Mem) (calls : List SlabCall)
    (hd : disciplined (Glue.initial mem, []) calls = true) :
    getObject 128 (slabAfter mem calls).1 = JsVal.undefined ∧
    getObject 129 (slabAfter mem calls).1 = JsVal.null ∧
    getObject 130 (slabAfter mem calls).1 = JsVal.bool true ∧
    getObject 131 (slabAfter mem calls).1 = JsVal.bool false ∧
    (∀ i, i < 132 → dropObject i (slabAfter mem calls).1 = (slabAfter mem calls).1 ∧
      (takeObject i (slabAfter mem calls).1).2 = (slabAfter mem calls).1) ∧
    ∀ obj, 132 ≤ (addHeapObject obj (slabAfter mem calls).1).1 ∧
      ∀ k, k < 132 → (addHeapObject obj (slabAfter mem calls).1).2.heap[k]?
        = (slabAfter mem calls).1.heap[k]? := by
  have hinv := slabInv_slabAfter mem calls hd
  obtain ⟨fl, _, _, _, _, _, _, hres⟩ := hinv
  have hget : ∀ k, k < 132 → getObject k (slabAfter mem calls).1
      = initialHeap.getD k JsVal.undefined := by
    intro k hk
    unfold getObject
    rw [List.getD_eq_getElem?_getD, List.getD_eq_getElem?_getD, hres k hk]
  refine ⟨?_, ?_, ?_, ?_, fun i hi => ⟨dropObject_reserved i _ hi, dropObject_reserved i _ hi⟩,
    fun obj => ?_⟩
  · rw [hget 128 (by omega)]; decide
  · rw [hget 129 (by omega)]; decide
  · rw [hget 130 (by omega)]; decide
  · rw [hget 131 (by omega)]; decide
  · obtain ⟨h1, _, _, h4, _⟩ := slabInv_add obj _ _ (slabInv_slabAfter mem calls hd)
    exact ⟨h1, fun k hk => h4 k (by omega)⟩

set_option maxRecDepth 8000 in
theorem reserved_handles_are_permanent_witness :
    getObject 130 (slabAfter zeroMem [SlabCall.add (JsVal.obj 7), SlabCall.drop 130,
      SlabCall.take 132, SlabCall.add (JsVal.obj 8)]).1 = JsVal.bool true ∧
    (slabAfter zeroMem [SlabCall.add (JsVal.obj 7), SlabCall.drop 130,
      SlabCall.take 132, SlabCall.add (JsVal.obj 8)]).1.heap_next = 133 :=
  ⟨(reserved_handles_are_permanent zeroMem [SlabCall.add (JsVal.obj 7), SlabCall.drop 130,
      SlabCall.take 132, SlabCall.add (JsVal.obj 8)] (by decide)).2.2.1, by decide⟩


/-! ## C26: re-entrancy of `makeMutClosure` -/

theorem Closure.run_cons (c : Closure) (ev : ClosureEvent) (evs : List ClosureEvent) :
    c.run (ev :: evs) = (c.step ev).run evs := rfl

theorem Closure.step_isMut (c : Closure) (ev : ClosureEvent) : (c.step ev).isMut = c.isMut := by
  cases ev with
  | enter => rfl
  | leave t =>
    simp only [Closure.step, Closure.leave]
    split
    · rfl
    · split <;> rfl
  | drop => rfl
  | collect =>
    simp only [Closure.step, Closure.collect]
    split <;> rfl

theorem Closure.run_isMut (evs : List ClosureEvent) : ∀ c : Closure,
    (c.run evs).isMut = c.isMut := by
  induction evs with
  | nil => intro c; rfl
  | cons ev evs ih => intro c; rw [Closure.run_cons, ih, Closure.step_isMut]

/-- While an invocation of a closure of `makeMutClosure` is in progress,
`state.a` is 0 and so is the saved `a` of every invocation but the outermost. -/
theorem Closure.step_reentrancy (c : Closure) (ev : ClosureEvent) (hm : c.isMut = true)
    (ha : c.frames ≠ [] → c.state.a = 0) (hf : ∀ x ∈ c.frames.dropLast, x = 0) :
    ((c.step ev).frames ≠ [] → (c.step ev).state.a = 0) ∧
    ∀ x ∈ (c.step ev).frames.dropLast, x = 0 := by
  cases ev with
  | enter =>
    refine ⟨fun _ => by simp [Closure.step, Closure.enter, hm], ?_⟩
    intro x hx
    simp only [Closure.step, Closure.enter] at hx
    cases hfr : c.frames with
    | nil => rw [hfr] at hx; simp at hx
    | cons y ys =>
      rw [hfr, List.dropLast_cons₂] at hx
      rcases List.mem_cons.1 hx with rfl | hx
      · exact ha (by rw [hfr]; exact List.cons_ne_nil _ _)
      · exact hf x (by rw [hfr]; exact hx)
  | leave t =>
    cases hfr : c.frames with
    | nil =>
      have : c.step (ClosureEvent.leave t) = c := by simp [Closure.step, Closure.leave, hfr]
      rw [this]
      exact ⟨ha, hf⟩
    | cons a rest =>
      have ha0 : c.state.a = 0 := ha (by rw [hfr]; exact List.cons_ne_nil _ _)
      have hrest : ∀ x ∈ rest.dropLast, x = 0 := by
        intro x hx
        cases rest with
        | nil => simp at hx
        | cons y ys => exact hf x (by rw [hfr, List.dropLast_cons₂]; exact List.mem_cons_of_mem _ hx)
      have hae : rest ≠ [] → a = 0 := by
        intro hne
        cases rest with
        | nil => exact absurd rfl hne
        | cons y ys => exact hf a (by rw [hfr, List.dropLast_cons₂]; exact List.mem_cons_self _ _)
      by_cases hz : c.state.cnt - 1 = 0
      · have : c.step (ClosureEvent.leave t) =
            { c with
              state := { c.state with cnt := 0, a := if c.isMut then c.state.a else 0 }
              frames := rest
              destroyed := c.destroyed ++
                [{ a := if c.isMut then a else c.state.a, b := c.state.b, byFinally := true,
                   inProgress := rest.length, cnt := 0 }]
              registered := false } := by
          simp [Closure.step, Closure.leave, hfr, hz]
        rw [this]
        exact ⟨fun _ => by simp [hm, ha0], hrest⟩
      · have : c.step (ClosureEvent.leave t) =
            { c with
              state := { c.state with cnt := c.state.cnt - 1,
                                      a := if c.isMut then a else c.state.a }
              frames := rest } := by
          simp [Closure.step, Closure.leave, hfr, hz]
        rw [this]
        exact ⟨fun hne => by simpa [hm] using hae hne, hrest⟩
  | drop =>
    refine ⟨fun hne => ?_, hf⟩
    have := ha hne
    simp only [Closure.step, Closure.drop]
    split
    · rfl
    · exact this
  | collect =>
    simp only [Closure.step, Closure.collect]
    split
    · exact ⟨ha, hf⟩
    · exact ⟨ha, hf⟩

theorem Closure.run_reentrancy (evs : List ClosureEvent) : ∀ c : Closure, c.isMut = true →
    (c.frames ≠ [] → c.state.a = 0) → (∀ x ∈ c.frames.dropLast, x = 0) →
    ((c.run evs).frames ≠ [] → (c.run evs).state.a = 0) := by
  induction evs with
  | nil => intro c _ ha _; exact ha
  | cons ev evs ih =>
    intro c hm ha hf
    rw [Closure.run_cons]
    obtain ⟨h1, h2⟩ := Closure.step_reentrancy c ev hm ha hf
    exact ih (c.step ev) (by rw [Closure.step_isMut]; exact hm) h1 h2

/-- The inside of an invocation leaves the invocations in progress as they
were at its start. -/
theorem Closure.run_balanced (evs : List ClosureEvent) : ∀ (d : Nat) (c : Closure),
    balanced d evs = true → d ≤ c.frames.length → (c.run evs).frames = c.frames.drop d := by
  induction evs with
  | nil =>
    intro d c hb _
    have : d = 0 := by simpa [balanced] using hb
    subst this
    rfl
  | cons ev evs ih =>
    intro d c hb hd
    rw [Closure.run_cons]
    cases ev with
    | enter =>
      rw [ih (d + 1) _ (by simpa [balanced] using hb)
        (by simp only [Closure.step, Closure.enter, List.length_cons]; omega)]
      rfl
    | leave t =>
      cases d with
      | zero => simp [balanced] at hb
      | succ d =>
        cases hfr : c.frames with
        | nil => rw [hfr] at hd; simp at hd
        | cons a rest =>
          have hfs : (c.step (ClosureEvent.leave t)).frames = rest := by
            simp only [Closure.step, Closure.leave, hfr]
            split <;> rfl
          rw [ih d _ (by simpa [balanced] using hb)
            (by rw [hfs]; rw [hfr] at hd; simpa using hd), hfs]
          rfl
    | drop =>
      rw [ih d _ (by simpa [balanced] using hb) (by simpa [Closure.step, Closure.drop] using hd)]
      rfl
    | collect =>
      have hfs : (c.step ClosureEvent.collect).frames = c.frames := by
        simp only [Closure.step, Closure.collect]
        split <;> rfl
      rw [ih d _ (by simpa [balanced] using hb) (by rw [hfs]; exact hd), hfs]

/-- C26: for a closure of `makeMutClosure` and every sequence of events,
while an invocation is in progress `state.a` is 0, so an invocation that
starts then passes 0 to `f` as its first argument; and an invocation (its
start, the events inside it, its end by return or by throw) whose end does not
bring the count to zero leaves `state.a` as it was before the invocation. -/
theorem mut_closure_guards_reentrancy (h : Host) (arg0 arg1 : Int) (dtor : Nat)
    (evs body : List ClosureEvent) (threw : Bool) :
    (((makeMutClosure h arg0 arg1 dtor).run evs).frames ≠ [] →
      ((makeMutClosure h arg0 arg1 dtor).run evs).state.a = 0 ∧
      (((makeMutClosure h arg0 arg1 dtor).run evs).step ClosureEvent.enter).passed
        = ((makeMutClosure h arg0 arg1 dtor).run evs).passed ++ [0]) ∧
    (balanced 0 body = true →
      ((((makeMutClosure h arg0 arg1 dtor).run evs).step ClosureEvent.enter).run
        body).state.cnt - 1 ≠ 0 →
      (((((makeMutClosure h arg0 arg1 dtor).run evs).step ClosureEvent.enter).run body).step
        (ClosureEvent.leave threw)).state.a
        = ((makeMutClosure h arg0 arg1 dtor).run evs).state.a) := by
  have hmut : ((makeMutClosure h arg0 arg1 dtor).run evs).isMut = true := by
    rw [Closure.run_isMut]; rfl
  have hzero := Closure.run_reentrancy evs (makeMutClosure h arg0 arg1 dtor) rfl
    (fun hne => absurd rfl hne) (fun x hx => by simp [makeMutClosure, Closure.make] at hx)
  generalize (makeMutClosure h arg0 arg1 dtor).run evs = c at hmut hzero
  refine ⟨fun hne => ⟨hzero hne, ?_⟩, fun hb hcnt => ?_⟩
  · simp only [Closure.step, Closure.enter, hzero hne]
  · have hfr := Closure.run_balanced body 0 (c.step ClosureEvent.enter) hb (Nat.zero_le _)
    have hm2 : ((c.step ClosureEvent.enter).run body).isMut = true := by
      rw [Closure.run_isMut, Closure.step_isMut]; exact hmut
    generalize (c.step ClosureEvent.enter).run body = c1 at hfr hm2 hcnt
    have hfr2 : c1.frames = c.state.a :: c.frames := by rw [hfr]; rfl
    simp [Closure.step, Closure.leave, hfr2, hcnt, hm2]

theorem mut_closure_guards_reentrancy_witness :
    ((makeMutClosure freshHost 7 8 1656).run [ClosureEvent.enter]).state.a = 0 ∧
    ((makeMutClosure freshHost 7 8 1656).run
      [ClosureEvent.enter, ClosureEvent.enter]).passed = [7, 0] ∧
    ((makeMutClosure freshHost 7 8 1656).run
      [ClosureEvent.enter, ClosureEvent.enter, ClosureEvent.leave true,
       ClosureEvent.leave false]).state.a = 7 :=
  ⟨((mut_closure_guards_reentrancy freshHost 7 8 1656 [ClosureEvent.enter] [] false).1
      (by decide)).1,
   by decide,
   (mut_closure_guards_reentrancy freshHost 7 8 1656 []
      [ClosureEvent.enter, ClosureEvent.leave true] false).2 (by decide) (by decide)⟩


/-! ## C25: an array through the linear memory and back -/

/-- The length of the slab after the values `xs` are put on it: the free
slots are used first, then the array grows. -/
theorem addAll_length (xs : List JsVal) : ∀ (g : Glue) (fl : List Nat),
    FreeChain g.heap g.heap_next fl → fl.Nodup →
    (addAll xs g).2.heap.length = g.heap.length + (xs.length - fl.length) := by
  induction xs with
  | nil => intro g fl _ _; simp [addAll]
  | cons x xs ih =>
    intro g fl hc hnd
    obtain ⟨_, hchain, hlen, _, _, _⟩ := addHeapObject_chain x g fl hc hnd
    have := ih (addHeapObject x g).2 fl.tail hchain (hnd.sublist (List.tail_sublist fl))
    simp only [addAll, this, hlen, List.length_cons]
    cases fl with
    | nil => simp; omega
    | cons i fl => simp

/-- The handles handed out next: the first free slots, then the slots past
the end of the array. -/
theorem mem_freshHandles (n : Nat) : ∀ (fl : List Nat) (len k : Nat),
    k ∈ freshHandles fl len n ↔ (k ∈ fl.take n ∨ (len ≤ k ∧ k < len + (n - fl.length))) := by
  induction n with
  | zero => intro fl len k; cases fl <;> simp [freshHandles]
  | succ n ih =>
    intro fl len k
    cases fl with
    | nil =>
      simp only [freshHandles, List.mem_cons, ih, List.take_nil, List.not_mem_nil, false_or,
        List.length_nil, Nat.sub_zero]
      omega
    | cons i fl =>
      simp only [freshHandles, List.mem_cons, ih, List.take_succ_cons, List.length_cons,
        Nat.add_sub_add_right]
      tauto

/-- Releasing handles in use one after the other: the values read are those
of the handles, the handles go to the front of the free list, and no other
slot changes. -/
theorem getArrayLoop_spec (hs : List Nat) : ∀ (g : Glue) (fl : List Nat),
    FreeChain g.heap g.heap_next fl → hs.Nodup →
    (∀ k ∈ hs, 132 ≤ k ∧ k < g.heap.length ∧ k ∉ fl) →
    (getArrayLoop hs g).1 = hs.map (fun k => getObject k g) ∧
    FreeChain (getArrayLoop hs g).2.heap (getArrayLoop hs g).2.heap_next (hs.reverse ++ fl) ∧
    (getArrayLoop hs g).2.heap.length = g.heap.length ∧
    (∀ k, k ∉ hs → (getArrayLoop hs g).2.heap[k]? = g.heap[k]?) := by
  induction hs with
  | nil => intro g fl hc _ _; exact ⟨rfl, by simpa [getArrayLoop] using hc, rfl, fun _ _ => rfl⟩
  | cons hd rest ih =>
    intro g fl hc hnd hlive
    obtain ⟨hge, hlt, hnfl⟩ := hlive hd (List.mem_cons_self _ _)
    have hheap : (dropObject hd g).heap = g.heap.set hd (JsVal.num g.heap_next) := by
      simp [dropObject, show ¬ hd < 132 by omega, jsSet, hlt]
    have hnext : (dropObject hd g).heap_next = hd := by
      simp [dropObject, show ¬ hd < 132 by omega]
    have hc2 : FreeChain (dropObject hd g).heap (dropObject hd g).heap_next (hd :: fl) := by
      rw [hheap, hnext]
      refine FreeChain.step hd g.heap_next fl (by simpa using hlt) ?_ (hc.set hd _ hnfl)
      simp [List.getElem?_set_self hlt]
    have hnd2 := List.nodup_cons.1 hnd
    obtain ⟨i1, i2, i3, i4⟩ := ih (dropObject hd g) (hd :: fl) hc2 hnd2.2 (by
      intro k hk
      obtain ⟨a, b, c⟩ := hlive k (List.mem_cons_of_mem _ hk)
      refine ⟨a, by rw [hheap]; simpa using b, ?_⟩
      intro hm
      rcases List.mem_cons.1 hm with rfl | hm
      · exact hnd2.1 hk
      · exact c hm)
    have hother : ∀ k, k ≠ hd → (dropObject hd g).heap[k]? = g.heap[k]? := by
      intro k hk
      rw [hheap, List.getElem?_set_ne (Ne.symm hk)]
    refine ⟨?_, ?_, ?_, ?_⟩
    · simp only [getArrayLoop, takeObject, List.map_cons, i1, List.cons.injEq, true_and]
      apply List.map_congr_left
      intro k hk
      exact getObject_of_getElem k _ _ (hother k (fun h => hnd2.1 (h ▸ hk)))
    · simp only [getArrayLoop, takeObject, List.reverse_cons, List.append_assoc,
        List.singleton_append]
      exact i2
    · simp only [getArrayLoop, takeObject, i3, hheap, List.length_set]
    · intro k hk
      simp only [List.mem_cons, not_or] at hk
      simp only [getArrayLoop, takeObject]
      rw [i4 k hk.2, hother k hk.1]

/-- C25: on a slab with a well-formed free list above the reserved slots, for
every array `xs` and every buffer from `malloc` that is aligned to 4 bytes,
`getArrayJsValueFromWasm0` on the pointer that `passArrayJsValueToWasm0`
returns and the length of `xs` returns the elements of `xs` in order;
`WASM_VECTOR_LEN` is the length of `xs` after the pass; and afterwards the free
list is well formed again, the handles of the pass (the next free ones,
`freshHandles`) are on it, and the slots in use are those in use before, with
the values they had.  The slab has fewer than 2^32 slots, so that a handle is
one word. -/
theorem array_marshalling_round_trips (w : Wasm) (xs : List JsVal) (g : Glue) (fl : List Nat)
    (hc : FreeChain g.heap g.heap_next fl) (hnd : fl.Nodup) (hfl : ∀ i ∈ fl, 132 ≤ i)
    (hlen : 132 ≤ g.heap.length)
    (hal : toU32 (w.malloc g.trace g.mem (xs.length * 4) 4).1 % 4 = 0)
    (hsize : g.heap.length + xs.length < 4294967296) :
    (getArrayJsValueFromWasm0 (passArrayJsValueToWasm0 w xs g).1 xs.length
      (passArrayJsValueToWasm0 w xs g).2).1 = xs ∧
    (passArrayJsValueToWasm0 w xs g).2.WASM_VECTOR_LEN = xs.length ∧
    ∃ fl2,
      FreeChain (getArrayJsValueFromWasm0 (passArrayJsValueToWasm0 w xs g).1 xs.length
          (passArrayJsValueToWasm0 w xs g).2).2.heap
        (getArrayJsValueFromWasm0 (passArrayJsValueToWasm0 w xs g).1 xs.length
          (passArrayJsValueToWasm0 w xs g).2).2.heap_next fl2 ∧
      (∀ hd ∈ freshHandles fl g.heap.length xs.length, hd ∈ fl2) ∧
      (∀ k, (k < (getArrayJsValueFromWasm0 (passArrayJsValueToWasm0 w xs g).1 xs.length
          (passArrayJsValueToWasm0 w xs g).2).2.heap.length ∧ k ∉ fl2) ↔
        (k < g.heap.length ∧ k ∉ fl)) ∧
      ∀ k, k < g.heap.length → k ∉ fl →
        getObject k (getArrayJsValueFromWasm0 (passArrayJsValueToWasm0 w xs g).1 xs.length
          (passArrayJsValueToWasm0 w xs g).2).2 = getObject k g := by
  generalize hp : toU32 (w.malloc g.trace g.mem (xs.length * 4) 4).1 = p at hal
  have hplt : p < 4294967296 := hp ▸ toU32_lt _
  generalize hg1 : ({ g with mem := (w.malloc g.trace g.mem (xs.length * 4) 4).2 } : Glue).log
    (Event.wasm "__wbindgen_malloc" [JsVal.num (xs.length * 4 : Nat), JsVal.num 4]) = g1
  have hheap1 : g1.heap = g.heap := by rw [← hg1]; rfl
  have hnext1 : g1.heap_next = g.heap_next := by rw [← hg1]; rfl
  have hc1 : FreeChain g1.heap g1.heap_next fl := by rw [hheap1, hnext1]; exact hc
  obtain ⟨a1, a2, a3, a4⟩ := addAll_spec xs g1 fl hc1 hnd
  have a5 := addAll_length xs g1 fl hc1 hnd
  rw [hheap1] at a1 a3 a5
  obtain ⟨fr, frnd⟩ := freshHandles_fresh xs.length fl g.heap.length hc.lt hnd
  obtain ⟨g2, hg2⟩ : ∃ g2 : Glue, g2 =
      { (addAll xs g1).2 with mem := writeWords g1.mem p 0 (addAll xs g1).1,
                              WASM_VECTOR_LEN := xs.length } := ⟨_, rfl⟩
  have hpass : passArrayJsValueToWasm0 w xs g = (p, g2) := by
    rw [hg2]
    simp only [passArrayJsValueToWasm0, hp, hg1, passArrayLoop_eq]
  rw [hpass]
  have hheap2 : g2.heap = (addAll xs g1).2.heap := by rw [hg2]
  have hnext2 : g2.heap_next = (addAll xs g1).2.heap_next := by rw [hg2]
  have hmem2 : g2.mem = writeWords g1.mem p 0 (addAll xs g1).1 := by rw [hg2]
  have hwords : readWords g2.mem (4 * (toU32 (p : Int) / 4)) xs.length
      = freshHandles fl g.heap.length xs.length := by
    have hpp : 4 * (toU32 (p : Int) / 4) = p := by
      have : toU32 (p : Int) = p := by
        unfold toU32
        omega
      rw [this]
      omega
    have hrd := writeWords_read p hal (addAll xs g1).1 g1.mem 0 (by
      intro x hx
      rw [a1] at hx
      have := (fr x hx).2
      omega)
    rw [(addAll_mem xs g1).2.2.2.2] at hrd
    rw [hpp, hmem2, ← a1]
    refine Eq.trans ?_ hrd
    unfold readWords
    apply List.map_congr_left
    intro k _
    rw [Nat.zero_add]
  have hsub : ∀ k ∈ freshHandles fl g.heap.length xs.length,
      132 ≤ k ∧ k < g2.heap.length ∧ k ∉ fl.drop xs.length := by
    intro k hk
    have hk2 := (mem_freshHandles xs.length fl g.heap.length k).1 hk
    rw [hheap2, a5]
    rcases hk2 with hm | ⟨h1, h2⟩
    · have hkfl : k ∈ fl := List.mem_of_mem_take hm
      refine ⟨hfl k hkfl, by have := hc.lt k hkfl; omega, fun hd => ?_⟩
      have hdis := (List.nodup_append.1 ((List.take_append_drop xs.length fl).symm ▸ hnd)).2.2
      exact hdis hm hd
    · refine ⟨by omega, h2, fun hd => ?_⟩
      have := hc.lt k (List.mem_of_mem_drop hd)
      omega
  have hc2 : FreeChain g2.heap g2.heap_next (fl.drop xs.length) := by
    rw [hheap2, hnext2]; exact a4
  obtain ⟨b1, b2, b3, b4⟩ := getArrayLoop_spec (freshHandles fl g.heap.length xs.length) g2
    (fl.drop xs.length) hc2 frnd hsub
  have hget : getArrayJsValueFromWasm0 (p : Int) xs.length g2
      = getArrayLoop (freshHandles fl g.heap.length xs.length) g2 := by
    unfold getArrayJsValueFromWasm0
    rw [hwords]
  show (getArrayJsValueFromWasm0 (p : Int) xs.length g2).1 = xs ∧ g2.WASM_VECTOR_LEN = xs.length ∧ _
  rw [hget]
  refine ⟨?_, by rw [hg2], (freshHandles fl g.heap.length xs.length).reverse ++
    fl.drop xs.length, b2, fun hd hh => by simp [hh], fun k => ?_, fun k hk hkfl => ?_⟩
  · rw [b1, ← a1]
    refine Eq.trans ?_ a2
    apply List.map_congr_left
    intro k _
    exact getObject_of_getElem k _ _ (by rw [hheap2])
  · rw [b3, hheap2, a5]
    have hm := mem_freshHandles xs.length fl g.heap.length k
    have hsplit : k ∈ fl → (k ∈ fl.take xs.length ∨ k ∈ fl.drop xs.length) := by
      intro hk
      rw [← List.mem_append, List.take_append_drop]
      exact hk
    constructor
    · rintro ⟨h1, h2⟩
      have h2a : k ∉ freshHandles fl g.heap.length xs.length :=
        fun hh => h2 (List.mem_append.2 (Or.inl (List.mem_reverse.2 hh)))
      have h2b : k ∉ fl.drop xs.length := fun hh => h2 (List.mem_append.2 (Or.inr hh))
      have h3 : k ∉ fl := fun hmf => (hsplit hmf).elim (fun h => h2a (hm.2 (Or.inl h))) h2b
      have h4 : k < g.heap.length := by
        by_contra hge
        exact h2a (hm.2 (Or.inr ⟨by omega, h1⟩))
      exact ⟨h4, h3⟩
    · rintro ⟨h1, h2⟩
      refine ⟨by omega, fun hh => ?_⟩
      rcases List.mem_append.1 hh with hh | hh
      · rcases hm.1 (List.mem_reverse.1 hh) with h | ⟨h, _⟩
        · exact h2 (List.mem_of_mem_take h)
        · omega
      · exact h2 (List.mem_of_mem_drop hh)
  · apply getObject_of_getElem
    have hkn : k ∉ freshHandles fl g.heap.length xs.length := by
      intro hm
      rcases (mem_freshHandles xs.length fl g.heap.length k).1 hm with h | ⟨h, _⟩
      · exact hkfl (List.mem_of_mem_take h)
      · omega
    rw [b4 k hkn, hheap2, a3 k hk hkfl]

set_option maxRecDepth 8000 in
theorem array_marshalling_round_trips_witness :
    (getArrayJsValueFromWasm0
      (passArrayJsValueToWasm0 fixedWasm [JsVal.obj 1, JsVal.undefined] sampleGlue).1 2
      (passArrayJsValueToWasm0 fixedWasm [JsVal.obj 1, JsVal.undefined] sampleGlue).2).1
      = [JsVal.obj 1, JsVal.undefined] ∧
    (passArrayJsValueToWasm0 fixedWasm [JsVal.obj 1, JsVal.undefined]
      sampleGlue).2.WASM_VECTOR_LEN = 2 := by
  have hlen : sampleGlue.heap_next = sampleGlue.heap.length := by decide
  have hc : FreeChain sampleGlue.heap sampleGlue.heap_next [] := hlen ▸ FreeChain.done
  have t := array_marshalling_round_trips fixedWasm [JsVal.obj 1, JsVal.undefined] sampleGlue []
    hc List.nodup_nil (by simp) (by decide) (by decide) (by decide)
  exact ⟨t.1, t.2.1⟩


/-! ## C24: the two paths of `passStringToWasm0` -/

theorem readBytes_take (m : Mem) (ptr n k : Nat) (hk : k ≤ n) :
    (readBytes m ptr n).take k = readBytes m ptr k := by
  unfold readBytes
  rw [← List.map_take, List.take_range, Nat.min_eq_left hk]

/-- On either path, with a `TextEncoder` and a `realloc` that keeps the
contents, `passStringToWasm0` returns a pointer to the UTF-8 encoding of the
string and leaves its length in `WASM_VECTOR_LEN`. -/
theorem passStringToWasm0_bytes (h : Host) (w : Wasm) (s : List Nat) (g : Glue)
    (henc : h.defined "TextEncoder" = true) (hu : ∀ u ∈ s, u < 65536)
    (hkeep : ∀ t m p o n a i, i < o → i < n →
      (w.realloc t m p o n a).2 (toU32 (w.realloc t m p o n a).1 + i) = m (p + i)) :
    ∃ ptr g1, passStringToWasm0 h w s g = (Except.ok ptr, g1) ∧
      g1.WASM_VECTOR_LEN = (utf8Encode s).length ∧
      readBytes g1.mem ptr (utf8Encode s).length = utf8Encode s := by
  unfold passStringToWasm0
  by_cases hr : w.hasRealloc = false
  · rw [if_pos hr]
    simp only [encode, henc, if_true]
    exact ⟨_, _, rfl, rfl,
      readBytes_eq_of_forall _ _ _ (fun i hi => writeBytes_inside _ _ _ i hi)⟩
  · rw [if_neg hr]
    simp only [asciiLoop_eq, Nat.zero_add, Nat.add_zero]
    have hsplit := utf8Encode_split s
    generalize hpre : s.takeWhile (fun c => decide (c ≤ 0x7F)) = pre at hsplit ⊢
    have hprele : pre.length ≤ s.length := by
      have h1 := congrArg List.length
        (List.takeWhile_append_dropWhile (fun c => decide (c ≤ 0x7F)) s)
      rw [List.length_append, hpre] at h1
      omega
    by_cases hoff : pre.length = s.length
    · rw [if_neg (not_not.mpr hoff)]
      have hpres : pre = s := by
        rw [← hpre] at hoff ⊢
        exact takeWhile_eq_self_of_length s _ hoff
      have henc_s : utf8Encode s = s := by
        rw [hsplit, hoff, List.drop_length, hpres]
        simp [utf8Encode, utf8Chunks]
      rw [henc_s, hpres]
      exact ⟨_, _, rfl, rfl,
        readBytes_eq_of_forall _ _ _ (fun i hi => writeBytes_inside _ _ _ i hi)⟩
    · rw [if_pos hoff]
      have harg1 : (if pre.length ≠ 0 then s.drop pre.length else s) = s.drop pre.length := by
        split
        · rfl
        · next h0 => rw [not_not.mp h0]; rfl
      rw [harg1]
      have hu1 : ∀ u ∈ s.drop pre.length, u < 65536 :=
        fun u hm => hu u (List.mem_of_mem_drop hm)
      have hcap : pre.length + (s.drop pre.length).length * 3 - pre.length =
          (s.drop pre.length).length * 3 := by omega
      rw [hcap, encodeString_all h _ _ henc hu1 (by omega)]
      simp only []
      have hlen3 := utf8Encode_length_le _ _ rfl hu1
      have htot : (utf8Encode s).length =
          pre.length + (utf8Encode (s.drop pre.length)).length := by
        rw [hsplit, List.length_append]
      rw [htot]
      refine ⟨_, _, rfl, rfl, ?_⟩
      simp only [Glue.log]
      rw [hsplit]
      apply readBytes_append_of_forall
      intro i hi
      have h1 : i < pre.length + (s.drop pre.length).length * 3 := by omega
      rw [hkeep _ _ _ _ _ _ i h1 hi]
      by_cases hip : i < pre.length
      · have h3 : i < s.length := by omega
        rw [writeBytes_outside _ _ _ _ (Or.inl (by omega)), hkeep _ _ _ _ _ _ i h3 h1,
          writeBytes_inside _ _ _ i hip, List.getD_append _ _ _ _ hip]
      · have h4 : i - pre.length < (utf8Encode (s.drop pre.length)).length := by omega
        have hi2 : i = pre.length + (i - pre.length) := by omega
        rw [hi2, ← Nat.add_assoc, writeBytes_inside _ _ _ _ h4,
          List.getD_append_right _ _ _ _ (by omega)]
        congr 1
        omega

/-- C24: with a `TextEncoder` and a `realloc` that keeps the contents of the
block, for every string `s` the call with `realloc` (the module exports it)
and the call without it (`realloc` is `undefined`) both return a pointer to exactly the UTF-8 encoding of `s` and leave its byte
length in `WASM_VECTOR_LEN`; on the path with `realloc` the leading code units
up to 0x7F are at the pointer byte for byte, and the encoding of the rest is at
most three bytes for each of its code units, the space reserved behind the
offset. -/
theorem string_fast_path_agrees_with_simple_path (h : Host) (w : Wasm) (s : List Nat) (g : Glue)
    (henc : h.defined "TextEncoder" = true) (hu : ∀ u ∈ s, u < 65536)
    (hkeep : ∀ t m p o n a i, i < o → i < n →
      (w.realloc t m p o n a).2 (toU32 (w.realloc t m p o n a).1 + i) = m (p + i)) :
    ∃ ptrF gF ptrS gS,
      passStringToWasm0 h { w with hasRealloc := true } s g = (Except.ok ptrF, gF) ∧
      passStringToWasm0 h { w with hasRealloc := false } s g = (Except.ok ptrS, gS) ∧
      readBytes gF.mem ptrF (utf8Encode s).length = utf8Encode s ∧
      gF.WASM_VECTOR_LEN = (utf8Encode s).length ∧
      readBytes gS.mem ptrS (utf8Encode s).length = readBytes gF.mem ptrF (utf8Encode s).length ∧
      gS.WASM_VECTOR_LEN = gF.WASM_VECTOR_LEN ∧
      readBytes gF.mem ptrF (s.takeWhile (fun c => decide (c ≤ 0x7F))).length
        = s.takeWhile (fun c => decide (c ≤ 0x7F)) ∧
      (utf8Encode s).length = (s.takeWhile (fun c => decide (c ≤ 0x7F))).length +
        (utf8Encode (s.drop (s.takeWhile (fun c => decide (c ≤ 0x7F))).length)).length ∧
      (utf8Encode (s.drop (s.takeWhile (fun c => decide (c ≤ 0x7F))).length)).length
        ≤ 3 * (s.drop (s.takeWhile (fun c => decide (c ≤ 0x7F))).length).length := by
  obtain ⟨ptrF, gF, f1, f2, f3⟩ :=
    passStringToWasm0_bytes h { w with hasRealloc := true } s g henc hu hkeep
  obtain ⟨ptrS, gS, s1, s2, s3⟩ :=
    passStringToWasm0_bytes h { w with hasRealloc := false } s g henc hu hkeep
  have hsplit := utf8Encode_split s
  have htot : (utf8Encode s).length = (s.takeWhile (fun c => decide (c ≤ 0x7F))).length +
      (utf8Encode (s.drop (s.takeWhile (fun c => decide (c ≤ 0x7F))).length)).length := by
    conv_lhs => rw [hsplit]
    rw [List.length_append]
  refine ⟨ptrF, gF, ptrS, gS, f1, s1, f3, f2, by rw [s3, f3], by rw [s2, f2], ?_, htot,
    utf8Encode_length_le _ _ rfl (fun u hm => hu u (List.mem_of_mem_drop hm))⟩
  rw [← readBytes_take gF.mem ptrF (utf8Encode s).length _ (by omega), f3]
  conv_lhs => rw [hsplit]
  rw [List.take_left']
  rfl

theorem string_fast_path_agrees_with_simple_path_witness :
    ∃ ptrF gF ptrS gS,
      passStringToWasm0 storageHost { fixedWasm with hasRealloc := true } [0x61, 0xE9, 0x62]
        sampleGlue = (Except.ok ptrF, gF) ∧
      passStringToWasm0 storageHost { fixedWasm with hasRealloc := false } [0x61, 0xE9, 0x62]
        sampleGlue = (Except.ok ptrS, gS) ∧
      readBytes gF.mem ptrF 4 = [0x61, 0xC3, 0xA9, 0x62] ∧ gF.WASM_VECTOR_LEN = 4 ∧
      readBytes gS.mem ptrS 4 = [0x61, 0xC3, 0xA9, 0x62] ∧ gS.WASM_VECTOR_LEN = 4 := by
  have hkeep : ∀ (t : List Event) (m : Mem) (p o n a i : Nat), i < o → i < n →
      (fixedWasm.realloc t m p o n a).2 (toU32 (fixedWasm.realloc t m p o n a).1 + i) =
        m (p + i) := by
    intro t m p o n a i _ hn
    have h2048 : toU32 (fixedWasm.realloc t m p o n a).1 = 2048 :=
      (by decide : toU32 2048 = 2048)
    rw [h2048]
    simp only [fixedWasm]
    rw [if_pos (by omega), Nat.add_sub_cancel_left]
  have henc : utf8Encode [0x61, 0xE9, 0x62] = [0x61, 0xC3, 0xA9, 0x62] := by decide
  obtain ⟨ptrF, gF, ptrS, gS, h1, h2, h3, h4, h5, h6, _⟩ :=
    string_fast_path_agrees_with_simple_path storageHost fixedWasm [0x61, 0xE9, 0x62] sampleGlue
      rfl (by decide) hkeep
  rw [henc] at h3 h4 h5
  exact ⟨ptrF, gF, ptrS, gS, h1, h2, h3, h4, h5.trans h3, h6.trans h4⟩


/-! ## C21: `debugString` on an object of class `Object` -/

theorem debugString_of_not_array (h : Host) (val : JsVal) (g : Glue)
    (harr : ∀ items, val ≠ JsVal.arr items) : debugString h val g = debugStringOther h val g := by
  cases val with
  | arr items => exact absurd rfl (harr items)
  | undefined => rw [debugString]
  | null => rw [debugString]
  | bool b => rw [debugString]
  | num n => rw [debugString]
  | str s => rw [debugString]
  | fn name => rw [debugString]
  | obj id => rw [debugString]
  | err name => rw [debugString]
  | lit name => rw [debugString]

/-- An object that is not an array and whose class name is `Object` reaches
the `try` block: `debugString` is what the block makes of `JSON.stringify`. -/
theorem debugString_object_branch (h : Host) (val : JsVal) (g : Glue) (s : List Nat)
    (hobj : typeOf h val = "object") (hnn : isLikeNone val = false)
    (harr : ∀ items, val ≠ JsVal.arr items)
    (hcls : h.call g.trace (JsVal.fn "toString") "call" [val] = Outcome.ret (JsVal.str s))
    (hname : classNameOf s = some (units "Object")) :
    debugString h val g =
      match andThen (callMethod h (JsVal.fn "JSON") "stringify" [val]
          (g.log (Event.call (JsVal.fn "toString") "call" [val]))) (toText h) with
      | (Except.ok t, g3) => (Except.ok (units "Object(" ++ t ++ units ")"), g3)
      | (Except.error _, g3) => (Except.ok (units "Object"), g3) := by
  rw [debugString_of_not_array h val g harr]
  unfold debugStringOther
  rw [if_neg (by rw [hobj, hnn]; decide), if_neg (by rw [hobj]; decide),
    if_neg (by rw [hobj]; decide)]
  have hcall : callMethod h (JsVal.fn "toString") "call" [val] g
      = (Except.ok (JsVal.str s), g.log (Event.call (JsVal.fn "toString") "call" [val])) := by
    simp [callMethod, isLikeNone, hcls]
  rw [hcall]
  simp only [andThen, toText, hname, if_true]

/-- C21: for every value that is an object and not an array and whose class
name, the group that the pattern finds in `toString.call(val)`, is `Object`:
when `JSON.stringify(val)` throws, `debugString` returns `Object`; when it
returns a string `t`, `debugString` returns `Object(` + `t` + `)`; when it
returns `undefined`, `debugString` returns `Object(undefined)`; and whatever
`JSON.stringify` does, `debugString` returns a string and does not throw. -/
theorem debugString_never_fails_on_plain_object (h : Host) (val : JsVal) (g : Glue)
    (s : List Nat) (hobj : typeOf h val = "object") (hnn : isLikeNone val = false)
    (harr : ∀ items, val ≠ JsVal.arr items)
    (hcls : h.call g.trace (JsVal.fn "toString") "call" [val] = Outcome.ret (JsVal.str s))
    (hname : classNameOf s = some (units "Object")) :
    (∀ e, h.call (g.log (Event.call (JsVal.fn "toString") "call" [val])).trace
        (JsVal.fn "JSON") "stringify" [val] = Outcome.throw e →
      debugString h val g = (Except.ok (units "Object"),
        (g.log (Event.call (JsVal.fn "toString") "call" [val])).log
          (Event.call (JsVal.fn "JSON") "stringify" [val]))) ∧
    (∀ t, h.call (g.log (Event.call (JsVal.fn "toString") "call" [val])).trace
        (JsVal.fn "JSON") "stringify" [val] = Outcome.ret (JsVal.str t) →
      debugString h val g = (Except.ok (units "Object(" ++ t ++ units ")"),
        (g.log (Event.call (JsVal.fn "toString") "call" [val])).log
          (Event.call (JsVal.fn "JSON") "stringify" [val]))) ∧
    (h.call (g.log (Event.call (JsVal.fn "toString") "call" [val])).trace
        (JsVal.fn "JSON") "stringify" [val] = Outcome.ret JsVal.undefined →
      debugString h val g = (Except.ok (units "Object(" ++ units "undefined" ++ units ")"),
        (g.log (Event.call (JsVal.fn "toString") "call" [val])).log
          (Event.call (JsVal.fn "JSON") "stringify" [val]))) ∧
    ∃ out g3, debugString h val g = (Except.ok out, g3) := by
  have hb := debugString_object_branch h val g s hobj hnn harr hcls hname
  refine ⟨fun e he => ?_, fun t ht => ?_, fun hu => ?_, ?_⟩
  · rw [hb]
    simp [callMethod, isLikeNone, he, andThen]
  · rw [hb]
    simp [callMethod, isLikeNone, ht, andThen, toText]
  · rw [hb]
    simp [callMethod, isLikeNone, hu, andThen, toText]
  · rw [hb]
    generalize andThen (callMethod h (JsVal.fn "JSON") "stringify" [val]
      (g.log (Event.call (JsVal.fn "toString") "call" [val]))) (toText h) = r
    obtain ⟨r1, r2⟩ := r
    cases r1 with
    | ok t => exact ⟨_, _, rfl⟩
    | error e => exact ⟨_, _, rfl⟩

set_option maxRecDepth 8000 in
theorem debugString_never_fails_on_plain_object_witness :
    classNameOf (units "[object Object]") = some (units "Object") ∧
    debugString cyclicHost (JsVal.obj 7) sampleGlue = (Except.ok (units "Object"),
      (sampleGlue.log (Event.call (JsVal.fn "toString") "call" [JsVal.obj 7])).log
        (Event.call (JsVal.fn "JSON") "stringify" [JsVal.obj 7])) :=
  ⟨by decide,
   (debugString_never_fails_on_plain_object cyclicHost (JsVal.obj 7) sampleGlue
      (units "[object Object]") rfl rfl (fun _ hh => by cases hh) rfl (by decide)).1
      (JsVal.err "TypeError") rfl⟩

end MagicPiano
